import Mathlib

/-! Clue server: lobby, dealer and turn engine.

A shallow embedding of `server.c` (with the frame layouts of `frames.h`) and of the rules
frame decoder of the client `randy.c`.

* C arrays are lists; a buffer together with its fill count (`hand`, `hand_size`) keeps both.
* `int16_t` stores go through `toInt16`; `int` arithmetic stays in `Int`, since no `int`
  value of the program leaves the 32-bit range.
* `rand()` is a stream `rand : Nat → Nat`; the `k`-th call returns `rand k`.
* A result of `none` means that the C program has no defined result on that input
  (failed `assert`, division by zero, access outside a buffer) or that a loop ran out of fuel.
* What the server sends is a list of `Sent` frames, one per header and payload pair, addressed
  by roster position; what it receives is given as the results of its `recv` calls.
* Frame bodies that are compared byte by byte (rules frame, start frame) are lists of bytes,
  numbers below 256; `int16_t` fields are in the byte order of the host.
* The `printf` diagnostics are outside the embedding of the frames and the game state of
  `run_turn`, `query_step` and `suggestion_legal_loop`. The reads of `card_names` that these
  diagnostics make with card IDs from the network are embedded separately: `validation_loop`
  and `query_step_names` have no defined result when such a read falls outside the table, and
  `solve_name_lookups` gives the indices that the solve branch reads.
-/

namespace Clue

/-! ## Data model -/

/-- Conversion of an `int` to `int16_t`: two's complement wrap-around. -/
def toInt16 (x : Int) : Int := (x + 32768) % 65536 - 32768

/-- The part of `Settings_t` the game logic reads: `num_cards[i]` for each of the
`num_categories` categories. -/
structure Settings where
  port : Nat
  num_cards : List Int
deriving DecidableEq

/-- Field `num_categories` of `Settings_t`: the length of `num_cards`. -/
def Settings.num_categories (settings : Settings) : Nat := settings.num_cards.length

/-- The card count of `main`: one increment per card of each category. -/
def total_cards (settings : Settings) : Int :=
  (settings.num_cards.map (fun n => ((n.toNat : Nat) : Int))).sum

/-- Record `Player_t`. The buffer `hand` has its allocated length; its first `hand_size`
entries are the cards held. -/
structure Player where
  fd : Int
  eliminated : Int
  id : Int
  name : List Nat
  hand_size : Int
  hand : List Int
deriving DecidableEq

/-- The cards a player holds: the first `hand_size` entries of the buffer. -/
def Player.cards (p : Player) : List Int := p.hand.take p.hand_size.toNat

/-! ## Sorting and membership (`qsort_int16s`, `player_has_card`) -/

/-- Comparator `qsort_int16s`: the difference of the two `int16_t` values, computed in `int`. -/
def qsort_int16s (left right : Int) : Int := left - right

/-- Order induced by the comparator: `left` may precede `right`. -/
def qsort_le (left right : Int) : Prop := qsort_int16s left right ≤ 0

instance : DecidableRel qsort_le := fun a b => inferInstanceAs (Decidable (qsort_int16s a b ≤ 0))

instance : IsTotal Int qsort_le := ⟨fun a b => by
  unfold qsort_le qsort_int16s; omega⟩

instance : IsTrans Int qsort_le := ⟨fun a b c => by
  unfold qsort_le qsort_int16s; omega⟩

/-- Library call `qsort(base, nmemb, sizeof(int16_t), qsort_int16s)`: the first `nmemb`
entries of the buffer are put in comparator order, the rest of the buffer is untouched.
The sorting procedure itself is libc; insertion sort stands for it. -/
def qsort (base : List Int) (nmemb : Int) : Option (List Int) :=
  if 0 ≤ nmemb ∧ nmemb ≤ base.length then
    some ((base.take nmemb.toNat).insertionSort qsort_le ++ base.drop nmemb.toNat)
  else none

/-- The `while (low_idx <= high_idx)` loop of `player_has_card`; one unit of fuel per
iteration. -/
def player_has_card_loop (hand : List Int) (card : Int) : Nat → Int → Int → Option Int
  | 0, _, _ => none
  | fuel + 1, low_idx, high_idx =>
      if low_idx ≤ high_idx then
        let mid_idx := (high_idx + low_idx).tdiv 2
        if mid_idx < 0 then none
        else
          match hand[mid_idx.toNat]? with
          | none => none
          | some h =>
              if card < h then player_has_card_loop hand card fuel low_idx (mid_idx - 1)
              else if card > h then player_has_card_loop hand card fuel (mid_idx + 1) high_idx
              else some 1
      else some 0

/-- Function `player_has_card`: binary search of `card` in the first `hand_size` entries. -/
def player_has_card (player : Player) (card : Int) : Option Int :=
  player_has_card_loop player.hand card (player.hand_size.toNat + 1) 0 (player.hand_size - 1)

/-! ## Dealer (`start_game`, `shuffle`) -/

/-- Inner loop over `j` of `start_game`: every card of the category except the solution card
is appended to the deck. -/
def deck_category (base_idx solution_i num : Int) (deck : List Int) : List Int :=
  deck ++ ((List.range num.toNat).filter (fun (j : Nat) => base_idx + (j : Int) ≠ solution_i)).map
    (fun (j : Nat) => toInt16 (base_idx + (j : Int)))

/-- Loop over the categories of `start_game`: `k` counts the calls of `rand()` made so far,
`base_idx` is the `int16_t` running base. Returns the solution and the deck. -/
def pick_solution (rand : Nat → Nat) :
    List Int → Nat → Int → List Int → List Int → Option (List Int × List Int)
  | [], _, _, solution, deck => some (solution, deck)
  | num :: rest, k, base_idx, solution, deck =>
      if num = 0 then none
      else
        let solution_i := toInt16 (base_idx + ((rand k : Nat) : Int).tmod num)
        pick_solution rand rest (k + 1) (toInt16 (base_idx + num)) (solution ++ [solution_i])
          (deck_category base_idx solution_i num deck)

/-- One iteration of `shuffle`: the three `memcpy` calls exchange positions `idx` and `i`. -/
def swap_at {α : Type} (arr : List α) (idx i : Nat) : List α :=
  match arr[idx]?, arr[i]? with
  | some a, some b => (arr.set idx b).set i a
  | _, _ => arr

/-- Function `shuffle` on the first `n` entries: iteration `i` draws `idx = rand() % (i + 1)`.
`k` counts the calls of `rand()` made before. -/
def shuffle {α : Type} (rand : Nat → Nat) (k : Nat) (arr : List α) (n : Nat) : List α :=
  (List.range n).foldl (fun a i => swap_at a (rand (k + i) % (i + 1)) i) arr

/-- Allocation `players[i].hand = malloc((deck_len / num_players + 1) * sizeof(int16_t))`
for every player; `hand_size` is left as it was. -/
def alloc_hands (deck_len num_players : Nat) (players : List Player) : List Player :=
  players.map (fun p => { p with hand := List.replicate (deck_len / num_players + 1) 0 })

/-- Statement `players[deal_idx].hand[players[deal_idx].hand_size++] = card`. -/
def deal_card (players : List Player) (deal_idx : Nat) (card : Int) : Option (List Player) :=
  match players[deal_idx]? with
  | none => none
  | some p =>
      if 0 ≤ p.hand_size ∧ p.hand_size < p.hand.length then
        some (players.set deal_idx
          { p with hand := p.hand.set p.hand_size.toNat card,
                   hand_size := toInt16 (p.hand_size + 1) })
      else none

/-- The dealing loop of `start_game` over the remaining deck. -/
def deal (num_players : Nat) : List Int → List Player → Nat → Option (List Player)
  | [], players, _ => some players
  | card :: deck, players, deal_idx =>
      match deal_card players deal_idx card with
      | none => none
      | some players1 => deal num_players deck players1 ((deal_idx + 1) % num_players)

/-- The `qsort` of each hand at the head of the start-frame loop. -/
def sort_hands : List Player → Option (List Player)
  | [] => some []
  | p :: players =>
      match qsort p.hand p.hand_size, sort_hands players with
      | some hand, some rest => some ({ p with hand := hand } :: rest)
      | _, _ => none

/-- What `start_game` hands to `run_game`, with the shuffled deck it dealt from. -/
structure Game where
  solution : List Int
  deck : List Int
  players : List Player
deriving DecidableEq

/-- Allocation and dealing loop of `start_game` for the shuffled deck and roster. -/
def deal_hands (deck : List Int) (players : List Player) : Option (List Player) :=
  let num_players := players.length
  if num_players = 0 then none
  else deal num_players deck (alloc_hands deck.length num_players players) 0

/-- Function `start_game` up to the call of `run_game`: asserts, solution and deck, the two
shuffles, allocation and dealing of the hands, sorting of the hands. -/
def start_game (rand : Nat → Nat) (settings : Settings) (total_cards : Int)
    (players : List Player) : Option Game :=
  let num_players := players.length
  let num_categories := settings.num_categories
  if ¬ ((num_categories : Int) > 0) then none
  else if ¬ (total_cards - (num_categories : Int) > 0) then none
  else
    match pick_solution rand settings.num_cards 0 0 [] [] with
    | none => none
    | some (solution, deck0) =>
        if ((deck0.length : Nat) : Int) ≠ total_cards - (num_categories : Int) then none
        else
          let deck := shuffle rand num_categories deck0 deck0.length
          let players1 := shuffle rand (num_categories + deck0.length) players num_players
          match deal_hands deck players1 with
          | none => none
          | some players2 =>
              match sort_hands players2 with
              | none => none
              | some players3 => some { solution := solution, deck := deck, players := players3 }

/-- The writes of the dealing loop of `start_game`: for each card in turn, the position
`deal_idx` and the index `players[deal_idx].hand_size` at which the card is stored. The record
ends with the first write that falls outside its buffer, after which the loop has no defined
behaviour. -/
def deal_writes (num_players : Nat) : List Int → List Player → Nat → List (Nat × Int)
  | [], _, _ => []
  | card :: deck, players, deal_idx =>
      match players[deal_idx]? with
      | none => []
      | some p =>
          (deal_idx, p.hand_size) ::
            (match deal_card players deal_idx card with
             | none => []
             | some players1 =>
                 deal_writes num_players deck players1 ((deal_idx + 1) % num_players))

/-! ## Solve attempt (`run_game`, the `FRAME_TYPE_SOLVE_ATTEMPT` branch) -/

/-- Inner loop over `j`: `found` after scanning `client_guess` for `solution[i]`
(`found++; break` on the first match). -/
def solve_found (s : Int) : List Int → Int
  | [] => 0
  | g :: client_guess => if s = g then 1 else solve_found s client_guess

/-- Outer loop over `i`: `wrong` becomes 1 when some `solution[i]` is not found. -/
def solve_wrong_loop (client_guess : List Int) : List Int → Int → Int
  | [], wrong => wrong
  | s :: solution, wrong =>
      solve_wrong_loop client_guess solution (if solve_found s client_guess = 0 then 1 else wrong)

/-- Value of `wrong` after the loops, starting from `wrong = 0`. -/
def solve_wrong (solution client_guess : List Int) : Int :=
  solve_wrong_loop client_guess solution 0

/-- Field `correct` of the solve result: `wrong ? 0 : 1`. -/
def solve_correct (solution client_guess : List Int) : Int :=
  if solve_wrong solution client_guess ≠ 0 then 0 else 1

/-! ## Frames sent by the server (`frames.h`) -/

/-- Header `Frame_t` as received from a client. -/
structure Frame_t where
  type : Int
  data_length : Int
deriving DecidableEq

def FRAME_TYPE_ERROR : Int := 1
def FRAME_TYPE_ABORT : Int := 2
def FRAME_TYPE_TURN : Int := 5
def FRAME_TYPE_TURN_RESPONSE : Int := 6
def FRAME_TYPE_QUERY : Int := 7
def FRAME_TYPE_QUERY_RESPONSE : Int := 8
def FRAME_TYPE_QUERY_RETURN : Int := 9
def FRAME_TYPE_SOLVE_ATTEMPT : Int := 10
def FRAME_TYPE_SOLVE_RESULT : Int := 11

/-- Payload of a frame the server sends, by frame structure. -/
inductive Payload
  | error (error_length : Int) (error : String)
  | abort (error_length : Int) (error : String)
  | turn (player_id : Int)
  | query (player_id : Int) (suggestion : List Int)
  | query_return (player_id : Int) (card_id : Int)
  | solve_result (player : Int) (correct : Int) (cards : List Int)
  | address_of (pointee : Payload)
deriving DecidableEq

/-- One frame handed to `send`: `dest` is the position `i` of `players[i].fd`, followed by the
header fields and the payload. `Payload.address_of x` are the bytes found at the address of
a pointer variable that points to `x`. -/
structure Sent where
  dest : Nat
  type : Int
  data_length : Int
  payload : Payload
deriving DecidableEq

/-- How a fragment of the server leaves: `next` goes on with the next iteration of the
enclosing loop, `stop` leaves the loop (`break`, or its condition failed), `exited` is
`exit(code)`, `assert_failed` is a failed `assert`. -/
inductive Flow
  | next
  | stop
  | exited (code : Int)
  | assert_failed
deriving DecidableEq

/-- Length `strlen(reason)` of a reason text (the texts are ASCII). -/
def strlen (reason : String) : Int := (reason.length : Nat)

/-- Function `send_error_frame` for the player at position `dest`. -/
def send_error_frame (dest : Nat) (reason : String) : Sent :=
  { dest := dest, type := FRAME_TYPE_ERROR, data_length := 4 + strlen reason,
    payload := Payload.error (strlen reason) reason }

/-- The frames `abort_game` sends, one per player; the function then calls `exit(1)`. -/
def abort_game (num_players : Nat) (reason : String) : List Sent :=
  (List.range num_players).map (fun i =>
    { dest := i, type := FRAME_TYPE_ABORT, data_length := 4 + strlen reason,
      payload := Payload.abort (strlen reason) reason })

/-- The recurring error report after a short `recv`: "Timed out" when `recv` gave -1 with
`errno == EAGAIN`, `perror` alone (no frame) for another errno, else the message `msg`. -/
def recv_error (dest : Nat) (received_size : Int) (eagain : Bool) (msg : String) : List Sent :=
  if received_size = -1 then
    if eagain then [send_error_frame dest "Timed out"] else []
  else [send_error_frame dest msg]

/-- Conversion of an `int` to `size_t` (64 bits), as the usual arithmetic conversions do
when an `int` is compared with a `sizeof`. -/
def toSizeT (x : Int) : Int := x % 18446744073709551616

/-! ## Turn engine (`run_game`) -/

/-- What the two `recv` calls on an obligated responder deliver: the return value of the
header `recv` and whether `errno` was `EAGAIN` after it, the header then in
`query_response_frame_header`, and the same for the body with the `card_id` read. -/
structure QueryReply where
  header_received : Int
  header_eagain : Bool
  header : Frame_t
  body_received : Int
  body_eagain : Bool
  card_id : Int
deriving DecidableEq

/-- What the two `recv` calls on the active player deliver: as `QueryReply`, with the
`int16_t` entries read into `client_guess` or `client_suggestion`. -/
structure TurnReply where
  header_received : Int
  header_eagain : Bool
  header : Frame_t
  body_received : Int
  body_eagain : Bool
  cards : List Int
deriving DecidableEq

/-- The loop `for (i...) if (player_has_card(..., client_suggestion[i])) { has_one = 1; break; }`. -/
def has_one_loop (player : Player) : List Int → Option Int
  | [] => some 0
  | card :: client_suggestion =>
      match player_has_card player card with
      | none => none
      | some r => if r ≠ 0 then some 1 else has_one_loop player client_suggestion

/-- Broadcast of the query frame naming the player at `suggestion_turn_idx`. -/
def query_frames (num_categories num_players : Nat) (player_id : Int)
    (client_suggestion : List Int) : List Sent :=
  (List.range num_players).map (fun i =>
    { dest := i, type := FRAME_TYPE_QUERY, data_length := 2 + 2 * (num_categories : Int),
      payload := Payload.query player_id client_suggestion })

/-- The loop that sends `show_frame`: nothing to the shower, the card to the suggester,
0 to everyone else. -/
def show_frames (num_players turn_idx suggestion_turn_idx : Nat) (player_id card_id : Int) :
    List Sent :=
  (List.range num_players).filterMap (fun i =>
    if i = suggestion_turn_idx then none
    else if i = turn_idx then
      some { dest := i, type := FRAME_TYPE_QUERY_RETURN, data_length := 4,
             payload := Payload.query_return player_id card_id }
    else
      some { dest := i, type := FRAME_TYPE_QUERY_RETURN, data_length := 4,
             payload := Payload.query_return player_id 0 })

/-- The loop that sends `noshow_frame` (card -1) to every player. -/
def noshow_frames (num_players : Nat) (player_id : Int) : List Sent :=
  (List.range num_players).map (fun i =>
    { dest := i, type := FRAME_TYPE_QUERY_RETURN, data_length := 4,
      payload := Payload.query_return player_id (-1) })

/-- Body of the rotation loop of `run_game` for the player at `suggestion_turn_idx`: the frames
sent and the control flow. The `printf` calls are left out, and the `recv` of the body is taken
to store at most the 2 bytes of `query_response_frame`; `query_step_names` has both. -/
def query_step (num_categories : Nat) (players : List Player) (turn_idx suggestion_turn_idx : Nat)
    (client_suggestion : List Int) (reply : QueryReply) : Option (List Sent × Flow) :=
  let num_players := players.length
  match players[suggestion_turn_idx]? with
  | none => none
  | some q =>
      let queries := query_frames num_categories num_players q.id client_suggestion
      match has_one_loop q client_suggestion with
      | none => none
      | some has_one =>
          if has_one ≠ 0 then
            if toSizeT reply.header_received < 8 then
              some (queries
                ++ recv_error suggestion_turn_idx reply.header_received reply.header_eagain
                    "Obligated to respond"
                ++ abort_game num_players "Player failed to respond to suggestion",
                Flow.exited 1)
            else if reply.header.data_length ≠ 2 then some (queries, Flow.assert_failed)
            else if reply.body_received < reply.header.data_length then
              some (queries
                ++ recv_error suggestion_turn_idx reply.body_received reply.body_eagain
                    "Incomplete query response"
                ++ abort_game num_players "Player failed to respond to suggestion",
                Flow.exited 1)
            else
              match player_has_card q reply.card_id with
              | none => none
              | some r =>
                  if r = 0 then
                    some (queries
                      ++ abort_game num_players "Player responded to a suggestion illegally",
                      Flow.exited 1)
                  else
                    some (queries
                      ++ show_frames num_players turn_idx suggestion_turn_idx q.id reply.card_id,
                      Flow.stop)
          else some (queries ++ noshow_frames num_players q.id, Flow.next)

/-- Body of the rotation loop of `run_game` for the player at `suggestion_turn_idx`, with what
`query_step` leaves out: the `recv` of the body asks for `sizeof(query_response_frame_header)`,
8 bytes, into the 2-byte `query_response_frame`, and the `printf` that follows the membership
test, in the cheating branch before `abort_game`, reads
`card_names[query_response_frame.card_id]`. `num_names` is the number of entries of
`card_names`; a `recv` that stores more than 2 bytes and a read outside the table have no
defined result. -/
def query_step_names (num_names : Int) (num_categories : Nat) (players : List Player)
    (turn_idx suggestion_turn_idx : Nat) (client_suggestion : List Int) (reply : QueryReply) :
    Option (List Sent × Flow) :=
  let num_players := players.length
  match players[suggestion_turn_idx]? with
  | none => none
  | some q =>
      let queries := query_frames num_categories num_players q.id client_suggestion
      match has_one_loop q client_suggestion with
      | none => none
      | some has_one =>
          if has_one ≠ 0 then
            if toSizeT reply.header_received < 8 then
              some (queries
                ++ recv_error suggestion_turn_idx reply.header_received reply.header_eagain
                    "Obligated to respond"
                ++ abort_game num_players "Player failed to respond to suggestion",
                Flow.exited 1)
            else if reply.header.data_length ≠ 2 then some (queries, Flow.assert_failed)
            else if 2 < reply.body_received then none
            else if reply.body_received < reply.header.data_length then
              some (queries
                ++ recv_error suggestion_turn_idx reply.body_received reply.body_eagain
                    "Incomplete query response"
                ++ abort_game num_players "Player failed to respond to suggestion",
                Flow.exited 1)
            else
              match player_has_card q reply.card_id with
              | none => none
              | some r =>
                  if r = 0 then
                    if reply.card_id < 0 ∨ num_names ≤ reply.card_id then none
                    else
                      some (queries
                        ++ abort_game num_players "Player responded to a suggestion illegally",
                        Flow.exited 1)
                  else if reply.card_id < 0 ∨ num_names ≤ reply.card_id then none
                  else
                    some (queries
                      ++ show_frames num_players turn_idx suggestion_turn_idx q.id reply.card_id,
                      Flow.stop)
          else some (queries ++ noshow_frames num_players q.id, Flow.next)

/-- The rotation loop `for (suggestion_turn_idx = ...; suggestion_turn_idx != turn_idx; ...)`
entered at `suggestion_turn_idx`; one unit of fuel per test of the loop condition.
`reply s` is what the player at position `s` sends when obligated. -/
def suggestion_round (num_categories : Nat) (players : List Player) (turn_idx : Nat)
    (client_suggestion : List Int) (reply : Nat → QueryReply) :
    Nat → Nat → Option (List Sent × Flow)
  | 0, _ => none
  | fuel + 1, suggestion_turn_idx =>
      if suggestion_turn_idx = turn_idx then some ([], Flow.stop)
      else
        match query_step num_categories players turn_idx suggestion_turn_idx client_suggestion
            (reply suggestion_turn_idx) with
        | none => none
        | some (sent, Flow.next) =>
            match suggestion_round num_categories players turn_idx client_suggestion reply fuel
                ((suggestion_turn_idx + 1) % players.length) with
            | none => none
            | some (sent1, flow) => some (sent ++ sent1, flow)
        | some (sent, flow) => some (sent, flow)

/-- The validation loop of a suggestion, over `num_cards[i]` and the sorted
`client_suggestion[i]` side by side: the value of `legal` that the range checks give. The
`printf` at the head of each iteration is left out; `validation_loop` has it. -/
def suggestion_legal_loop : List Int → List Int → Int → Int → Int
  | num :: num_cards, card :: client_suggestion, base_idx, legal =>
      let offset_in_category := card - base_idx
      suggestion_legal_loop num_cards client_suggestion (base_idx + num)
        (if offset_in_category < 0 ∨ offset_in_category ≥ num then 0 else legal)
  | _, _, _, legal => legal

/-- Value of `legal` for a received suggestion: `qsort`, then the validation loop from
`base_idx = 0`, `legal = 1`. -/
def suggestion_legal (settings : Settings) (client_suggestion : List Int) : Option Int :=
  match qsort client_suggestion settings.num_categories with
  | none => none
  | some sorted => some (suggestion_legal_loop settings.num_cards sorted 0 1)

/-- The validation loop of a suggestion with the `printf` at the head of each iteration, which
reads `card_names[client_suggestion[i]]` before the range check. `num_names` is the number of
entries of `card_names`; a read outside the table has no defined result. -/
def validation_loop (num_names : Int) : List Int → List Int → Int → Int → Option Int
  | num :: num_cards, card :: client_suggestion, base_idx, legal =>
      if card < 0 ∨ num_names ≤ card then none
      else
        let offset_in_category := card - base_idx
        validation_loop num_names num_cards client_suggestion (base_idx + num)
          (if offset_in_category < 0 ∨ offset_in_category ≥ num then 0 else legal)
  | _, _, _, legal => some legal

/-- Validation of a received suggestion as `run_game` runs it: `qsort`, then the loop from
`base_idx = 0`, `legal = 1`, with its reads of `card_names`, the table of `total_cards`
entries that `main` allocates as `card_names_debug`. -/
def validate_suggestion (settings : Settings) (client_suggestion : List Int) : Option Int :=
  match qsort client_suggestion settings.num_categories with
  | none => none
  | some sorted => validation_loop (total_cards settings) settings.num_cards sorted 0 1

/-- The count `not_eliminated` of the players whose `eliminated` flag is 0. -/
def count_not_eliminated (players : List Player) : Int :=
  ((players.filter (fun p => p.eliminated = 0)).length : Nat)

/-- The loop `while (players[turn_idx].eliminated) { turn_idx++; turn_idx %= num_players; }`;
one unit of fuel per test of the loop condition. -/
def skip_eliminated (players : List Player) : Nat → Nat → Option Nat
  | 0, _ => none
  | fuel + 1, turn_idx =>
      match players[turn_idx]? with
      | none => none
      | some p =>
          if p.eliminated ≠ 0 then skip_eliminated players fuel ((turn_idx + 1) % players.length)
          else some turn_idx

/-- Broadcast of the turn frame naming `player_id`. -/
def turn_frames (num_players : Nat) (player_id : Int) : List Sent :=
  (List.range num_players).map (fun i =>
    { dest := i, type := FRAME_TYPE_TURN, data_length := 1, payload := Payload.turn player_id })

/-- Broadcast of the solve result. The second `send` is given `&solve_broadcast_frame`, the
address of the pointer, so the bytes sent are those at the pointer variable. -/
def solve_result_frames (num_categories num_players : Nat) (player correct : Int)
    (client_guess : List Int) : List Sent :=
  (List.range num_players).map (fun i =>
    { dest := i, type := FRAME_TYPE_SOLVE_RESULT, data_length := 2 + (num_categories : Int) * 2,
      payload := Payload.address_of (Payload.solve_result player correct client_guess) })

/-- State of `run_game` after one iteration of its `while (1)` loop. -/
structure Turn where
  sent : List Sent
  flow : Flow
  players : List Player
  turn_idx : Int
deriving DecidableEq

/-- One iteration of the `while (1)` loop of `run_game`, entered with the `turn_idx` of the
previous iteration (-1 at the start). `reply` is what the active player sends, `query_reply s`
what the player at position `s` sends when obligated to show. The result is the frames sent
and the state of the game; the `printf` calls with their reads of `card_names` are left out
(see `validation_loop`, `query_step_names` and `solve_name_lookups`). -/
def run_turn (settings : Settings) (solution : List Int) (players : List Player) (turn_idx : Int)
    (reply : TurnReply) (query_reply : Nat → QueryReply) : Option Turn :=
  let num_players := players.length
  let num_categories := settings.num_categories
  if num_players = 0 then none
  else
    let turn_idx0 := ((turn_idx + 1).tmod (num_players : Int)).toNat
    if count_not_eliminated players = 0 then
      some { sent := abort_game num_players "All players eliminated", flow := Flow.exited 1,
             players := players, turn_idx := turn_idx0 }
    else
      match skip_eliminated players num_players turn_idx0 with
      | none => none
      | some t =>
          match players[t]? with
          | none => none
          | some active =>
              let announced := turn_frames num_players active.id
              if reply.header_received < 8 then
                some { sent := announced
                         ++ recv_error t reply.header_received reply.header_eagain
                              "Incomplete frame header"
                         ++ abort_game num_players "Communication error",
                       flow := Flow.exited 1, players := players, turn_idx := t }
              else if reply.header.type = FRAME_TYPE_SOLVE_ATTEMPT then
                let expectected_len : Int := (num_categories : Int) * 2
                if reply.body_received < expectected_len
                    ∨ expectected_len ≠ reply.header.data_length then
                  some { sent := announced
                           ++ recv_error t reply.body_received reply.body_eagain
                                "Incomplete solution attempt",
                         flow := Flow.next, players := players, turn_idx := t }
                else
                  let wrong := solve_wrong solution reply.cards
                  let result := solve_result_frames num_categories num_players active.id
                    (if wrong ≠ 0 then 0 else 1) reply.cards
                  if wrong = 0 then
                    some { sent := announced ++ result, flow := Flow.stop,
                           players := players, turn_idx := t }
                  else
                    some { sent := announced ++ result, flow := Flow.next,
                           players := players.set t { active with eliminated := 1 },
                           turn_idx := t }
              else if reply.header.type = FRAME_TYPE_TURN_RESPONSE then
                let expectected_len : Int := (num_categories : Int) * 2
                if reply.body_received < expectected_len
                    ∨ expectected_len ≠ reply.header.data_length then
                  some { sent := announced
                           ++ recv_error t reply.body_received reply.body_eagain
                                "Incomplete suggestion",
                         flow := Flow.next, players := players, turn_idx := t }
                else
                  match qsort reply.cards num_categories with
                  | none => none
                  | some client_suggestion =>
                      if suggestion_legal_loop settings.num_cards client_suggestion 0 1 = 0 then
                        some { sent := announced
                                 ++ [send_error_frame t "Not one card per category suggested"],
                               flow := Flow.next, players := players, turn_idx := t }
                      else
                        match suggestion_round num_categories players t client_suggestion
                            query_reply num_players ((t + 1) % num_players) with
                        | none => none
                        | some (sent, Flow.stop) =>
                            some { sent := announced ++ sent, flow := Flow.next,
                                   players := players, turn_idx := t }
                        | some (sent, flow) =>
                            some { sent := announced ++ sent, flow := flow,
                                   players := players, turn_idx := t }
              else
                some { sent := announced
                         ++ [send_error_frame t
                              "Expected either FRAME_TYPE_TURN_RESPONSE or FRAME_TYPE_SOLVE_ATTEMPT"],
                       flow := Flow.next, players := players, turn_idx := t }

/-- Function `run_game`, run for at most `fuel` iterations of its `while (1)` loop; iteration
`k` receives `reply k` and `query_reply k`. The result is the frames sent and how the process
ended; a `break` from the loop reaches `abort_game(players, num_players, "Game ended")`. -/
def run_game (settings : Settings) (solution : List Int) (reply : Nat → TurnReply)
    (query_reply : Nat → Nat → QueryReply) :
    Nat → Nat → List Player → Int → Option (List Sent × Flow)
  | 0, _, _, _ => none
  | fuel + 1, k, players, turn_idx =>
      match run_turn settings solution players turn_idx (reply k) (query_reply k) with
      | none => none
      | some turn =>
          match turn.flow with
          | Flow.next =>
              match run_game settings solution reply query_reply fuel (k + 1) turn.players
                  turn.turn_idx with
              | none => none
              | some (sent, flow) => some (turn.sent ++ sent, flow)
          | Flow.stop =>
              some (turn.sent ++ abort_game players.length "Game ended", Flow.exited 1)
          | flow => some (turn.sent, flow)

/-! ## Start frames (`start_game`, the loop that sends `FRAME_TYPE_START`) -/

/-- Conversion of an `int` to `int8_t`: two's complement wrap-around. -/
def toInt8 (x : Int) : Int := (x + 128) % 256 - 128

/-- The byte that holds an `int8_t` or `char` value. -/
def int8_byte (x : Int) : Nat := (x % 256).toNat

/-- The two bytes that hold an `int16_t` value, in the byte order of the host
(little-endian), which server and client share. -/
def int16_bytes (x : Int) : List Nat := [(x % 256).toNat, (x / 256 % 256).toNat]

def FRAME_TYPE_START : Int := 4

/-- Field `name_length` of `Player_t`: `get_players` keeps in `name` exactly the
`name_length` bytes it received. -/
def Player.name_length (p : Player) : Int := (p.name.length : Nat)

/-- The sum `total_player_name_length` that `start_game` takes over the roster. -/
def total_player_name_length (players : List Player) : Int :=
  (players.map Player.name_length).sum

/-- The start frame for one recipient: `data_length` of its header and the sections of
`StartFrame_t` as `start_game` writes them. -/
structure StartFrame where
  data_length : Int
  your_hand_size : Int
  num_players : Int
  your_hand : List Int
  player_order : List Int
  player_hand_sizes : List Int
  player_names : List (Int × List Nat)
deriving DecidableEq

/-- Iteration `i` of the start-frame loop of `start_game`, after the `qsort` at its head. The
frame reads the hand of `players[i]`, which that `qsort` has sorted, and of every player the
ID, the hand size and the name, which no `qsort` changes; it is therefore computed from the
roster that `sort_hands` leaves. Copying `hand_size` entries out of a shorter buffer has no
defined result. -/
def start_frame (players : List Player) (i : Nat) : Option StartFrame :=
  let num_players : Int := (players.length : Nat)
  match players[i]? with
  | none => none
  | some p =>
      if 0 ≤ p.hand_size ∧ p.hand_size ≤ p.hand.length then
        some { data_length := 4 + 2 * p.hand_size + 1 * num_players + 2 * num_players
                 + 1 * num_players + total_player_name_length players,
               your_hand_size := p.hand_size,
               num_players := toInt8 num_players,
               your_hand := p.hand.take p.hand_size.toNat,
               player_order := players.map Player.id,
               player_hand_sizes := players.map Player.hand_size,
               player_names := players.map
                 (fun q => (q.name_length, q.name.take q.name_length.toNat)) }
      else none

/-- The bytes of the start frame in the order of the pointers `start_game` derives:
`your_hand_size`, `num_players`, the reserved byte that `calloc` zeroed, `your_hand`,
`player_order`, `player_hand_sizes`, and the names, each after its length byte. -/
def start_frame_bytes (f : StartFrame) : List Nat :=
  int16_bytes f.your_hand_size ++ [int8_byte f.num_players, 0]
    ++ f.your_hand.flatMap int16_bytes
    ++ f.player_order.map int8_byte
    ++ f.player_hand_sizes.flatMap int16_bytes
    ++ f.player_names.flatMap (fun x => int8_byte x.1 :: x.2)

/-! ## Lobby (`get_players`) -/

/-- What one iteration of the admission loop of `get_players` meets: the value `accept`
returns and whether `errno` was `EAGAIN` after it; for each of the three `recv` calls the
value returned and whether `errno` was `EAGAIN`; the value found in
`connect_frame.name_length` and the bytes found in `player_name` after the calls; the value
the blocking `send` of the rules frame returns; and the value found in the `hand_size` field
of the roster slot, which `get_players` does not write. -/
structure Handshake where
  client_fd : Int
  accept_eagain : Bool
  header_received : Int
  header_eagain : Bool
  connect_received : Int
  connect_eagain : Bool
  name_length : Int
  name_received : Int
  name_eagain : Bool
  player_name : List Nat
  rules_sent : Int
  hand_size : Int
deriving DecidableEq

/-- A frame the lobby sends, addressed by file descriptor: an error frame with its reason, or
the rules frame with the `data_length` of its header and the `player_id` of its body. -/
inductive LobbySent
  | error (fd : Int) (reason : String)
  | rules (fd : Int) (data_length : Int) (player_id : Int)
deriving DecidableEq

/-- Library call `strnlen(s, maxlen)`. -/
def strnlen (s : List Nat) (maxlen : Nat) : Nat :=
  ((s.take maxlen).takeWhile (fun b => b ≠ 0)).length

/-- How one iteration of the admission loop ends: `retry` after an `accept` that timed out,
`fatal` in `exit(1)`, `rejected` with the connection closed, `admitted` with the player
appended to the roster. -/
inductive Admission
  | retry
  | fatal
  | rejected (sent : List LobbySent)
  | admitted (sent : List LobbySent) (player : Player)
deriving DecidableEq

/-- The reason sent after a `recv` whose `size_t` result is below the size expected. -/
def lobby_reason (received : Int) (eagain : Bool) (msg : String) : String :=
  if toSizeT received = toSizeT (-1) ∧ eagain = true then "Timed out" else msg

/-- Body of the admission loop of `get_players` when `*num_players` is `num_players`. The
results of `recv` are stored in the `size_t` variable `data_len` before they are compared. -/
def handshake (h : Handshake) (rules_len : Int) (num_players : Int) : Admission :=
  if h.client_fd = -1 then
    if h.accept_eagain then Admission.retry else Admission.fatal
  else if toSizeT h.header_received < 8 then
    Admission.rejected [LobbySent.error h.client_fd
      (lobby_reason h.header_received h.header_eagain "Incomplete frame header")]
  else if toSizeT h.connect_received < 1 then
    Admission.rejected [LobbySent.error h.client_fd
      (lobby_reason h.connect_received h.connect_eagain "Incomplete connect frame")]
  else if h.name_length < 0 then
    Admission.rejected [LobbySent.error h.client_fd "Negative name length not allowed"]
  else if toSizeT h.name_received < toSizeT h.name_length then
    Admission.rejected [LobbySent.error h.client_fd
      (lobby_reason h.name_received h.name_eagain "Incomplete connect frame name")]
  else if toSizeT (strnlen h.player_name h.name_length.toNat : Nat) < toSizeT h.name_length then
    Admission.rejected [LobbySent.error h.client_fd "Null character not allowed in name"]
  else if h.rules_sent < 0 then Admission.rejected []
  else
    Admission.admitted [LobbySent.rules h.client_fd rules_len (toInt8 num_players)]
      { fd := h.client_fd, eliminated := 0, id := toInt8 num_players,
        name := h.player_name.take h.name_length.toNat, hand_size := h.hand_size, hand := [] }

/-- State in which `get_players` leaves: the frames sent, the roster, and `Flow.stop` for a
return to `main` or `Flow.exited 1`. -/
structure Lobby where
  sent : List LobbySent
  players : List Player
  flow : Flow
deriving DecidableEq

/-- Function `get_players` over the iterations of its loop that begin before the deadline;
the loop also ends when `*num_players` reaches 128. -/
def get_players (rules_len : Int) : List Handshake → List LobbySent → List Player → Lobby
  | [], sent, players => { sent := sent, players := players, flow := Flow.stop }
  | h :: rest, sent, players =>
      if ¬ ((players.length : Int) < 128) then
        { sent := sent, players := players, flow := Flow.stop }
      else
        match handshake h rules_len players.length with
        | Admission.retry => get_players rules_len rest sent players
        | Admission.fatal => { sent := sent, players := players, flow := Flow.exited 1 }
        | Admission.rejected s => get_players rules_len rest (sent ++ s) players
        | Admission.admitted s p => get_players rules_len rest (sent ++ s) (players ++ [p])

/-! ## Rules frame (`main`, and `handle_frame` of the client `randy`) -/

/-- Library call `strlen` on a card name: the bytes before the first zero byte. -/
def strlen_bytes (s : List Nat) : Nat := (s.takeWhile (fun b => b ≠ 0)).length

/-- The string `settings->card_names[i][j]`; the loader allocates `num_cards[i]` names for
category `i`. -/
def card_name (card_names : List (List (List Nat))) (i j : Nat) : List Nat :=
  (card_names.getD i []).getD j []

/-- The names in the order in which the loops of `main` over `i` and `j` visit them, from
category `i` on; the position in this list is `card_idx`. -/
def names_from (card_names : List (List (List Nat))) : Nat → List Int → List (List Nat)
  | _, [] => []
  | i, num :: num_cards =>
      (List.range num.toNat).map (fun j => card_name card_names i j)
        ++ names_from card_names (i + 1) num_cards

/-- The table `card_names_debug` of `main`: the card names by card ID. -/
def card_names_debug (settings : Settings) (card_names : List (List (List Nat))) :
    List (List Nat) :=
  names_from card_names 0 settings.num_cards

/-- The sum `all_names_len` of `main`. -/
def all_names_len (settings : Settings) (card_names : List (List (List Nat))) : Int :=
  ((card_names_debug settings card_names).map (fun s => ((strlen_bytes s : Nat) : Int))).sum

/-- The size `rules_len` of the buffer `main` allocates for the rules frame. -/
def rules_len (settings : Settings) (card_names : List (List (List Nat))) : Int :=
  4 + (settings.num_categories : Int) * 2 + total_cards settings * 2 + total_cards settings
    + all_names_len settings card_names

/-- What `main` writes at `rules_card_names` for one card: the `int8_t` length and that many
bytes of the name. A `memcpy` of a negative length has no defined result. -/
def rules_card_name (name : List Nat) : Option (List Nat) :=
  let name_length := toInt8 ((strlen_bytes name : Nat) : Int)
  if name_length < 0 then none
  else some (int8_byte name_length :: name.take name_length.toNat)

/-- The name region of the rules frame. -/
def rules_card_names : List (List Nat) → Option (List Nat)
  | [] => some []
  | name :: names =>
      match rules_card_name name, rules_card_names names with
      | some a, some b => some (a ++ b)
      | _, _ => none

/-- The rules frame body that `main` prepares, with `player_id` as `get_players` sets it:
the fields of `RulesFrame_t`, then the regions `rules_category_sizes`,
`rules_category_card_ids` and `rules_card_names`, each written in full. -/
def rules_frame (settings : Settings) (card_names : List (List (List Nat)))
    (player_id : Int) : Option (List Nat) :=
  match rules_card_names (card_names_debug settings card_names) with
  | none => none
  | some names =>
      some ([int8_byte (toInt8 player_id), int8_byte (toInt8 (settings.num_categories : Int))]
        ++ int16_bytes (toInt16 (total_cards settings))
        ++ settings.num_cards.flatMap int16_bytes
        ++ (List.range (total_cards settings).toNat).flatMap
            (fun (card_idx : Nat) => int16_bytes (toInt16 (card_idx : Int)))
        ++ names)

/-- The `int8_t` (or `char`, signed on the host) at offset `off` of a received buffer. -/
def int8_at (buffer : List Nat) (off : Nat) : Option Int :=
  match buffer[off]? with
  | some b => some (toInt8 (b : Int))
  | none => none

/-- The `int16_t` at offset `off` of a received buffer, in host byte order. -/
def int16_at (buffer : List Nat) (off : Nat) : Option Int :=
  match buffer[off]?, buffer[off + 1]? with
  | some lo, some hi => some (toInt16 ((lo : Int) + 256 * (hi : Int)))
  | _, _ => none

/-- The part of `Knowledge_t` that the client fills from the rules frame. -/
structure Knowledge where
  player_id : Int
  total_cards : Int
  num_categories : Int
  num_cards_in_category : List Int
  card_names : List (List Nat)
deriving DecidableEq

/-- Client loop `knowledge.num_cards_in_category[i] = num_cards_in_category[i]` over the
remaining `count` entries, the next at offset `off`. -/
def read_counts (buffer : List Nat) : Nat → Nat → Option (List Int)
  | 0, _ => some []
  | count + 1, off =>
      match int16_at buffer off, read_counts buffer count (off + 2) with
      | some c, some rest => some (c :: rest)
      | _, _ => none

/-- Client loop over the card names, `count` names left, `card_name_data` at offset
`cursor`: the length byte is read as `char`, then that many bytes are copied. -/
def read_names (buffer : List Nat) : Nat → Nat → Option (List (List Nat))
  | 0, _ => some []
  | count + 1, cursor =>
      match int8_at buffer cursor with
      | none => none
      | some card_name_length =>
          if card_name_length < 0 ∨ cursor + 1 + card_name_length.toNat > buffer.length then none
          else
            match read_names buffer count (cursor + 1 + card_name_length.toNat) with
            | none => none
            | some rest =>
                some ((buffer.drop (cursor + 1)).take card_name_length.toNat :: rest)

/-- Branch `FRAME_TYPE_RULES` of the client function `handle_frame` on the received body. -/
def handle_rules (buffer : List Nat) : Option Knowledge :=
  match int8_at buffer 0, int8_at buffer 1, int16_at buffer 2 with
  | some player_id, some num_categories, some num_cards =>
      let card_name_data : Int := 4 + num_categories * 2 + num_cards * 2
      if card_name_data < 0 ∨ card_name_data > buffer.length then none
      else
        match read_counts buffer num_categories.toNat 4,
            read_names buffer num_cards.toNat card_name_data.toNat with
        | some counts, some names =>
            some { player_id := player_id, total_cards := num_cards,
                   num_categories := num_categories, num_cards_in_category := counts,
                   card_names := names }
        | _, _ => none
  | _, _, _ => none

/-! ## Vocabulary of the statements -/

/-- The card IDs `a, a + 1, ..., a + n - 1`. -/
def ints (a : Int) (n : Nat) : List Int := (List.range n).map (fun (j : Nat) => a + (j : Int))

/-- Sum of the category sizes as a natural number. -/
def card_count (num_cards : List Int) : Nat := (num_cards.map Int.toNat).sum

/-- The deck indices below `i` that the rotation over `n` players gives to position `p`. -/
def dealt_indices (n p i : Nat) : List Nat := (List.range i).filter (fun j => j % n = p)

/-- The cards of `deck` that the rotation over `n` players gives to position `p`. -/
def dealt_cards (deck : List Int) (n p : Nat) : List Int :=
  (dealt_indices n p deck.length).map (fun j => deck.getD j 0)

/-- State of the roster after `i` cards of `deck` have been dealt: position `p` holds the
cards at the indices congruent to `p`, in the buffer of `cap` slots allocated for it. -/
def DealInv (deck : List Int) (n cap : Nat) (orig : List Player) (i : Nat)
    (players : List Player) : Prop :=
  players.length = n ∧ orig.length = n ∧
  ∀ p, p < n → ∃ o q, orig[p]? = some o ∧ players[p]? = some q ∧
    q = { o with
          hand_size := ((dealt_indices n p i).length : Nat),
          hand := (dealt_indices n p i).map (fun j => deck.getD j 0)
            ++ List.replicate (cap - (dealt_indices n p i).length) 0 }

/-- Relation between a player before (`p`) and after (`q`) the `qsort` of the hand. -/
def SortedFrom (p q : Player) : Prop :=
  q.cards.Perm p.cards ∧ q.cards.Sorted (· ≤ ·) ∧ q.hand_size = p.hand_size
    ∧ 0 ≤ q.hand_size ∧ q.hand_size ≤ q.hand.length ∧ q.hand.length = p.hand.length
    ∧ q.fd = p.fd ∧ q.eliminated = p.eliminated ∧ q.id = p.id ∧ q.name = p.name

/-- First card ID of category `i`: the sum of the sizes of the earlier categories. -/
def category_base (num_cards : List Int) (i : Nat) : Int := (num_cards.take i).sum

/-- Card `c` lies in the ID range of category `i` when the first category starts at `base`. -/
def in_range (base : Int) (num_cards : List Int) (i : Nat) (c : Int) : Bool :=
  decide (base + category_base num_cards i ≤ c
    ∧ c < base + category_base num_cards i + num_cards.getD i 0)

/-- Card `c` lies in the ID range of category `i` of the catalog. -/
def in_category (num_cards : List Int) (i : Nat) (c : Int) : Bool := in_range 0 num_cards i c

/-- Card `c` lies in the ID range of some category. -/
def in_some : Int → List Int → Int → Bool
  | _, [], _ => false
  | base, n :: ns, c => decide (base ≤ c ∧ c < base + n) || in_some (base + n) ns c

/-- The player holds at least one of the suggested cards. -/
def holds_any (p : Player) (client_suggestion : List Int) : Bool :=
  client_suggestion.any (fun c => decide (c ∈ p.cards))

/-- The hand is as `start_game` leaves it: `hand_size` within the buffer and the cards held
sorted ascending. -/
def hand_ok (p : Player) : Prop :=
  0 ≤ p.hand_size ∧ p.hand_size ≤ p.hand.length ∧ p.cards.Sorted (· ≤ ·)

/-- The responder sent a complete query response: a full header announcing 2 payload bytes,
and then at least those 2 bytes. -/
def reply_complete (reply : QueryReply) : Prop :=
  ¬ toSizeT reply.header_received < 8 ∧ reply.header.data_length = 2
    ∧ ¬ reply.body_received < reply.header.data_length

/-- The iteration of `run_game` entered with `turn_idx` is the turn of the player `active` at
position `t`, who answers the turn frame with a complete suggestion that sorts to
`client_suggestion` and passes validation. -/
def suggestion_turn (settings : Settings) (players : List Player) (turn_idx : Int)
    (reply : TurnReply) (t : Nat) (client_suggestion : List Int) (active : Player) : Prop :=
  players.length ≠ 0
    ∧ count_not_eliminated players ≠ 0
    ∧ skip_eliminated players players.length
        ((turn_idx + 1).tmod (players.length : Int)).toNat = some t
    ∧ players[t]? = some active
    ∧ ¬ reply.header_received < 8
    ∧ reply.header.type = FRAME_TYPE_TURN_RESPONSE
    ∧ ¬ (reply.body_received < (settings.num_categories : Int) * 2
          ∨ (settings.num_categories : Int) * 2 ≠ reply.header.data_length)
    ∧ qsort reply.cards settings.num_categories = some client_suggestion
    ∧ suggestion_legal_loop settings.num_cards client_suggestion 0 1 ≠ 0

/-- Catalog of the sample game: categories of 3 and 4 cards. -/
def demo_settings : Settings := { port := 1, num_cards := [3, 4] }

/-- Roster of the sample game as dealt by `start_game` for the solution `[0, 5]`. -/
def demo_players : List Player :=
  [Player.mk 5 0 2 [] 2 [1, 6], Player.mk 4 0 1 [] 2 [2, 3], Player.mk 3 0 0 [] 1 [4, 0]]

/-- The player at position 0 suggests the cards 4 and 2. -/
def demo_suggest : TurnReply :=
  { header_received := 8, header_eagain := false,
    header := { type := FRAME_TYPE_TURN_RESPONSE, data_length := 4 },
    body_received := 4, body_eagain := false, cards := [4, 2] }

/-- A complete query response naming `card_id`. -/
def demo_answer (card_id : Int) : QueryReply :=
  { header_received := 8, header_eagain := false,
    header := { type := FRAME_TYPE_QUERY_RESPONSE, data_length := 2 },
    body_received := 2, body_eagain := false, card_id := card_id }

/-- Position at which the iteration of `run_game` entered with `turn_idx` starts looking for
the active player: `(turn_idx + 1) % num_players`. -/
def turn_start (players : List Player) (turn_idx : Int) : Nat :=
  ((turn_idx + 1).tmod (players.length : Int)).toNat

/-- The answer to the turn frame is a solve attempt: a full frame header of type
`FRAME_TYPE_SOLVE_ATTEMPT`, a declared length of `2 * num_categories` and that many payload
bytes received. -/
def solve_attempt (settings : Settings) (reply : TurnReply) : Prop :=
  ¬ reply.header_received < 8
    ∧ reply.header.type = FRAME_TYPE_SOLVE_ATTEMPT
    ∧ ¬ (reply.body_received < (settings.num_categories : Int) * 2
          ∨ (settings.num_categories : Int) * 2 ≠ reply.header.data_length)

/-- The `eliminated` flags of the roster, by position. -/
def flags (players : List Player) : List Int := players.map Player.eliminated

/-- A complete solve attempt on the catalog of the sample game naming `cards`. -/
def demo_solve (cards : List Int) : TurnReply :=
  { header_received := 8, header_eagain := false,
    header := { type := FRAME_TYPE_SOLVE_ATTEMPT, data_length := 4 },
    body_received := 4, body_eagain := false, cards := cards }

/-- The roster of the sample game after the players at positions 0 and 2 were eliminated. -/
def demo_eliminated : List Player :=
  [Player.mk 5 1 2 [] 2 [1, 6], Player.mk 4 0 1 [] 2 [2, 3], Player.mk 3 1 0 [] 1 [4, 0]]

/-- The answer to the turn frame is one the engine refuses and recovers from: after a full
frame header, (a) a complete suggestion on which validation returns `legal = 0`, which it
does only when every card ID it looks up is an index of `card_names`, (b) a solve attempt or a
suggestion whose declared length is not `2 * num_categories`, the `recv` of the payload not
having failed with an error other than a timeout, or (c) a frame of any other type. -/
def refused_reply (settings : Settings) (reply : TurnReply) : Prop :=
  ¬ reply.header_received < 8
    ∧ ((reply.header.type = FRAME_TYPE_TURN_RESPONSE
          ∧ ¬ (reply.body_received < (settings.num_categories : Int) * 2
                ∨ (settings.num_categories : Int) * 2 ≠ reply.header.data_length)
          ∧ validate_suggestion settings reply.cards = some 0)
       ∨ ((reply.header.type = FRAME_TYPE_SOLVE_ATTEMPT
            ∨ reply.header.type = FRAME_TYPE_TURN_RESPONSE)
          ∧ reply.header.data_length ≠ (settings.num_categories : Int) * 2
          ∧ ¬ (reply.body_received = -1 ∧ reply.body_eagain = false))
       ∨ (reply.header.type ≠ FRAME_TYPE_TURN_RESPONSE
          ∧ reply.header.type ≠ FRAME_TYPE_SOLVE_ATTEMPT))

/-- A suggestion of the sample game naming `cards`. -/
def demo_suggestion (cards : List Int) : TurnReply :=
  { header_received := 8, header_eagain := false,
    header := { type := FRAME_TYPE_TURN_RESPONSE, data_length := 4 },
    body_received := 4, body_eagain := false, cards := cards }

/-- A solve attempt whose header declares 6 payload bytes where the sample game has
`2 * 2`, and whose payload `recv` fails with an error that is not a timeout. -/
def demo_broken : TurnReply :=
  { header_received := 8, header_eagain := false,
    header := { type := FRAME_TYPE_SOLVE_ATTEMPT, data_length := 6 },
    body_received := -1, body_eagain := false, cards := [] }

/-- The indices with which the `printf` calls of the solve branch of `run_game` read
`card_names`, in order: `client_guess[i]` for every category `i`, as received. -/
def solve_name_lookups (num_categories : Nat) (client_guess : List Int) : List Int :=
  client_guess.take num_categories

/-- What identifies a player in the start frame: the ID and the name. -/
def Player.key (p : Player) : Int × List Nat := (p.id, p.name)

/-- A roster as `get_players` returns it: three players named "Al", "B" and "Cy" with the IDs
0, 1 and 2 and empty hands. -/
def demo_lobby : List Player :=
  [Player.mk 3 0 0 [65, 108] 0 [], Player.mk 4 0 1 [66] 0 [], Player.mk 5 0 2 [67, 121] 0 []]

/-- What `start_game` makes of `demo_lobby` on the catalog of the sample game when the
`k`-th call of `rand()` returns `7 * k + 3`. -/
def demo_game : Game :=
  Game.mk [0, 5] [6, 3, 4, 1, 2]
    [Player.mk 5 0 2 [67, 121] 2 [1, 6], Player.mk 4 0 1 [66] 2 [2, 3],
      Player.mk 3 0 0 [65, 108] 1 [4, 0]]

/-- The rules frames among the frames of the lobby, in order: the file descriptor each was
sent to and the `player_id` it carries. -/
def rules_sent (sent : List LobbySent) : List (Int × Int) :=
  sent.filterMap (fun e =>
    match e with
    | LobbySent.rules fd _ player_id => some (fd, player_id)
    | LobbySent.error _ _ => none)

/-- The connection was accepted and the handshake fails in one of these ways: a `recv`
delivers some but fewer bytes than asked for (frame header, connect frame, or name), the
name length is negative, or there is a zero byte within the declared name length. -/
def failed_handshake (h : Handshake) : Prop :=
  h.client_fd ≠ -1
    ∧ ((0 ≤ h.header_received ∧ h.header_received < 8)
       ∨ (0 ≤ h.connect_received ∧ h.connect_received < 1)
       ∨ h.name_length < 0
       ∨ (0 ≤ h.name_received ∧ h.name_received < h.name_length)
       ∨ (∃ k : Nat, ((k : Nat) : Int) < h.name_length ∧ h.player_name[k]? = some 0))

/-- A connection that sends a complete connect frame with the name `name`, and to which the
rules frame is sent in full. -/
def demo_connect (fd : Int) (name : List Nat) : Handshake :=
  { client_fd := fd, accept_eagain := false, header_received := 8, header_eagain := false,
    connect_received := 1, connect_eagain := false, name_length := (name.length : Nat),
    name_received := (name.length : Nat), name_eagain := false, player_name := name,
    rules_sent := 70, hand_size := 0 }

/-- A connection whose `recv` of the frame header times out, and which then delivers a
complete connect frame with the name "B". -/
def demo_timed_out : Handshake :=
  { demo_connect 5 [66] with header_received := -1, header_eagain := true }

/-- Card names of a catalog with the categories "A", "BC" and "D": the bytes of each name. -/
def demo_names : List (List (List Nat)) := [[[65], [66, 67]], [[68]]]

/-- A full lobby: 128 connections to the file descriptors 4 to 131 that each complete the
handshake with the name "A". -/
def full_lobby : List Handshake :=
  (List.range 128).map (fun (i : Nat) => demo_connect ((i : Int) + 4) [65])

/-- The results of `rand()` under which iteration `i` of `shuffle` draws the index `js[i]`. -/
def draws (js : List Nat) : Nat → Nat := fun i => js.getD i 0

/-- A sequence of index choices for `shuffle` on `n` entries: `n` choices, the `i`-th of them
in `[0, i]`. -/
def valid_choices (n : Nat) (js : List Nat) : Prop :=
  js.length = n ∧ ∀ i, i < n → js.getD i 0 ≤ i

/-- All sequences of index choices for `shuffle` on `n` entries. -/
def choice_seqs : Nat → List (List Nat)
  | 0 => [[]]
  | n + 1 => (choice_seqs n).flatMap (fun js => (List.range (n + 1)).map (fun j => js ++ [j]))

/-! ## Theorems -/

theorem solve_found_eq_zero (s : Int) (guess : List Int) :
    solve_found s guess = 0 ↔ s ∉ guess := by
  induction guess with
  | nil => simp [solve_found]
  | cons g gs ih =>
      by_cases h : s = g
      · simp [solve_found, h]
      · simp [solve_found, h, ih]

theorem solve_wrong_loop_eq_zero (guess : List Int) (solution : List Int) (wrong : Int) :
    solve_wrong_loop guess solution wrong = 0 ↔ wrong = 0 ∧ ∀ s ∈ solution, s ∈ guess := by
  induction solution generalizing wrong with
  | nil => simp [solve_wrong_loop]
  | cons s ss ih =>
      simp only [solve_wrong_loop, ih, List.mem_cons, forall_eq_or_imp]
      by_cases h : s ∈ guess
      · have h0 : solve_found s guess ≠ 0 := by
          rw [Ne, solve_found_eq_zero]; exact not_not.mpr h
        simp [h0, h]
      · have h0 : solve_found s guess = 0 := (solve_found_eq_zero s guess).mpr h
        simp [h0, h]

theorem solve_correct_iff_mem (solution guess : List Int) :
    solve_correct solution guess = 1 ↔ ∀ s ∈ solution, s ∈ guess := by
  unfold solve_correct solve_wrong
  by_cases h : solve_wrong_loop guess solution 0 = 0
  · have := (solve_wrong_loop_eq_zero guess solution 0).mp h
    simp only [h, ne_eq, not_true_eq_false, if_false, true_iff]
    exact this.2
  · have h2 : ¬ (∀ s ∈ solution, s ∈ guess) := fun hh =>
      h ((solve_wrong_loop_eq_zero guess solution 0).mpr ⟨rfl, hh⟩)
    simp [h, h2]


theorem mem_iff_getD_lt (l : List Int) (x : Int) :
    x ∈ l ↔ ∃ j, j < l.length ∧ l.getD j 0 = x := by
  constructor
  · intro h
    obtain ⟨j, hj, hx⟩ := List.getElem_of_mem h
    exact ⟨j, hj, by simp [List.getD_eq_getElem, hj, hx]⟩
  · rintro ⟨j, hj, hx⟩
    rw [List.getD_eq_getElem _ _ hj] at hx
    exact hx ▸ List.getElem_mem hj

theorem solve_correct_iff_positions (num_categories : Nat) (solution guess : List Int)
    (hs : solution.length = num_categories) (hg : guess.length = num_categories) :
    solve_correct solution guess = 1 ↔
      ∀ i, i < num_categories → ∃ j, j < num_categories ∧ guess.getD j 0 = solution.getD i 0 := by
  rw [solve_correct_iff_mem]
  constructor
  · intro h i hi
    have hmem : solution.getD i 0 ∈ solution := by
      rw [List.getD_eq_getElem _ _ (by omega)]
      exact List.getElem_mem _
    have := (mem_iff_getD_lt guess _).mp (h _ hmem)
    simpa [hg] using this
  · intro h s hsmem
    obtain ⟨i, hi, hx⟩ := (mem_iff_getD_lt solution s).mp hsmem
    obtain ⟨j, hj, hjx⟩ := h i (by omega)
    exact (mem_iff_getD_lt guess s).mpr ⟨j, by omega, by rw [hjx, hx]⟩

/-- C2, as the code has it: for a solution and a solve attempt of `num_categories` card IDs
each, the engine judges the guess correct (`correct = 1`) if and only if every card ID of the
solution occurs at some position of the guess; the comparison is by membership, not by
position. -/
theorem solve_correct_iff_every_solution_card_found (num_categories : Nat)
    (solution guess : List Int)
    (hs : solution.length = num_categories) (hg : guess.length = num_categories) :
    solve_correct solution guess = 1 ↔
      ∀ i, i < num_categories → ∃ j, j < num_categories ∧ guess.getD j 0 = solution.getD i 0 :=
  solve_correct_iff_positions num_categories solution guess hs hg

theorem solve_correct_iff_every_solution_card_found_witness :
    solve_correct [3, 10] [10, 3] = 1 ↔
      ∀ i, i < 2 → ∃ j, j < 2 ∧ ([10, 3] : List Int).getD j 0 = ([3, 10] : List Int).getD i 0 :=
  solve_correct_iff_every_solution_card_found 2 [3, 10] [10, 3] rfl rfl

/-- C2 as stated fails: with solution `[3, 10]` the guess `[10, 3]` is judged correct although
it differs from the solution at both category positions. -/
theorem solve_positional_counterexample :
    ¬ (solve_correct [3, 10] [10, 3] = 1 ↔
        ∀ i, i < 2 → ([10, 3] : List Int).getD i 0 = ([3, 10] : List Int).getD i 0) := by
  intro h
  have h1 : solve_correct [3, 10] [10, 3] = 1 := by decide
  have h2 := h.mp h1 0 (by decide)
  simp at h2

/-- C3: a solve attempt of `num_categories` card IDs in which every card of the solution
occurs at some position is judged correct, whatever the order; with solution `[3, 10]` the
guess `[10, 3]` is reported correct. -/
theorem solve_correct_of_rearranged (num_categories : Nat) (solution guess : List Int)
    (hs : solution.length = num_categories) (hg : guess.length = num_categories)
    (hall : ∀ i, i < num_categories →
      ∃ j, j < num_categories ∧ guess.getD j 0 = solution.getD i 0) :
    solve_correct solution guess = 1 ∧ solve_wrong solution guess = 0
      ∧ solve_correct [3, 10] [10, 3] = 1 := by
  have h1 := (solve_correct_iff_positions num_categories solution guess hs hg).mpr hall
  refine ⟨h1, ?_, by decide⟩
  unfold solve_correct at h1
  by_contra hne
  simp [hne] at h1

theorem solve_correct_of_rearranged_witness :
    solve_correct [3, 10] [10, 3] = 1 ∧ solve_wrong [3, 10] [10, 3] = 0
      ∧ solve_correct [3, 10] [10, 3] = 1 :=
  solve_correct_of_rearranged 2 [3, 10] [10, 3] rfl rfl (by decide)

/-! ### Binary search -/

theorem qsort_le_iff (a b : Int) : qsort_le a b ↔ a ≤ b := by
  unfold qsort_le qsort_int16s
  omega

theorem sorted_le_of_sorted_qsort_le {l : List Int} (h : l.Sorted qsort_le) :
    l.Sorted (· ≤ ·) :=
  List.Pairwise.imp (fun {a b} hab => (qsort_le_iff a b).mp hab) h

theorem sorted_get_le {l : List Int} (h : l.Sorted (· ≤ ·)) {i j : Nat} (hij : i ≤ j)
    (hj : j < l.length) : l.getD i 0 ≤ l.getD j 0 := by
  rw [List.getD_eq_getElem _ _ hj, List.getD_eq_getElem _ _ (by omega)]
  rcases Nat.eq_or_lt_of_le hij with h1 | h1
  · subst h1; exact le_refl _
  · exact (List.pairwise_iff_getElem.mp h) i j (by omega) hj h1

/-- The loop of `player_has_card` on a sorted buffer segment: with more fuel than the width
of the window it returns, and it returns 1 exactly when the card is in the window. -/
theorem player_has_card_loop_spec (hand : List Int) (card : Int) (hs : Nat)
    (hlen : hs ≤ hand.length) (hsorted : (hand.take hs).Sorted (· ≤ ·)) :
    ∀ (fuel : Nat) (low high : Int), 0 ≤ low → high < hs → (high + 1 - low).toNat < fuel →
      ((∃ k : Nat, low ≤ k ∧ (k : Int) ≤ high ∧ hand.getD k 0 = card) →
        player_has_card_loop hand card fuel low high = some 1) ∧
      ((¬ ∃ k : Nat, low ≤ k ∧ (k : Int) ≤ high ∧ hand.getD k 0 = card) →
        player_has_card_loop hand card fuel low high = some 0) := by
  have hget : ∀ i j : Nat, i ≤ j → j < hs → hand.getD i 0 ≤ hand.getD j 0 := by
    intro i j hij hj
    have h1 := sorted_get_le hsorted hij (by simp; omega)
    have e1 : (hand.take hs).getD i 0 = hand.getD i 0 := by
      simp [List.getD_eq_getElem?_getD, List.getElem?_take, show i < hs by omega]
    have e2 : (hand.take hs).getD j 0 = hand.getD j 0 := by
      simp [List.getD_eq_getElem?_getD, List.getElem?_take, hj]
    rw [e1, e2] at h1
    exact h1
  intro fuel
  induction fuel with
  | zero => intro low high _ _ hf; omega
  | succ fuel ih =>
      intro low high hlow hhigh hf
      unfold player_has_card_loop
      by_cases hle : low ≤ high
      · have hmid : (high + low).tdiv 2 = (high + low) / 2 :=
          Int.tdiv_eq_ediv (by omega) (by omega)
        simp only [hle, if_true, hmid]
        have hm0 : ¬ ((high + low) / 2 < 0) := by omega
        simp only [hm0, if_false]
        obtain ⟨m, hm⟩ : ∃ m : Nat, ((high + low) / 2 : Int) = m :=
          ⟨((high + low) / 2).toNat, by omega⟩
        have hmlt : m < hand.length := by omega
        rw [hm, Int.toNat_ofNat, List.getElem?_eq_getElem hmlt]
        have hgm : hand.getD m 0 = hand[m] := List.getD_eq_getElem _ _ hmlt
        simp only []
        by_cases h1 : card < hand[m]
        · simp only [h1, if_true]
          have hih := ih low ((m : Int) - 1) hlow (by omega) (by omega)
          constructor
          · rintro ⟨k, hk1, hk2, hk3⟩
            refine hih.1 ⟨k, hk1, ?_, hk3⟩
            by_contra hcon
            have := hget m k (by omega) (by omega)
            rw [hgm, hk3] at this
            omega
          · intro hno
            refine hih.2 ?_
            rintro ⟨k, hk1, hk2, hk3⟩
            exact hno ⟨k, hk1, by omega, hk3⟩
        · simp only [h1, if_false]
          by_cases h2 : card > hand[m]
          · simp only [h2, if_true]
            have hih := ih ((m : Int) + 1) high (by omega) hhigh (by omega)
            constructor
            · rintro ⟨k, hk1, hk2, hk3⟩
              refine hih.1 ⟨k, ?_, hk2, hk3⟩
              by_contra hcon
              have := hget k m (by omega) (by omega)
              rw [hgm, hk3] at this
              omega
            · intro hno
              refine hih.2 ?_
              rintro ⟨k, hk1, hk2, hk3⟩
              exact hno ⟨k, by omega, hk2, hk3⟩
          · simp only [h2, if_false]
            have : ∃ k : Nat, low ≤ k ∧ (k : Int) ≤ high ∧ hand.getD k 0 = card :=
              ⟨m, by omega, by omega, by rw [hgm]; omega⟩
            exact ⟨fun _ => trivial, fun hno => absurd this hno⟩
      · simp only [hle, if_false]
        have : ¬ ∃ k : Nat, low ≤ k ∧ (k : Int) ≤ high ∧ hand.getD k 0 = card := by
          rintro ⟨k, hk1, hk2, _⟩; omega
        exact ⟨fun h => absurd h this, fun _ => trivial⟩

theorem mem_take_iff_getD (hand : List Int) (hs : Nat) (hlen : hs ≤ hand.length) (card : Int) :
    card ∈ hand.take hs ↔ ∃ k : Nat, (0 : Int) ≤ k ∧ (k : Int) ≤ (hs : Int) - 1
      ∧ hand.getD k 0 = card := by
  rw [mem_iff_getD_lt]
  constructor
  · rintro ⟨k, hk1, hk2⟩
    simp at hk1
    refine ⟨k, by omega, by omega, ?_⟩
    rw [← hk2]
    simp [List.getD_eq_getElem?_getD, List.getElem?_take, hk1.1]
  · rintro ⟨k, _, hk2, hk3⟩
    refine ⟨k, by simp; omega, ?_⟩
    rw [← hk3]
    simp [List.getD_eq_getElem?_getD, List.getElem?_take, show k < hs by omega]

/-- Binary search agrees with membership on a player whose cards are sorted, for any fuel
above the hand size. -/
theorem player_has_card_loop_eq (p : Player) (card : Int) (fuel : Nat) (h0 : 0 ≤ p.hand_size)
    (hlen : p.hand_size ≤ p.hand.length) (hsorted : p.cards.Sorted (· ≤ ·))
    (hfuel : p.hand_size.toNat < fuel) :
    player_has_card_loop p.hand card fuel 0 (p.hand_size - 1)
      = some (if card ∈ p.cards then 1 else 0) := by
  obtain ⟨hs, hhs⟩ : ∃ hs : Nat, p.hand_size = hs := ⟨p.hand_size.toNat, by omega⟩
  have hcards : p.cards = p.hand.take hs := by simp [Player.cards, hhs]
  rw [hcards] at hsorted
  have hspec := player_has_card_loop_spec p.hand card hs (by omega) hsorted fuel 0
    (p.hand_size - 1) (le_refl 0) (by omega) (by omega)
  have hiff := mem_take_iff_getD p.hand hs (by omega) card
  rw [hcards]
  by_cases hmem : card ∈ p.hand.take hs
  · rw [if_pos hmem]
    apply hspec.1
    obtain ⟨k, hk1, hk2, hk3⟩ := hiff.mp hmem
    exact ⟨k, hk1, by omega, hk3⟩
  · rw [if_neg hmem]
    apply hspec.2
    rintro ⟨k, hk1, hk2, hk3⟩
    exact hmem (hiff.mpr ⟨k, by omega, by omega, hk3⟩)

theorem player_has_card_eq (p : Player) (card : Int) (h0 : 0 ≤ p.hand_size)
    (hlen : p.hand_size ≤ p.hand.length) (hsorted : p.cards.Sorted (· ≤ ·)) :
    player_has_card p card = some (if card ∈ p.cards then 1 else 0) :=
  player_has_card_loop_eq p card _ h0 hlen hsorted (by omega)

/-! ### Solution and deck -/

theorem toInt16_of_fits {x : Int} (h1 : -32768 ≤ x) (h2 : x ≤ 32767) : toInt16 x = x := by
  unfold toInt16; omega

theorem toInt16_range (x : Int) : -32768 ≤ toInt16 x ∧ toInt16 x ≤ 32767 := by
  unfold toInt16; omega

theorem ints_append (a : Int) (m n : Nat) : ints a (m + n) = ints a m ++ ints (a + m) n := by
  unfold ints
  rw [List.range_add, List.map_append, List.map_map]
  congr 1
  apply List.map_congr_left
  intro j _
  simp only [Function.comp, Nat.cast_add]
  omega

theorem ints_nodup (a : Int) (n : Nat) : (ints a n).Nodup := by
  unfold ints
  apply List.Nodup.map _ (List.nodup_range n)
  intro i j hij
  simp only at hij
  omega

theorem mem_ints (a : Int) (n : Nat) (c : Int) : c ∈ ints a n ↔ a ≤ c ∧ c < a + n := by
  unfold ints
  simp only [List.mem_map, List.mem_range]
  constructor
  · rintro ⟨j, hj, rfl⟩; omega
  · intro h; exact ⟨(c - a).toNat, by omega, by omega⟩

theorem range_perm_cons_filter (n r : Nat) (hr : r < n) :
    (List.range n).Perm (r :: (List.range n).filter (fun j => decide (j ≠ r))) := by
  have h1 := List.perm_cons_erase (List.mem_range.mpr hr)
  rw [List.Nodup.erase_eq_filter (List.nodup_range n)] at h1
  refine h1.trans (List.Perm.cons _ (List.Perm.of_eq ?_))
  apply List.filter_congr
  intro j _
  by_cases h : j = r <;> simp [h]

/-- One category without wrap-around: the solution card and the cards put on the deck are
together the cards of the category. -/
theorem deck_category_perm (base r : Int) (num : Nat) (deck : List Int)
    (hb : 0 ≤ base) (hfit : base + num ≤ 32767) (hr0 : 0 ≤ r) (hr : r < num) :
    ∃ dc, deck_category base (toInt16 (base + r)) num deck = deck ++ dc
      ∧ ((base + r) :: dc).Perm (ints base num) := by
  have hs : toInt16 (base + r) = base + r := toInt16_of_fits (by omega) (by omega)
  refine ⟨((List.range num).filter (fun j => decide (j ≠ r.toNat))).map
    (fun (j : Nat) => base + (j : Int)), ?_, ?_⟩
  · unfold deck_category
    rw [hs, Int.toNat_ofNat]
    congr 1
    have hf : (List.range num).filter (fun (j : Nat) => decide (base + (j : Int) ≠ base + r))
        = (List.range num).filter (fun j => decide (j ≠ r.toNat)) := by
      apply List.filter_congr
      intro j _
      simp only [ne_eq, decide_eq_decide]
      omega
    rw [hf]
    apply List.map_congr_left
    intro j hj
    have := List.mem_range.mp (List.mem_of_mem_filter hj)
    exact toInt16_of_fits (by omega) (by omega)
  · have h1 := (range_perm_cons_filter num r.toNat (by omega)).map
      (fun (j : Nat) => base + (j : Int))
    simp only [List.map_cons] at h1
    have e : base + ((r.toNat : Nat) : Int) = base + r := by omega
    rw [e] at h1
    exact h1.symm

theorem pick_solution_spec (rand : Nat → Nat) :
    ∀ (nums : List Int) (k : Nat) (base : Int) (sol deck : List Int),
      (∀ n ∈ nums, 0 < n) → 0 ≤ base → base + card_count nums ≤ 32767 →
      ∃ sol1 deck1, pick_solution rand nums k base sol deck = some (sol ++ sol1, deck ++ deck1)
        ∧ sol1.length = nums.length
        ∧ (sol1 ++ deck1).Perm (ints base (card_count nums)) := by
  intro nums
  induction nums with
  | nil =>
      intro k base sol deck _ _ _
      exact ⟨[], [], by simp [pick_solution], rfl, by simp [card_count, ints]⟩
  | cons num rest ih =>
      intro k base sol deck hpos hb hfit
      have hnum : 0 < num := hpos num (List.mem_cons_self _ _)
      obtain ⟨m, hm⟩ : ∃ m : Nat, num = m := ⟨num.toNat, by omega⟩
      subst hm
      have hcc : card_count ((m : Int) :: rest) = m + card_count rest := by
        simp [card_count]
      rw [hcc] at hfit
      push_cast at hfit
      have hr0 : 0 ≤ ((rand k : Nat) : Int).tmod m := Int.tmod_nonneg _ (by omega)
      have hr1 : ((rand k : Nat) : Int).tmod m < m := Int.tmod_lt_of_pos _ hnum
      obtain ⟨dc, hdc, hperm⟩ := deck_category_perm base (((rand k : Nat) : Int).tmod m) m deck
        hb (by omega) hr0 (by omega)
      obtain ⟨sol2, deck2, hpick, hlen, hperm2⟩ := ih (k + 1) (base + m)
        (sol ++ [toInt16 (base + ((rand k : Nat) : Int).tmod m)]) (deck ++ dc)
        (fun n hn => hpos n (List.mem_cons_of_mem _ hn)) (by omega) (by omega)
      have hs : toInt16 (base + ((rand k : Nat) : Int).tmod m)
          = base + ((rand k : Nat) : Int).tmod m := toInt16_of_fits (by omega) (by omega)
      refine ⟨(base + ((rand k : Nat) : Int).tmod m) :: sol2, dc ++ deck2, ?_, ?_, ?_⟩
      · unfold pick_solution
        rw [if_neg (by omega)]
        simp only []
        rw [toInt16_of_fits (show -32768 ≤ base + (m : Int) by omega) (by omega)]
        rw [hdc, hpick, hs]
        simp
      · simp [hlen]
      · rw [hcc, ints_append]
        have e1 : ((base + ((rand k : Nat) : Int).tmod m) :: sol2 ++ (dc ++ deck2)).Perm
            (((base + ((rand k : Nat) : Int).tmod m) :: dc) ++ (sol2 ++ deck2)) := by
          simp only [List.cons_append]
          apply List.Perm.cons
          rw [← List.append_assoc, ← List.append_assoc]
          exact List.Perm.append_right _ List.perm_append_comm
        exact e1.trans (List.Perm.append hperm hperm2)

theorem pick_solution_int16 (rand : Nat → Nat) :
    ∀ (nums : List Int) (k : Nat) (base : Int) (sol deck sol1 deck1 : List Int),
      pick_solution rand nums k base sol deck = some (sol1, deck1) →
      (∀ x ∈ sol ++ deck, -32768 ≤ x ∧ x ≤ 32767) →
      ∀ x ∈ sol1 ++ deck1, -32768 ≤ x ∧ x ≤ 32767 := by
  intro nums
  induction nums with
  | nil =>
      intro k base sol deck sol1 deck1 h hin
      simp only [pick_solution, Option.some.injEq, Prod.mk.injEq] at h
      rw [← h.1, ← h.2]; exact hin
  | cons num rest ih =>
      intro k base sol deck sol1 deck1 h hin
      unfold pick_solution at h
      by_cases h0 : num = 0
      · simp [h0] at h
      · rw [if_neg h0] at h
        refine ih _ _ _ _ _ _ h ?_
        intro x hx
        simp only [deck_category, List.mem_append, List.mem_singleton, List.mem_map] at hx
        rcases hx with (hx | hx) | hx | ⟨j, _, hx⟩
        · exact hin x (List.mem_append_left _ hx)
        · rw [hx]; exact toInt16_range _
        · exact hin x (List.mem_append_right _ hx)
        · rw [← hx]; exact toInt16_range _

/-! ### Shuffle -/

theorem set_set_perm_of_get {α : Type} [DecidableEq α] (arr : List α) (idx i : Nat) (a b : α)
    (ha : arr[idx]? = some a) (hb : arr[i]? = some b) :
    ((arr.set idx b).set i a).Perm arr := by
  obtain ⟨hidx, ha1⟩ := List.getElem?_eq_some_iff.mp ha
  obtain ⟨hi, hb1⟩ := List.getElem?_eq_some_iff.mp hb
  rw [List.perm_iff_count]
  intro x
  have hi2 : i < (arr.set idx b).length := by simpa using hi
  rw [List.count_set _ _ _ _ hi2, List.count_set _ _ _ _ hidx]
  have hca : List.count a arr ≥ 1 := List.count_pos_iff.mpr (ha1 ▸ List.getElem_mem hidx)
  have hcb : List.count b arr ≥ 1 := List.count_pos_iff.mpr (hb1 ▸ List.getElem_mem hi)
  have hget : (arr.set idx b)[i] = if idx = i then b else arr[i] := by
    rw [List.getElem_set]
  rw [hget, ha1, hb1]
  by_cases h1 : idx = i
  · subst h1
    have hab : a = b := by rw [← ha1, ← hb1]
    subst hab
    by_cases h2 : a = x
    · subst h2; simp; omega
    · simp [h2]
  · simp only [if_neg h1]
    by_cases h2 : a = x <;> by_cases h3 : b = x
    · subst h2; subst h3; simp; omega
    · subst h2; simp [h3]; omega
    · subst h3; simp [h2]
    · simp [h2, h3]

theorem swap_at_perm {α : Type} [DecidableEq α] (arr : List α) (idx i : Nat) :
    (swap_at arr idx i).Perm arr := by
  unfold swap_at
  cases ha : arr[idx]? with
  | none => exact List.Perm.refl _
  | some a =>
      cases hb : arr[i]? with
      | none => exact List.Perm.refl _
      | some b => exact set_set_perm_of_get arr idx i a b ha hb

theorem shuffle_perm {α : Type} [DecidableEq α] (rand : Nat → Nat) (k : Nat) (arr : List α)
    (n : Nat) : (shuffle rand k arr n).Perm arr := by
  unfold shuffle
  induction n with
  | zero => simp
  | succ n ih =>
      rw [List.range_succ, List.foldl_append]
      simp only [List.foldl_cons, List.foldl_nil]
      exact (swap_at_perm _ _ _).trans ih

/-! ### Dealing -/

theorem dealt_indices_succ (n p i : Nat) :
    dealt_indices n p (i + 1) = dealt_indices n p i ++ (if i % n = p then [i] else []) := by
  unfold dealt_indices
  rw [List.range_succ, List.filter_append]
  congr 1
  by_cases h : i % n = p <;> simp [h]

theorem succ_div_mod (n i : Nat) (hn : 0 < n) :
    (i % n + 1 < n ∧ (i + 1) / n = i / n ∧ (i + 1) % n = i % n + 1)
      ∨ (i % n + 1 = n ∧ (i + 1) / n = i / n + 1 ∧ (i + 1) % n = 0) := by
  have h1 := Nat.div_add_mod i n
  have h2 := Nat.mod_lt i hn
  by_cases h : i % n + 1 < n
  · left
    have := (Nat.div_mod_unique hn).mpr
      (show (i % n + 1) + n * (i / n) = i + 1 ∧ i % n + 1 < n from ⟨by omega, h⟩)
    exact ⟨h, this.1, this.2⟩
  · right
    have h3 : n * (i / n + 1) = n * (i / n) + n := by ring
    have := (Nat.div_mod_unique hn).mpr
      (show 0 + n * (i / n + 1) = i + 1 ∧ 0 < n from ⟨by omega, hn⟩)
    exact ⟨by omega, this.1, this.2⟩

/-- Size of the hand at position `p` after `i` cards have been dealt in rotation. -/
theorem dealt_indices_length (n p i : Nat) (hn : 0 < n) (hp : p < n) :
    (dealt_indices n p i).length = i / n + (if p < i % n then 1 else 0) := by
  induction i with
  | zero => simp [dealt_indices]
  | succ i ih =>
      rw [dealt_indices_succ, List.length_append, ih]
      rcases succ_div_mod n i hn with ⟨h1, h2, h3⟩ | ⟨h1, h2, h3⟩
      · rw [h2, h3]
        by_cases ha : i % n = p
        · subst ha; simp
        · by_cases hb : p < i % n
          · simp [ha, hb, show p < i % n + 1 by omega]
          · simp [ha, hb, show ¬ p < i % n + 1 by omega]
      · rw [h2, h3]
        by_cases ha : i % n = p
        · subst ha; simp
        · simp [ha, show p < i % n by omega]

theorem deal_card_step (deck : List Int) (n cap : Nat) (orig players : List Player) (i : Nat)
    (hn : 0 < n) (hinv : DealInv deck n cap orig i players)
    (hcap : i / n < cap) (hfit : i / n + 1 ≤ 32767) :
    ∃ players1, deal_card players (i % n) (deck.getD i 0) = some players1
      ∧ DealInv deck n cap orig (i + 1) players1 := by
  obtain ⟨hlen, holen, hall⟩ := hinv
  have hp0 : i % n < n := Nat.mod_lt i hn
  obtain ⟨o, q, ho, hq, hqeq⟩ := hall (i % n) hp0
  have hL : (dealt_indices n (i % n) i).length = i / n := by
    rw [dealt_indices_length n (i % n) i hn hp0]; simp
  rw [hL] at hqeq
  have hxs : ((dealt_indices n (i % n) i).map (fun j => deck.getD j 0)).length = i / n := by
    rw [List.length_map, hL]
  refine ⟨players.set (i % n)
    { q with hand := q.hand.set q.hand_size.toNat (deck.getD i 0),
             hand_size := toInt16 (q.hand_size + 1) }, ?_, ?_⟩
  · unfold deal_card
    rw [hq]
    simp only []
    rw [if_pos]
    rw [hqeq]
    simp only [List.length_append, List.length_map, hL, List.length_replicate]
    constructor
    · omega
    · have : i / n + (cap - i / n) = cap := by omega
      rw [this]; omega
  · refine ⟨by simp [hlen], holen, ?_⟩
    intro p hp
    by_cases hpe : p = i % n
    · subst hpe
      refine ⟨o, _, ho, by rw [List.getElem?_set_self (by omega)], ?_⟩
      rw [dealt_indices_succ, if_pos rfl, List.length_append, hL]
      have hsize : toInt16 (q.hand_size + 1) = ((i / n + [i].length : Nat) : Int) := by
        rw [hqeq]
        simp only [List.length_singleton]
        rw [toInt16_of_fits (by omega) (by omega)]
        push_cast; rfl
      have hhand : q.hand.set q.hand_size.toNat (deck.getD i 0)
          = List.map (fun j => deck.getD j 0) (dealt_indices n (i % n) i ++ [i])
            ++ List.replicate (cap - (i / n + [i].length)) 0 := by
        rw [hqeq]
        simp only [Int.toNat_ofNat, List.length_singleton, List.map_append, List.map_cons,
          List.map_nil]
        rw [List.set_append_right _ _ (by rw [hxs]), hxs, Nat.sub_self]
        have hrep : List.replicate (cap - i / n) (0 : Int)
            = 0 :: List.replicate (cap - (i / n + 1)) 0 := by
          rw [← List.replicate_succ]; congr 1; omega
        rw [hrep, List.set_cons_zero, List.append_assoc]
        rfl
      rw [hsize, hhand, hqeq]
    · obtain ⟨o1, q1, ho1, hq1, hq1eq⟩ := hall p hp
      refine ⟨o1, q1, ho1, ?_, ?_⟩
      · rw [List.getElem?_set_ne (fun h => hpe h.symm)]; exact hq1
      · rw [dealt_indices_succ, if_neg (fun h => hpe h.symm), List.append_nil]
        exact hq1eq

theorem deal_spec (deck : List Int) (n cap : Nat) (orig : List Player) (hn : 0 < n)
    (hcap : ∀ j, j < deck.length → j / n < cap ∧ j / n + 1 ≤ 32767) :
    ∀ (rest : List Int) (i : Nat) (players : List Player), i ≤ deck.length →
      deck.drop i = rest → DealInv deck n cap orig i players →
      ∃ players1, deal n rest players (i % n) = some players1
        ∧ DealInv deck n cap orig deck.length players1 := by
  intro rest
  induction rest with
  | nil =>
      intro i players hile hdrop hinv
      have hi : deck.length ≤ i := List.drop_eq_nil_iff.mp hdrop
      have : i = deck.length := by omega
      subst this
      exact ⟨players, rfl, hinv⟩
  | cons c rest ih =>
      intro i players hile hdrop hinv
      have hi : i < deck.length := by
        by_contra h
        rw [List.drop_eq_nil_of_le (by omega)] at hdrop
        exact List.noConfusion hdrop
      have hcons := List.drop_eq_getElem_cons hi
      rw [hdrop] at hcons
      have hc : deck.getD i 0 = c := by
        rw [List.getD_eq_getElem _ _ hi]
        exact (List.cons.inj hcons).1.symm
      have hrest : deck.drop (i + 1) = rest := (List.cons.inj hcons).2.symm
      obtain ⟨players1, hstep, hinv1⟩ := deal_card_step deck n cap orig players i hn hinv
        (hcap i hi).1 (hcap i hi).2
      obtain ⟨players2, hdeal, hinv2⟩ := ih (i + 1) players1 (by omega) hrest hinv1
      refine ⟨players2, ?_, hinv2⟩
      unfold deal
      rw [← hc, hstep]
      simp only []
      rw [Nat.mod_add_mod]
      exact hdeal

theorem filter_classes_perm (n : Nat) (l : List Nat) :
    ∀ m, (((List.range m).map (fun p => l.filter (fun j => j % n = p))).flatten).Perm
      (l.filter (fun j => j % n < m)) := by
  intro m
  induction m with
  | zero => simp
  | succ m ih =>
      rw [List.range_succ, List.map_append, List.flatten_append]
      simp only [List.map_cons, List.map_nil, List.flatten_cons, List.flatten_nil,
        List.append_nil]
      have h1 := List.filter_append_perm (fun j => decide (j % n < m))
        (l.filter (fun j => decide (j % n < m + 1)))
      rw [List.filter_filter, List.filter_filter] at h1
      have e1 : l.filter (fun a => decide (a % n < m) && decide (a % n < m + 1))
          = l.filter (fun j => decide (j % n < m)) := by
        apply List.filter_congr
        intro j _
        by_cases h : j % n < m
        · simp [h, show j % n < m + 1 by omega]
        · simp [h]
      have e2 : l.filter (fun a => (!decide (a % n < m)) && decide (a % n < m + 1))
          = l.filter (fun j => decide (j % n = m)) := by
        apply List.filter_congr
        intro j _
        by_cases h : j % n < m
        · simp [h, show ¬ j % n = m by omega]
        · by_cases h2 : j % n = m
          · simp [h2]
          · simp [h, h2, show ¬ j % n < m + 1 by omega]
      rw [e1, e2] at h1
      exact (List.Perm.append_right _ ih).trans h1

theorem dealt_indices_partition (n D : Nat) (hn : 0 < n) :
    (((List.range n).map (fun p => dealt_indices n p D)).flatten).Perm (List.range D) := by
  have h := filter_classes_perm n (List.range D) n
  have e : (List.range D).filter (fun j => decide (j % n < n)) = List.range D := by
    rw [List.filter_eq_self]
    intro j _
    simp [Nat.mod_lt j hn]
  rw [e] at h
  exact h

theorem map_getD_range (deck : List Int) :
    (List.range deck.length).map (fun j => deck.getD j 0) = deck := by
  apply List.ext_getElem
  · simp
  · intro k h1 h2
    simp [List.getD_eq_getElem, h2]

/-- The hands cut out of a deck by the rotation are together a rearrangement of the deck. -/
theorem dealt_cards_partition (deck : List Int) (n : Nat) (hn : 0 < n) :
    (((List.range n).map (fun p => dealt_cards deck n p)).flatten).Perm deck := by
  have h := (dealt_indices_partition n deck.length hn).map (fun j => deck.getD j 0)
  rw [map_getD_range, List.map_flatten, List.map_map] at h
  exact h

/-- What the dealing invariant says about the player at position `p` once the deck is
exhausted. -/
theorem dealt_cards_length (deck : List Int) (n p : Nat) (hn : 0 < n) (hp : p < n) :
    (dealt_cards deck n p).length = deck.length / n + (if p < deck.length % n then 1 else 0) := by
  unfold dealt_cards
  rw [List.length_map, dealt_indices_length n p deck.length hn hp]

theorem DealInv.final {deck : List Int} {n cap : Nat} {orig players : List Player}
    (hinv : DealInv deck n cap orig deck.length players) {p : Nat} (hp : p < n) :
    ∃ o q, orig[p]? = some o ∧ players[p]? = some q
      ∧ q.cards = dealt_cards deck n p
      ∧ q.hand_size = (((dealt_cards deck n p).length : Nat) : Int)
      ∧ q.hand.length = (dealt_cards deck n p).length + (cap - (dealt_cards deck n p).length)
      ∧ q.fd = o.fd ∧ q.eliminated = o.eliminated ∧ q.id = o.id ∧ q.name = o.name := by
  obtain ⟨_, _, hall⟩ := hinv
  obtain ⟨o, q, ho, hq, hqeq⟩ := hall p hp
  refine ⟨o, q, ho, hq, ?_, ?_, ?_, ?_, ?_, ?_, ?_⟩
  · rw [hqeq]
    unfold Player.cards dealt_cards
    simp only [Int.toNat_ofNat]
    rw [List.take_append_of_le_length (by simp)]
    rw [List.take_of_length_le (by simp)]
  · rw [hqeq]; simp [dealt_cards]
  · rw [hqeq]; simp [dealt_cards]
  · rw [hqeq]
  · rw [hqeq]
  · rw [hqeq]
  · rw [hqeq]

theorem DealInv.cards_eq {deck : List Int} {n cap : Nat} {orig players : List Player}
    (hinv : DealInv deck n cap orig deck.length players) :
    players.map Player.cards = (List.range n).map (fun p => dealt_cards deck n p) := by
  apply List.ext_getElem
  · simp [hinv.1]
  · intro k h1 h2
    simp only [List.length_map, List.length_range] at h1 h2
    obtain ⟨o, q, _, hq, hc, _⟩ := hinv.final h2
    have hqk : players[k] = q := by
      have := List.getElem?_eq_getElem h1
      rw [hq] at this
      exact (Option.some.inj this).symm
    simp only [List.getElem_map, List.getElem_range, hqk, hc]

theorem DealInv.hands_perm {deck : List Int} {n cap : Nat} {orig players : List Player}
    (hinv : DealInv deck n cap orig deck.length players) (hn : 0 < n) :
    ((players.map Player.cards).flatten).Perm deck := by
  rw [hinv.cards_eq]
  exact dealt_cards_partition deck n hn

theorem succ_div_le (n j D : Nat) (hn : 0 < n) (hj : j < D) : j / n + 1 ≤ (D + n - 1) / n := by
  have h1 : j / n + 1 = (j + n) / n := (Nat.add_div_right j hn).symm
  rw [h1]
  exact Nat.div_le_div_right (by omega)

/-- The dealing of `start_game` started from empty hands succeeds when every hand size fits
`int16_t`, and ends in the state described by `DealInv`. -/
theorem deal_hands_spec (deck : List Int) (players : List Player) (hn : 0 < players.length)
    (hempty : ∀ p ∈ players, p.hand_size = 0)
    (hfit : (deck.length + players.length - 1) / players.length ≤ 32767) :
    ∃ players1, deal_hands deck players = some players1
      ∧ DealInv deck players.length (deck.length / players.length + 1)
          (alloc_hands deck.length players.length players) deck.length players1 := by
  unfold deal_hands
  simp only []
  rw [if_neg (by omega)]
  have hcap : ∀ j, j < deck.length →
      j / players.length < deck.length / players.length + 1 ∧ j / players.length + 1 ≤ 32767 := by
    intro j hj
    constructor
    · have := Nat.div_le_div_right (c := players.length) (show j ≤ deck.length by omega)
      omega
    · have := succ_div_le players.length j deck.length hn hj
      omega
  have hinit : DealInv deck players.length (deck.length / players.length + 1)
      (alloc_hands deck.length players.length players) 0
      (alloc_hands deck.length players.length players) := by
    refine ⟨by simp [alloc_hands], by simp [alloc_hands], ?_⟩
    intro p hp
    have hp2 : p < (alloc_hands deck.length players.length players).length := by
      simpa [alloc_hands] using hp
    refine ⟨_, _, List.getElem?_eq_getElem hp2, List.getElem?_eq_getElem hp2, ?_⟩
    have hmem : players[p] ∈ players := List.getElem_mem hp
    simp only [alloc_hands, List.getElem_map, dealt_indices, List.range_zero, List.filter_nil,
      List.length_nil, List.map_nil, List.nil_append, Nat.sub_zero, Nat.cast_zero,
      hempty _ hmem]
  have := deal_spec deck players.length (deck.length / players.length + 1)
    (alloc_hands deck.length players.length players) hn hcap deck 0
    (alloc_hands deck.length players.length players) (Nat.zero_le _) rfl hinit
  simpa using this

/-! ### Sorting the hands -/

theorem qsort_spec (base : List Int) (nmemb : Int) (out : List Int)
    (h : qsort base nmemb = some out) :
    0 ≤ nmemb ∧ nmemb ≤ base.length ∧ out.length = base.length
      ∧ (out.take nmemb.toNat).Perm (base.take nmemb.toNat)
      ∧ (out.take nmemb.toNat).Sorted (· ≤ ·) := by
  unfold qsort at h
  by_cases hc : 0 ≤ nmemb ∧ nmemb ≤ base.length
  · rw [if_pos hc] at h
    have hout := (Option.some.inj h).symm
    have hl : ((base.take nmemb.toNat).insertionSort qsort_le).length = nmemb.toNat := by
      rw [List.length_insertionSort, List.length_take]
      omega
    have htake : out.take nmemb.toNat = (base.take nmemb.toNat).insertionSort qsort_le := by
      rw [hout]; exact List.take_left' hl
    refine ⟨hc.1, hc.2, ?_, ?_, ?_⟩
    · rw [hout, List.length_append, hl, List.length_drop]; omega
    · rw [htake]; exact List.perm_insertionSort _ _
    · rw [htake]; exact sorted_le_of_sorted_qsort_le (List.sorted_insertionSort _ _)
  · rw [if_neg hc] at h; exact Option.noConfusion h

theorem qsort_some (base : List Int) (nmemb : Int) (h0 : 0 ≤ nmemb) (h1 : nmemb ≤ base.length) :
    ∃ out, qsort base nmemb = some out := by
  unfold qsort
  rw [if_pos ⟨h0, h1⟩]
  exact ⟨_, rfl⟩

theorem sort_hands_spec : ∀ (players sorted : List Player),
    sort_hands players = some sorted → List.Forall₂ SortedFrom players sorted := by
  intro players
  induction players with
  | nil =>
      intro sorted h
      simp only [sort_hands, Option.some.injEq] at h
      rw [← h]; exact List.Forall₂.nil
  | cons p players ih =>
      intro sorted h
      unfold sort_hands at h
      cases hq : qsort p.hand p.hand_size with
      | none => rw [hq] at h; exact Option.noConfusion h
      | some hand =>
          cases hr : sort_hands players with
          | none => rw [hq, hr] at h; exact Option.noConfusion h
          | some rest =>
              rw [hq, hr] at h
              simp only [Option.some.injEq] at h
              rw [← h]
              obtain ⟨h0, h1, h2, h3, h4⟩ := qsort_spec _ _ _ hq
              refine List.Forall₂.cons ?_ (ih rest hr)
              exact ⟨h3, h4, rfl, h0, by simp only; omega, h2, rfl, rfl, rfl, rfl⟩

theorem sort_hands_some : ∀ (players : List Player),
    (∀ p ∈ players, 0 ≤ p.hand_size ∧ p.hand_size ≤ p.hand.length) →
    ∃ sorted, sort_hands players = some sorted := by
  intro players
  induction players with
  | nil => intro _; exact ⟨[], rfl⟩
  | cons p players ih =>
      intro h
      obtain ⟨hand, hq⟩ := qsort_some p.hand p.hand_size (h p (List.mem_cons_self _ _)).1
        (h p (List.mem_cons_self _ _)).2
      obtain ⟨rest, hr⟩ := ih (fun q hq => h q (List.mem_cons_of_mem _ hq))
      exact ⟨_, by unfold sort_hands; rw [hq, hr]⟩

theorem sortedFrom_mem {players sorted : List Player}
    (h : List.Forall₂ SortedFrom players sorted) {q : Player} (hq : q ∈ sorted) :
    ∃ p ∈ players, SortedFrom p q := by
  induction h with
  | nil => exact absurd hq (List.not_mem_nil _)
  | cons hab _ ih =>
      rcases List.mem_cons.mp hq with h1 | h1
      · subst h1; exact ⟨_, List.mem_cons_self _ _, hab⟩
      · obtain ⟨p, hp, hr⟩ := ih h1
        exact ⟨p, List.mem_cons_of_mem _ hp, hr⟩

theorem sortedFrom_hands_perm {players sorted : List Player}
    (h : List.Forall₂ SortedFrom players sorted) :
    ((sorted.map Player.cards).flatten).Perm ((players.map Player.cards).flatten) := by
  apply List.Perm.flatten_congr
  rw [List.forall₂_map_left_iff, List.forall₂_map_right_iff]
  exact List.Forall₂.flip (List.Forall₂.imp (fun a b hab => hab.1) h)

theorem forall2_getElem? {R : Player → Player → Prop} {l1 l2 : List Player}
    (h : List.Forall₂ R l1 l2) {k : Nat} {p : Player} (hp : l1[k]? = some p) :
    ∃ q, l2[k]? = some q ∧ R p q := by
  induction h generalizing k with
  | nil => simp at hp
  | cons hab _ ih =>
      cases k with
      | zero =>
          simp only [List.getElem?_cons_zero, Option.some.injEq] at hp
          subst hp
          exact ⟨_, by simp, hab⟩
      | succ k =>
          simp only [List.getElem?_cons_succ] at hp ⊢
          exact ih hp

/-! ### The deal as a whole -/

theorem total_cards_eq (settings : Settings) :
    total_cards settings = ((card_count settings.num_cards : Nat) : Int) := by
  unfold total_cards card_count
  induction settings.num_cards with
  | nil => simp
  | cons n ns ih => simp only [List.map_cons, List.sum_cons, Nat.cast_add, ih]

theorem ceil_div_le (D n : Nat) (hn : 0 < n) : (D + n - 1) / n ≤ D := by
  have h : (D + n - 1) / n < D + 1 := by
    rw [Nat.div_lt_iff_lt_mul hn]
    have : D ≤ D * n := Nat.le_mul_of_pos_right D hn
    have e : (D + 1) * n = D * n + n := by ring
    omega
  omega

/-- Outcome of `start_game` on a catalog whose card IDs fit `int16_t` and a roster of empty
hands: it returns, the solution has one entry per category, the shuffled deck is dealt out
as `DealInv` describes, and solution and hands together are the card IDs `0 .. total - 1`. -/
theorem start_game_spec (rand : Nat → Nat) (settings : Settings) (players : List Player)
    (hcat : 0 < settings.num_categories)
    (hpos : ∀ n ∈ settings.num_cards, 0 < n)
    (hmore : (settings.num_categories : Int) < total_cards settings)
    (hfit : total_cards settings ≤ 32767)
    (hn : 0 < players.length)
    (hempty : ∀ p ∈ players, p.hand_size = 0) :
    ∃ g dealt roster, start_game rand settings (total_cards settings) players = some g
      ∧ roster.Perm players
      ∧ DealInv g.deck players.length (g.deck.length / players.length + 1)
          (alloc_hands g.deck.length players.length roster) g.deck.length dealt
      ∧ List.Forall₂ SortedFrom dealt g.players
      ∧ g.solution.length = settings.num_categories
      ∧ ((g.deck.length : Nat) : Int) = total_cards settings - settings.num_categories
      ∧ (g.solution ++ g.deck).Perm (ints 0 (card_count settings.num_cards))
      ∧ (g.solution ++ (g.players.map Player.cards).flatten).Perm
          (ints 0 (card_count settings.num_cards)) := by
  have htot := total_cards_eq settings
  obtain ⟨sol, deck0, hpick, hsl, hperm⟩ := pick_solution_spec rand settings.num_cards 0 0 [] []
    hpos (le_refl 0) (by omega)
  simp only [List.nil_append] at hpick
  have hlen0 : sol.length + deck0.length = card_count settings.num_cards := by
    have := hperm.length_eq
    simpa [ints] using this
  have hnc : settings.num_categories = settings.num_cards.length := rfl
  have hdl : ((deck0.length : Nat) : Int) = total_cards settings - settings.num_categories := by
    rw [htot, hnc]; omega
  have hshd := shuffle_perm rand settings.num_categories deck0 deck0.length
  have hshp := shuffle_perm rand (settings.num_categories + deck0.length) players players.length
  have hlend : (shuffle rand settings.num_categories deck0 deck0.length).length = deck0.length :=
    hshd.length_eq
  have hlenp : (shuffle rand (settings.num_categories + deck0.length) players
      players.length).length = players.length := hshp.length_eq
  obtain ⟨dealt, hdeal, hinv⟩ := deal_hands_spec
    (shuffle rand settings.num_categories deck0 deck0.length)
    (shuffle rand (settings.num_categories + deck0.length) players players.length)
    (by omega) (fun p hp => hempty p (hshp.mem_iff.mp hp))
    (by
      rw [hlend, hlenp]
      have := ceil_div_le deck0.length players.length hn
      omega)
  rw [hlenp] at hinv
  have hbounds : ∀ p ∈ dealt, 0 ≤ p.hand_size ∧ p.hand_size ≤ p.hand.length := by
    intro q hq
    obtain ⟨k, hk, hqk⟩ := List.getElem_of_mem hq
    have hk2 : k < players.length := by rw [← hinv.1]; exact hk
    obtain ⟨o, q1, _, hq1, hc, hs, hl, _⟩ := hinv.final hk2
    have : q1 = q := by
      rw [List.getElem?_eq_getElem hk] at hq1
      rw [← hqk]; exact (Option.some.inj hq1).symm
    subst this
    rw [hs, hl]
    constructor
    · omega
    · push_cast; omega
  obtain ⟨sorted, hsort⟩ := sort_hands_some dealt hbounds
  have hrel := sort_hands_spec dealt sorted hsort
  refine ⟨{ solution := sol, deck := shuffle rand settings.num_categories deck0 deck0.length,
            players := sorted }, dealt, _, ?_, hshp, hinv, hrel, ?_, ?_, ?_, ?_⟩
  · unfold start_game
    simp only []
    rw [if_neg (by push_neg; exact_mod_cast hcat), if_neg (by push_neg; omega), hpick]
    simp only []
    rw [if_neg (by push_neg; exact hdl), hdeal]
    simp only []
    rw [hsort]
  · simpa using hsl
  · simp only [hlend]; exact hdl
  · exact (List.Perm.append_left _ hshd).trans hperm
  · simp only
    refine (List.Perm.append_left _ ?_).trans hperm
    exact (sortedFrom_hands_perm hrel).trans ((hinv.hands_perm hn).trans hshd)

theorem count_ints_eq_one (n : Nat) (c : Int) (h0 : 0 ≤ c) (h1 : c < n) :
    (ints 0 n).count c = 1 :=
  List.count_eq_one_of_mem (ints_nodup 0 n) ((mem_ints 0 n c).mpr ⟨h0, by omega⟩)

/-- C1, as the code has it: for every catalog with at least one category, every category
non-empty, more cards than categories and at most 32767 cards in total (so that every card
ID fits `int16_t`), every roster of `n ≥ 1` players with empty hands and every sequence of
random draws, `start_game` returns, every card ID in `[0, total_cards)` occurs exactly once in
the concatenation of the solution and all hands, that concatenation has `total_cards` entries,
and no solution card is in the deck or in any hand. -/
theorem start_game_partition (rand : Nat → Nat) (settings : Settings) (players : List Player)
    (hcat : 0 < settings.num_categories)
    (hpos : ∀ n ∈ settings.num_cards, 0 < n)
    (hmore : (settings.num_categories : Int) < total_cards settings)
    (hfit : total_cards settings ≤ 32767)
    (hn : 0 < players.length)
    (hempty : ∀ p ∈ players, p.hand_size = 0) :
    ∃ g, start_game rand settings (total_cards settings) players = some g
      ∧ (∀ c : Int, 0 ≤ c → c < total_cards settings →
          (g.solution ++ (g.players.map Player.cards).flatten).count c = 1)
      ∧ (((g.solution ++ (g.players.map Player.cards).flatten).length : Nat) : Int)
          = total_cards settings
      ∧ (∀ s ∈ g.solution, s ∉ g.deck ∧ ∀ p ∈ g.players, s ∉ p.cards) := by
  obtain ⟨g, dealt, roster, hstart, _, _, _, _, _, hpd, hph⟩ :=
    start_game_spec rand settings players hcat hpos hmore hfit hn hempty
  have htot := total_cards_eq settings
  refine ⟨g, hstart, ?_, ?_, ?_⟩
  · intro c h0 h1
    rw [hph.count_eq]
    exact count_ints_eq_one _ c h0 (by omega)
  · rw [hph.length_eq, htot]
    simp [ints]
  · intro s hs
    have hnd1 : (g.solution ++ g.deck).Nodup := hpd.nodup_iff.mpr (ints_nodup _ _)
    have hnd2 : (g.solution ++ (g.players.map Player.cards).flatten).Nodup :=
      hph.nodup_iff.mpr (ints_nodup _ _)
    refine ⟨fun hd => (List.nodup_append.mp hnd1).2.2 hs hd, ?_⟩
    intro p hp hc
    refine (List.nodup_append.mp hnd2).2.2 hs ?_
    exact List.mem_flatten.mpr ⟨p.cards, List.mem_map.mpr ⟨p, hp, rfl⟩, hc⟩

theorem start_game_partition_witness :
    (0 < (Settings.mk 1 [3, 4]).num_categories
      ∧ (∀ n ∈ (Settings.mk 1 [3, 4]).num_cards, 0 < n)
      ∧ ((Settings.mk 1 [3, 4]).num_categories : Int) < total_cards (Settings.mk 1 [3, 4])
      ∧ total_cards (Settings.mk 1 [3, 4]) ≤ 32767)
    ∧ ∃ g, start_game (fun k => k * 7 + 3) (Settings.mk 1 [3, 4])
          (total_cards (Settings.mk 1 [3, 4]))
          [Player.mk 3 0 0 [] 0 [], Player.mk 4 0 1 [] 0 [], Player.mk 5 0 2 [] 0 []] = some g
      ∧ (∀ c : Int, 0 ≤ c → c < total_cards (Settings.mk 1 [3, 4]) →
          (g.solution ++ (g.players.map Player.cards).flatten).count c = 1)
      ∧ (((g.solution ++ (g.players.map Player.cards).flatten).length : Nat) : Int)
          = total_cards (Settings.mk 1 [3, 4])
      ∧ (∀ s ∈ g.solution, s ∉ g.deck ∧ ∀ p ∈ g.players, s ∉ p.cards) :=
  ⟨⟨by decide, by decide, by decide, by decide⟩,
    start_game_partition (fun k => k * 7 + 3) (Settings.mk 1 [3, 4])
      [Player.mk 3 0 0 [] 0 [], Player.mk 4 0 1 [] 0 [], Player.mk 5 0 2 [] 0 []]
      (by decide) (by decide) (by decide) (by decide) (by decide) (by decide)⟩

/-! ### Round-robin dealing -/

theorem DealInv.of_mem {deck : List Int} {n cap : Nat} {orig players : List Player}
    (hinv : DealInv deck n cap orig deck.length players) {q : Player} (hq : q ∈ players) :
    ∃ p, p < n ∧ players[p]? = some q ∧ q.cards = dealt_cards deck n p
      ∧ q.hand_size = (((dealt_cards deck n p).length : Nat) : Int) := by
  obtain ⟨k, hk, hqk⟩ := List.getElem_of_mem hq
  have hk2 : k < n := by rw [← hinv.1]; exact hk
  obtain ⟨o, q1, _, hq1, hc, hs, _⟩ := hinv.final hk2
  have : q1 = q := by
    rw [List.getElem?_eq_getElem hk] at hq1
    rw [← hqk]; exact (Option.some.inj hq1).symm
  subst this
  exact ⟨k, hk2, hq1, hc, hs⟩

theorem DealInv.sum_sizes {deck : List Int} {n cap : Nat} {orig players : List Player}
    (hinv : DealInv deck n cap orig deck.length players) (hn : 0 < n) :
    (players.map (fun q => q.hand_size)).sum = ((deck.length : Nat) : Int) := by
  have h1 : players.map (fun q => q.hand_size)
      = (players.map Player.cards).map (fun l => ((l.length : Nat) : Int)) := by
    rw [List.map_map]
    apply List.map_congr_left
    intro q hq
    obtain ⟨p, _, _, hc, hs⟩ := hinv.of_mem hq
    simp only [Function.comp, hc, hs]
  have h2 := (hinv.hands_perm hn).length_eq
  rw [List.length_flatten] at h2
  rw [h1, ← h2, Nat.cast_list_sum]
  simp only [List.map_map]
  rfl

theorem start_game_sizes_3_4 (rand : Nat → Nat) (port : Nat) (ps : List Player)
    (h3 : ps.length = 3) (hempty : ∀ p ∈ ps, p.hand_size = 0) :
    ∃ g, start_game rand (Settings.mk port [3, 4]) 7 ps = some g ∧ g.deck.length = 5
      ∧ g.players.map (fun q => q.hand_size) = [2, 2, 1] := by
  have htc : total_cards (Settings.mk port [3, 4]) = 7 := rfl
  obtain ⟨g, dealt, roster, hstart, _, hinv, hrel, _, hdl, _, _⟩ :=
    start_game_spec rand (Settings.mk port [3, 4]) ps
      (show 0 < 2 by decide)
      (by intro n hn; simp only [List.mem_cons, List.mem_singleton, List.not_mem_nil,
            or_false] at hn; omega)
      (by rw [htc]; exact (show ((2 : Nat) : Int) < 7 by decide))
      (by rw [htc]; decide) (by omega) hempty
  rw [htc] at hstart hdl
  have hD : g.deck.length = 5 := by
    have : ((Settings.mk port [3, 4]).num_categories : Int) = 2 := rfl
    rw [this] at hdl
    omega
  rw [h3, hD] at hinv
  refine ⟨g, hstart, hD, ?_⟩
  have hlen : g.players.length = 3 := by rw [← hrel.length_eq, hinv.1]
  have hsize : ∀ p, p < 3 → ∀ q, g.players[p]? = some q →
      q.hand_size = ((5 / 3 + (if p < 5 % 3 then 1 else 0) : Nat) : Int) := by
    intro p hp q hq
    have hinv5 : DealInv g.deck 3 (5 / 3 + 1) (alloc_hands 5 3 roster) g.deck.length dealt := by
      rw [hD]; exact hinv
    obtain ⟨o, q1, _, hq1, _, hs, _⟩ := hinv5.final hp
    obtain ⟨q2, hq2, hr⟩ := forall2_getElem? hrel hq1
    rw [hq] at hq2
    have : q = q2 := Option.some.inj hq2
    subst this
    rw [hr.2.2.1, hs, dealt_cards_length g.deck 3 p (by omega) hp, hD]
  apply List.ext_getElem
  · simp [hlen]
  · intro k h1 h2
    simp only [List.length_map, hlen] at h1
    have hk := hsize k h1 _ (List.getElem?_eq_getElem (by omega))
    simp only [List.getElem_map, hk]
    interval_cases k <;> rfl

/-- C10, as the code has it: for every deck of `D` cards dealt by `start_game` to `n ≥ 1`
players whose hands start empty, provided the largest hand, `⌈D / n⌉` cards, fits the
`int16_t` field `hand_size`, the dealing returns, the player at position `p` of the shuffled
order holds exactly the deck cards at the indices congruent to `p` modulo `n` and `hand_size`
counts them, the hand sizes sum to `D`, and two hand sizes differ by at most one; for the
catalog of 3 and 4 cards and 3 players the deck has 5 cards and the hand sizes are 2, 2, 1. -/
theorem deal_round_robin (deck : List Int) (players : List Player) (hn : 0 < players.length)
    (hempty : ∀ p ∈ players, p.hand_size = 0)
    (hfit : (deck.length + players.length - 1) / players.length ≤ 32767) :
    ∃ dealt, deal_hands deck players = some dealt ∧ dealt.length = players.length
      ∧ (∀ p, p < players.length → ∃ o q, players[p]? = some o ∧ dealt[p]? = some q
          ∧ q.id = o.id
          ∧ q.cards = ((List.range deck.length).filter (fun j => j % players.length = p)).map
              (fun j => deck.getD j 0)
          ∧ q.hand_size = ((q.cards.length : Nat) : Int)
          ∧ q.cards.length
              = deck.length / players.length + (if p < deck.length % players.length then 1 else 0))
      ∧ (dealt.map (fun q => q.hand_size)).sum = ((deck.length : Nat) : Int)
      ∧ (∀ q1 ∈ dealt, ∀ q2 ∈ dealt, q1.hand_size ≤ q2.hand_size + 1)
      ∧ (∀ (rand : Nat → Nat) (port : Nat) (ps : List Player), ps.length = 3 →
          (∀ p ∈ ps, p.hand_size = 0) →
          ∃ g, start_game rand (Settings.mk port [3, 4]) 7 ps = some g ∧ g.deck.length = 5
            ∧ g.players.map (fun q => q.hand_size) = [2, 2, 1]) := by
  obtain ⟨dealt, hdeal, hinv⟩ := deal_hands_spec deck players hn hempty hfit
  refine ⟨dealt, hdeal, hinv.1, ?_, hinv.sum_sizes hn, ?_, start_game_sizes_3_4⟩
  · intro p hp
    obtain ⟨o, q, ho, hq, hc, hs, _, _, _, hid, _⟩ := hinv.final hp
    have ho2 : ∃ o2, players[p]? = some o2 ∧ o2.id = o.id := by
      have hp2 : p < players.length := hp
      refine ⟨players[p], List.getElem?_eq_getElem hp2, ?_⟩
      have := List.getElem?_eq_getElem
        (show p < (alloc_hands deck.length players.length players).length by
          simpa [alloc_hands] using hp2)
      rw [ho] at this
      have ho3 := Option.some.inj this
      rw [ho3]
      simp [alloc_hands]
    obtain ⟨o2, ho2a, ho2b⟩ := ho2
    refine ⟨o2, q, ho2a, hq, by rw [hid, ho2b], hc, by rw [hs, hc], ?_⟩
    rw [hc]
    exact dealt_cards_length deck players.length p hn hp
  · intro q1 hq1 q2 hq2
    obtain ⟨p1, hp1, _, _, hs1⟩ := hinv.of_mem hq1
    obtain ⟨p2, hp2, _, _, hs2⟩ := hinv.of_mem hq2
    rw [hs1, hs2, dealt_cards_length deck _ p1 hn hp1, dealt_cards_length deck _ p2 hn hp2]
    split_ifs <;> push_cast <;> omega

theorem deal_round_robin_witness :
    (0 < [Player.mk 3 0 0 [] 0 [], Player.mk 4 0 1 [] 0 []].length
      ∧ (∀ p ∈ [Player.mk 3 0 0 [] 0 [], Player.mk 4 0 1 [] 0 []], p.hand_size = 0))
    ∧ ∃ dealt, deal_hands [6, 3, 4] [Player.mk 3 0 0 [] 0 [], Player.mk 4 0 1 [] 0 []]
          = some dealt
        ∧ (dealt.map (fun q => q.hand_size)).sum = 3
        ∧ (∀ q1 ∈ dealt, ∀ q2 ∈ dealt, q1.hand_size ≤ q2.hand_size + 1) := by
  refine ⟨⟨by decide, by decide⟩, ?_⟩
  obtain ⟨dealt, h1, _, _, h4, h5, _⟩ := deal_round_robin [6, 3, 4]
    [Player.mk 3 0 0 [] 0 [], Player.mk 4 0 1 [] 0 []] (by decide) (by decide) (by decide)
  exact ⟨dealt, h1, h4, h5⟩

/-! ### Sorted hands and binary search -/

/-- The stages a returning `start_game` went through. -/
theorem start_game_inv (rand : Nat → Nat) (settings : Settings) (total : Int)
    (players : List Player) (g : Game) (h : start_game rand settings total players = some g) :
    ∃ deck0 dealt,
      pick_solution rand settings.num_cards 0 0 [] [] = some (g.solution, deck0)
      ∧ ((deck0.length : Nat) : Int) = total - (settings.num_categories : Int)
      ∧ g.deck = shuffle rand settings.num_categories deck0 deck0.length
      ∧ deal_hands g.deck
          (shuffle rand (settings.num_categories + deck0.length) players players.length)
          = some dealt
      ∧ sort_hands dealt = some g.players := by
  unfold start_game at h
  simp only [] at h
  split at h
  · exact Option.noConfusion h
  · split at h
    · exact Option.noConfusion h
    · split at h
      · exact Option.noConfusion h
      · rename_i sol deck0 hpick
        split at h
        · exact Option.noConfusion h
        · rename_i hlen
          split at h
          · exact Option.noConfusion h
          · rename_i dealt hdeal
            split at h
            · exact Option.noConfusion h
            · rename_i sorted hsort
              have hg := Option.some.inj h
              subst hg
              exact ⟨deck0, dealt, hpick, not_not.mp hlen, rfl, hdeal, hsort⟩

/-- C9: every hand that `start_game` hands to `run_game` is sorted ascending and
`player_has_card` returns 1 on it exactly for the cards a linear scan finds (0 otherwise);
more generally, on every player whose first `hand_size` buffer entries are sorted ascending
the binary search returns for any fuel above the hand size, with 1 exactly for the cards in
the hand. -/
theorem hands_sorted_and_search_agrees (rand : Nat → Nat) (settings : Settings) (total : Int)
    (players : List Player) (g : Game)
    (hstart : start_game rand settings total players = some g)
    (p : Player) (hp : p ∈ g.players)
    (q : Player) (hq0 : 0 ≤ q.hand_size) (hqlen : q.hand_size ≤ q.hand.length)
    (hqs : q.cards.Sorted (· ≤ ·)) (fuel : Nat) (hfuel : q.hand_size.toNat < fuel)
    (c : Int) :
    p.cards.Sorted (· ≤ ·)
      ∧ player_has_card p c = some (if c ∈ p.cards then 1 else 0)
      ∧ player_has_card_loop q.hand c fuel 0 (q.hand_size - 1)
          = some (if c ∈ q.cards then 1 else 0)
      ∧ player_has_card q c = some (if c ∈ q.cards then 1 else 0) := by
  obtain ⟨deck0, dealt, _, _, _, _, hsort⟩ := start_game_inv rand settings total players g hstart
  obtain ⟨p0, _, hr⟩ := sortedFrom_mem (sort_hands_spec dealt g.players hsort) hp
  exact ⟨hr.2.1, player_has_card_eq p c hr.2.2.2.1 hr.2.2.2.2.1 hr.2.1,
    player_has_card_loop_eq q c fuel hq0 hqlen hqs hfuel, player_has_card_eq q c hq0 hqlen hqs⟩

theorem hands_sorted_and_search_agrees_witness :
    (Player.mk 4 0 1 [] 2 [2, 3]).cards.Sorted (· ≤ ·)
      ∧ player_has_card (Player.mk 4 0 1 [] 2 [2, 3]) 3
          = some (if (3 : Int) ∈ (Player.mk 4 0 1 [] 2 [2, 3]).cards then 1 else 0)
      ∧ player_has_card_loop (Player.mk 7 0 5 [] 3 [1, 4, 6, 0]).hand 3 4 0
            ((Player.mk 7 0 5 [] 3 [1, 4, 6, 0]).hand_size - 1)
          = some (if (3 : Int) ∈ (Player.mk 7 0 5 [] 3 [1, 4, 6, 0]).cards then 1 else 0)
      ∧ player_has_card (Player.mk 7 0 5 [] 3 [1, 4, 6, 0]) 3
          = some (if (3 : Int) ∈ (Player.mk 7 0 5 [] 3 [1, 4, 6, 0]).cards then 1 else 0) :=
  hands_sorted_and_search_agrees (fun k => k * 7 + 3) (Settings.mk 1 [3, 4]) 7
    [Player.mk 3 0 0 [] 0 [], Player.mk 4 0 1 [] 0 [], Player.mk 5 0 2 [] 0 []]
    (Game.mk [0, 5] [6, 3, 4, 1, 2]
      [Player.mk 5 0 2 [] 2 [1, 6], Player.mk 4 0 1 [] 2 [2, 3], Player.mk 3 0 0 [] 1 [4, 0]])
    (by decide) (Player.mk 4 0 1 [] 2 [2, 3]) (by decide)
    (Player.mk 7 0 5 [] 3 [1, 4, 6, 0]) (by decide) (by decide) (by decide) 4 (by decide) 3

/-! ### Catalogs and decks beyond the 16-bit range -/

/-- When the first loop of `start_game` has produced `(sol, deck0)` with the asserted deck
length and every hand size fits `int16_t`, `start_game` returns and the hands are together a
rearrangement of `deck0`. -/
theorem start_game_of_pick (rand : Nat → Nat) (settings : Settings) (total : Int)
    (players : List Player) (sol deck0 : List Int)
    (hpick : pick_solution rand settings.num_cards 0 0 [] [] = some (sol, deck0))
    (hcat : 0 < settings.num_categories)
    (hmore : (settings.num_categories : Int) < total)
    (hdl : ((deck0.length : Nat) : Int) = total - settings.num_categories)
    (hn : 0 < players.length)
    (hempty : ∀ p ∈ players, p.hand_size = 0)
    (hfit : (deck0.length + players.length - 1) / players.length ≤ 32767) :
    ∃ g, start_game rand settings total players = some g ∧ g.solution = sol
      ∧ ((g.players.map Player.cards).flatten).Perm deck0 := by
  have hshd := shuffle_perm rand settings.num_categories deck0 deck0.length
  have hshp := shuffle_perm rand (settings.num_categories + deck0.length) players players.length
  have hlend : (shuffle rand settings.num_categories deck0 deck0.length).length = deck0.length :=
    hshd.length_eq
  have hlenp : (shuffle rand (settings.num_categories + deck0.length) players
      players.length).length = players.length := hshp.length_eq
  obtain ⟨dealt, hdeal, hinv⟩ := deal_hands_spec
    (shuffle rand settings.num_categories deck0 deck0.length)
    (shuffle rand (settings.num_categories + deck0.length) players players.length)
    (by omega) (fun p hp => hempty p (hshp.mem_iff.mp hp))
    (by rw [hlend, hlenp]; exact hfit)
  rw [hlenp] at hinv
  have hbounds : ∀ p ∈ dealt, 0 ≤ p.hand_size ∧ p.hand_size ≤ p.hand.length := by
    intro q hq
    obtain ⟨k, hk, hqk⟩ := List.getElem_of_mem hq
    have hk2 : k < players.length := by rw [← hinv.1]; exact hk
    obtain ⟨o, q1, _, hq1, hc, hs, hl, _⟩ := hinv.final hk2
    have : q1 = q := by
      rw [List.getElem?_eq_getElem hk] at hq1
      rw [← hqk]; exact (Option.some.inj hq1).symm
    subst this
    rw [hs, hl]
    constructor
    · omega
    · push_cast; omega
  obtain ⟨sorted, hsort⟩ := sort_hands_some dealt hbounds
  have hrel := sort_hands_spec dealt sorted hsort
  refine ⟨{ solution := sol, deck := shuffle rand settings.num_categories deck0 deck0.length,
            players := sorted }, ?_, rfl, ?_⟩
  · unfold start_game
    simp only []
    rw [if_neg (by push_neg; exact_mod_cast hcat), if_neg (by push_neg; omega), hpick]
    simp only []
    rw [if_neg (by push_neg; exact hdl), hdeal]
    simp only []
    rw [hsort]
  · exact (sortedFrom_hands_perm hrel).trans ((hinv.hands_perm hn).trans hshd)

/-- The first loop of `start_game` on a catalog of `n1` and 2 cards when every draw is 0:
the second category starts at base `n1`, and its second card is stored as
`toInt16 (n1 + 1)`. -/
theorem pick_solution_two (n1 : Int) (h0 : 0 < n1) (h1 : n1 ≤ 32767) :
    ∃ dc, pick_solution (fun _ => 0) [n1, 2] 0 0 [] [] = some ([0, n1], dc ++ [toInt16 (n1 + 1)])
      ∧ ((dc.length : Nat) : Int) = n1 - 1 := by
  obtain ⟨m, hm⟩ : ∃ m : Nat, n1 = m := ⟨n1.toNat, by omega⟩
  subst hm
  obtain ⟨dc, hdc, hperm⟩ := deck_category_perm 0 0 m [] (le_refl 0) (by omega) (le_refl 0) h0
  have hlen := hperm.length_eq
  simp only [List.length_cons, ints, List.length_map, List.length_range] at hlen
  refine ⟨dc, ?_, by omega⟩
  have ht0 : toInt16 0 = 0 := by decide
  have hz : ((0 : Nat) : Int).tmod (m : Int) = 0 := by simp
  have hz2 : ((0 : Nat) : Int).tmod 2 = 0 := by decide
  have hbase : toInt16 (m : Int) = m := toInt16_of_fits (by omega) (by omega)
  have hdc2 : deck_category (m : Int) (m : Int) 2 ([] ++ dc) = dc ++ [toInt16 ((m : Int) + 1)] := by
    unfold deck_category
    have : (2 : Int).toNat = 2 := rfl
    rw [this]
    simp [List.range_succ]
  simp only [zero_add, add_zero] at hdc
  rw [ht0] at hdc
  unfold pick_solution
  rw [if_neg (by omega)]
  simp only [hz, zero_add, add_zero, ht0]
  rw [hdc]
  unfold pick_solution
  rw [if_neg (by decide)]
  simp only [hz2, add_zero]
  simp only [hbase, hdc2, pick_solution]
  simp

/-- On a catalog of `n1 ≤ 32767` and 2 cards with all draws 0 and one player, `start_game`
returns, and nothing in the solution or the hand exceeds 32767. -/
theorem start_game_two (port : Nat) (n1 : Int) (h0 : 0 < n1) (h1 : n1 ≤ 32767)
    (p0 : Player) (hp0 : p0.hand_size = 0) :
    ∃ g, start_game (fun _ => 0) (Settings.mk port [n1, 2]) (n1 + 2) [p0] = some g
      ∧ ∀ x ∈ g.solution ++ (g.players.map Player.cards).flatten, x ≤ 32767 := by
  obtain ⟨dc, hpick, hdc⟩ := pick_solution_two n1 h0 h1
  have hnc : (Settings.mk port [n1, 2]).num_categories = 2 := rfl
  obtain ⟨g, hstart, hsol, hperm⟩ := start_game_of_pick (fun _ => 0) (Settings.mk port [n1, 2])
    (n1 + 2) [p0] [0, n1] (dc ++ [toInt16 (n1 + 1)]) hpick (by rw [hnc]; decide)
    (by rw [hnc]; push_cast; omega)
    (by rw [hnc, List.length_append, List.length_singleton]; push_cast; omega)
    (by simp)
    (by intro p hp; rw [List.mem_singleton.mp hp]; exact hp0)
    (by
      simp only [List.length_append, List.length_singleton, Nat.add_sub_cancel, Nat.div_one]
      omega)
  refine ⟨g, hstart, ?_⟩
  have hin := pick_solution_int16 (fun _ => 0) [n1, 2] 0 0 [] [] _ _ hpick (by simp)
  intro x hx
  rcases List.mem_append.mp hx with hx1 | hx1
  · rw [hsol] at hx1
    exact (hin x (List.mem_append_left _ hx1)).2
  · exact (hin x (List.mem_append_right _ (hperm.mem_iff.mp hx1))).2

/-- C1 as stated fails beyond the 16-bit range: on the catalog of 32767 and 2 cards (both
categories non-empty, 32769 cards, more than the 2 categories), one player with an empty
hand and all draws 0, `start_game` returns, yet card ID 32768, which lies in
`[0, total_cards)`, occurs in neither the solution nor the hand. -/
theorem start_game_partition_counterexample :
    ∃ g, start_game (fun _ => 0) (Settings.mk 1 [32767, 2])
          (total_cards (Settings.mk 1 [32767, 2])) [Player.mk 3 0 0 [] 0 []] = some g
      ∧ (0 : Int) ≤ 32768 ∧ (32768 : Int) < total_cards (Settings.mk 1 [32767, 2])
      ∧ (g.solution ++ (g.players.map Player.cards).flatten).count 32768 = 0 := by
  have htc : total_cards (Settings.mk 1 [32767, 2]) = 32767 + 2 := by decide
  obtain ⟨g, hstart, hle⟩ := start_game_two 1 32767 (by decide) (by decide)
    (Player.mk 3 0 0 [] 0 []) rfl
  rw [htc]
  refine ⟨g, hstart, by decide, by decide, ?_⟩
  apply List.count_eq_zero_of_not_mem
  intro hmem
  have := hle 32768 hmem
  omega

theorem deal_append (n : Nat) : ∀ (a b : List Int) (players : List Player) (k : Nat), k < n →
    deal n (a ++ b) players k
      = (deal n a players k).bind (fun players1 => deal n b players1 ((k + a.length) % n)) := by
  intro a
  induction a with
  | nil =>
      intro b players k hk
      simp only [List.nil_append, deal, Option.some_bind, List.length_nil, Nat.add_zero,
        Nat.mod_eq_of_lt hk]
  | cons c a ih =>
      intro b players k hk
      simp only [List.cons_append, deal, List.append_eq]
      cases hd : deal_card players k c with
      | none => simp
      | some ps =>
          simp only []
          rw [ih b ps ((k + 1) % n) (Nat.mod_lt _ (by omega))]
          congr 1
          funext players1
          congr 1
          rw [List.length_cons, Nat.mod_add_mod]
          congr 1
          omega

theorem dealInv_init (deck : List Int) (D : Nat) (players : List Player)
    (hempty : ∀ p ∈ players, p.hand_size = 0) :
    DealInv deck players.length (D / players.length + 1)
      (alloc_hands D players.length players) 0 (alloc_hands D players.length players) := by
  refine ⟨by simp [alloc_hands], by simp [alloc_hands], ?_⟩
  intro p hp
  have hp2 : p < (alloc_hands D players.length players).length := by
    simpa [alloc_hands] using hp
  refine ⟨_, _, List.getElem?_eq_getElem hp2, List.getElem?_eq_getElem hp2, ?_⟩
  have hmem : players[p] ∈ players := List.getElem_mem hp
  simp only [alloc_hands, List.getElem_map, dealt_indices, List.range_zero, List.filter_nil,
    List.length_nil, List.map_nil, List.nil_append, Nat.sub_zero, Nat.cast_zero,
    hempty _ hmem]

/-- Dealing `m + 1` cards to a single player whose hand starts empty, when `m + 1` no longer
fits `int16_t`: every card is stored, and `hand_size` ends as `toInt16 (m + 1)`. -/
theorem deal_hands_single (pre : List Int) (c : Int) (p0 : Player) (hp0 : p0.hand_size = 0)
    (hm : pre.length ≤ 32767) :
    ∃ q, deal_hands (pre ++ [c]) [p0] = some [q]
      ∧ q.hand_size = toInt16 (((pre.length : Nat) : Int) + 1) := by
  have hn : (0 : Nat) < 1 := Nat.one_pos
  have hcap : ∀ j, j < pre.length →
      j / 1 < (pre ++ [c]).length / 1 + 1 ∧ j / 1 + 1 ≤ 32767 := by
    intro j hj
    simp only [Nat.div_one, List.length_append, List.length_singleton]
    omega
  have hinit := dealInv_init pre (pre ++ [c]).length [p0]
    (by intro p hp; rw [List.mem_singleton.mp hp]; exact hp0)
  simp only [List.length_singleton] at hinit
  obtain ⟨ps1, hdeal1, hinv1⟩ := deal_spec pre 1 ((pre ++ [c]).length / 1 + 1)
    (alloc_hands (pre ++ [c]).length 1 [p0]) hn hcap pre 0
    (alloc_hands (pre ++ [c]).length 1 [p0]) (Nat.zero_le _) rfl hinit
  obtain ⟨o, q1, _, hq1, _, hs, hl, _⟩ := hinv1.final hn
  have hlen1 := hinv1.1
  have hps1 : ps1 = [q1] := by
    match ps1, hlen1, hq1 with
    | [x], _, hq => simp only [List.getElem?_cons_zero, Option.some.injEq] at hq; rw [hq]
  subst hps1
  have hdl : (dealt_cards pre 1 0).length = pre.length := by
    rw [dealt_cards_length pre 1 0 hn hn]
    simp [Nat.mod_one]
  rw [hdl] at hs hl
  simp only [List.length_append, List.length_singleton, Nat.div_one] at hl
  refine ⟨{ q1 with hand := q1.hand.set q1.hand_size.toNat c,
                    hand_size := toInt16 (q1.hand_size + 1) }, ?_, by simp only; rw [hs]⟩
  unfold deal_hands
  simp only [List.length_singleton]
  rw [if_neg (by omega), deal_append 1 pre [c] _ 0 hn]
  simp only [Nat.zero_mod] at hdeal1
  rw [hdeal1]
  simp only [Option.some_bind, Nat.mod_one, deal, deal_card, List.getElem?_cons_zero]
  rw [if_pos ⟨by omega, by omega⟩]
  simp

/-- C10 as stated fails beyond the 16-bit range: dealing the 32768 cards `0 .. 32767` to one
player with an empty hand returns with `hand_size = -32768`, so the hand sizes do not sum to
the deck length and the hand (`hand_size` entries) is not the deck. -/
theorem deal_round_robin_counterexample :
    ∃ dealt, deal_hands ((List.range 32767).map (fun (j : Nat) => (j : Int)) ++ [32767])
          [Player.mk 3 0 0 [] 0 []] = some dealt
      ∧ dealt.map (fun q => q.hand_size) = [-32768]
      ∧ (dealt.map (fun q => q.hand_size)).sum
          ≠ ((((List.range 32767).map (fun (j : Nat) => (j : Int)) ++ [32767]).length : Nat) : Int)
      ∧ dealt.map Player.cards = [[]] := by
  obtain ⟨q, hdeal, hq⟩ := deal_hands_single ((List.range 32767).map (fun (j : Nat) => (j : Int)))
    32767 (Player.mk 3 0 0 [] 0 []) rfl (by rw [List.length_map, List.length_range])
  rw [List.length_map, List.length_range] at hq
  have hq2 : q.hand_size = -32768 := by rw [hq]; decide
  refine ⟨[q], hdeal, by rw [List.map_singleton, hq2], ?_, ?_⟩
  · rw [List.map_singleton, hq2, List.length_append, List.length_map, List.length_range]
    decide
  · rw [List.map_singleton]
    unfold Player.cards
    rw [hq2]
    rfl

/-! ### Validation of a suggestion -/

theorem in_range_zero (base n : Int) (ns : List Int) (c : Int) :
    in_range base (n :: ns) 0 c = decide (base ≤ c ∧ c < base + n) := by
  simp [in_range, category_base]

theorem in_range_succ (base n : Int) (ns : List Int) (i : Nat) (c : Int) :
    in_range base (n :: ns) (i + 1) c = in_range (base + n) ns i c := by
  simp only [in_range, category_base, List.take_succ_cons, List.sum_cons, List.getD_cons_succ]
  congr 1
  apply propext
  constructor <;> (intro h; omega)

theorem category_base_nonneg (nums : List Int) (hpos : ∀ n ∈ nums, 0 < n) (i : Nat) :
    0 ≤ category_base nums i := by
  unfold category_base
  apply List.sum_nonneg
  intro x hx
  exact le_of_lt (hpos x (List.mem_of_mem_take hx))

theorem in_range_lower (base : Int) (nums : List Int) (hpos : ∀ n ∈ nums, 0 < n) (i : Nat)
    (c : Int) (h : in_range base nums i c = true) : base ≤ c := by
  simp only [in_range, decide_eq_true_eq] at h
  have := category_base_nonneg nums hpos i
  omega

theorem in_some_bounds : ∀ (nums : List Int) (base c : Int), (∀ n ∈ nums, 0 < n) →
    in_some base nums c = true → base ≤ c ∧ c < base + nums.sum := by
  intro nums
  induction nums with
  | nil => intro base c _ h; simp [in_some] at h
  | cons n ns ih =>
      intro base c hpos h
      have hn := hpos n (List.mem_cons_self _ _)
      have hns : ∀ m ∈ ns, 0 < m := fun m hm => hpos m (List.mem_cons_of_mem _ hm)
      have hsum : 0 ≤ ns.sum := List.sum_nonneg (fun x hx => le_of_lt (hns x hx))
      simp only [in_some, Bool.or_eq_true, decide_eq_true_eq] at h
      rw [List.sum_cons]
      rcases h with h | h
      · omega
      · have := ih (base + n) c hns h
        omega

theorem countP_or_disjoint (p q : Int → Bool) (l : List Int)
    (h : ∀ x ∈ l, ¬ (p x = true ∧ q x = true)) :
    l.countP (fun x => p x || q x) = l.countP p + l.countP q := by
  induction l with
  | nil => simp
  | cons x xs ih =>
      have hx := h x (List.mem_cons_self _ _)
      rw [List.countP_cons, List.countP_cons, List.countP_cons,
        ih (fun y hy => h y (List.mem_cons_of_mem _ hy))]
      cases hp : p x <;> cases hq : q x <;> simp_all <;> omega

theorem countP_in_some : ∀ (nums : List Int) (base : Int) (l : List Int),
    (∀ n ∈ nums, 0 < n) →
    (∀ i, i < nums.length → l.countP (in_range base nums i) = 1) →
    l.countP (in_some base nums) = nums.length := by
  intro nums
  induction nums with
  | nil => intro base l _ _; simp [in_some]
  | cons n ns ih =>
      intro base l hpos hall
      have hns : ∀ m ∈ ns, 0 < m := fun m hm => hpos m (List.mem_cons_of_mem _ hm)
      have h0 := hall 0 (by simp)
      have hrest : ∀ i, i < ns.length → l.countP (in_range (base + n) ns i) = 1 := by
        intro i hi
        have := hall (i + 1) (by simp; omega)
        have e : in_range base (n :: ns) (i + 1) = in_range (base + n) ns i := by
          funext c; exact in_range_succ base n ns i c
        rw [e] at this
        exact this
      have e0 : in_range base (n :: ns) 0 = fun c => decide (base ≤ c ∧ c < base + n) := by
        funext c; exact in_range_zero base n ns c
      rw [e0] at h0
      have hdef : in_some base (n :: ns)
          = fun c => decide (base ≤ c ∧ c < base + n) || in_some (base + n) ns c := by
        funext c; rfl
      rw [hdef, countP_or_disjoint, h0, ih (base + n) l hns hrest, List.length_cons]
      · omega
      · intro x _ hx
        have := in_some_bounds ns (base + n) x hns hx.2
        have h1 := hx.1
        simp only [decide_eq_true_eq] at h1
        omega

/-- The validation loop returns `legal` when every position holds a card of its category, and
0 otherwise. -/
theorem suggestion_legal_loop_spec : ∀ (nums cs : List Int) (base legal : Int),
    nums.length = cs.length →
    ((∀ i, i < nums.length → in_range base nums i (cs.getD i 0) = true) →
      suggestion_legal_loop nums cs base legal = legal)
    ∧ ((¬ ∀ i, i < nums.length → in_range base nums i (cs.getD i 0) = true) →
      suggestion_legal_loop nums cs base legal = 0) := by
  intro nums
  induction nums with
  | nil =>
      intro cs base legal hlen
      cases cs with
      | nil => exact ⟨fun _ => rfl, fun h => absurd (fun i hi => absurd hi (Nat.not_lt_zero i)) h⟩
      | cons c cs => simp at hlen
  | cons n ns ih =>
      intro cs base legal hlen
      cases cs with
      | nil => simp at hlen
      | cons c cs =>
          have hlen2 : ns.length = cs.length := by simpa using hlen
          have hsplit : (∀ i, i < (n :: ns).length →
                in_range base (n :: ns) i ((c :: cs).getD i 0) = true)
              ↔ ((base ≤ c ∧ c < base + n)
                  ∧ ∀ i, i < ns.length → in_range (base + n) ns i (cs.getD i 0) = true) := by
            constructor
            · intro h
              refine ⟨?_, fun i hi => ?_⟩
              · have := h 0 (by simp)
                simpa [in_range_zero] using this
              · have := h (i + 1) (by simp; omega)
                simpa [in_range_succ] using this
            · rintro ⟨h0, hr⟩ i hi
              cases i with
              | zero => simpa [in_range_zero] using h0
              | succ i =>
                  have := hr i (by simpa using hi)
                  simpa [in_range_succ] using this
          rw [hsplit]
          unfold suggestion_legal_loop
          simp only []
          constructor
          · rintro ⟨h0, hr⟩
            rw [if_neg (by omega)]
            exact (ih cs (base + n) legal hlen2).1 hr
          · intro hno
            by_cases h0 : base ≤ c ∧ c < base + n
            · rw [if_neg (by omega)]
              exact (ih cs (base + n) legal hlen2).2 (fun hr => hno ⟨h0, hr⟩)
            · rw [if_pos (by omega)]
              by_cases hr : ∀ i, i < ns.length → in_range (base + n) ns i (cs.getD i 0) = true
              · exact (ih cs (base + n) 0 hlen2).1 hr
              · exact (ih cs (base + n) 0 hlen2).2 hr

theorem in_range_succ_fun (base n : Int) (ns : List Int) (i : Nat) :
    in_range base (n :: ns) (i + 1) = in_range (base + n) ns i := by
  funext c; exact in_range_succ base n ns i c

/-- Position by position implies one card per category. -/
theorem counts_of_positions : ∀ (nums cs : List Int) (base : Int), (∀ n ∈ nums, 0 < n) →
    nums.length = cs.length →
    (∀ i, i < nums.length → in_range base nums i (cs.getD i 0) = true) →
    ∀ i, i < nums.length → cs.countP (in_range base nums i) = 1 := by
  intro nums
  induction nums with
  | nil => intro cs base _ _ _ i hi; simp at hi
  | cons n ns ih =>
      intro cs base hpos hlen hall
      cases cs with
      | nil => simp at hlen
      | cons c cs =>
          have hns : ∀ m ∈ ns, 0 < m := fun m hm => hpos m (List.mem_cons_of_mem _ hm)
          have hlen2 : ns.length = cs.length := by simpa using hlen
          have h0 : base ≤ c ∧ c < base + n := by
            have := hall 0 (by simp)
            simpa [in_range_zero] using this
          have hr : ∀ i, i < ns.length → in_range (base + n) ns i (cs.getD i 0) = true := by
            intro i hi
            have := hall (i + 1) (by simp; omega)
            simpa [in_range_succ] using this
          have hcs : ∀ x ∈ cs, base + n ≤ x := by
            intro x hx
            obtain ⟨k, hk, hkx⟩ := List.getElem_of_mem hx
            have := hr k (by omega)
            rw [List.getD_eq_getElem _ _ hk, hkx] at this
            exact in_range_lower (base + n) ns hns k x this
          have ih2 := ih cs (base + n) hns hlen2 hr
          intro i hi
          cases i with
          | zero =>
              rw [List.countP_cons]
              have hz : cs.countP (in_range base (n :: ns) 0) = 0 := by
                rw [List.countP_eq_zero]
                intro x hx
                have := hcs x hx
                simp only [in_range_zero, decide_eq_true_eq]
                omega
              rw [hz]
              simp [in_range_zero, h0]
          | succ i =>
              rw [List.countP_cons, in_range_succ_fun, ih2 i (by simpa using hi)]
              have hc : in_range (base + n) ns i c = false := by
                by_contra hne
                have := in_range_lower (base + n) ns hns i c (by simpa using hne)
                omega
              simp [hc]

/-- One card per category implies position by position, on a sorted list. -/
theorem positions_of_counts : ∀ (nums cs : List Int) (base : Int), (∀ n ∈ nums, 0 < n) →
    nums.length = cs.length → cs.Sorted (· ≤ ·) →
    (∀ i, i < nums.length → cs.countP (in_range base nums i) = 1) →
    ∀ i, i < nums.length → in_range base nums i (cs.getD i 0) = true := by
  intro nums
  induction nums with
  | nil => intro cs base _ _ _ _ i hi; simp at hi
  | cons n ns ih =>
      intro cs base hpos hlen hsorted hall
      cases cs with
      | nil => simp at hlen
      | cons c cs =>
          have hns : ∀ m ∈ ns, 0 < m := fun m hm => hpos m (List.mem_cons_of_mem _ hm)
          have hlen2 : ns.length = cs.length := by simpa using hlen
          have hmin : ∀ x ∈ cs, c ≤ x := (List.sorted_cons.mp hsorted).1
          have hsorted2 : cs.Sorted (· ≤ ·) := (List.sorted_cons.mp hsorted).2
          have hcount := countP_in_some (n :: ns) base (c :: cs) hpos hall
          rw [hlen] at hcount
          have hallin := List.countP_eq_length.mp hcount
          have hlow : base ≤ c :=
            (in_some_bounds (n :: ns) base c hpos (hallin c (List.mem_cons_self _ _))).1
          have h0 := hall 0 (by simp)
          have hex : ∃ x ∈ c :: cs, in_range base (n :: ns) 0 x = true := by
            have : 0 < (c :: cs).countP (in_range base (n :: ns) 0) := by omega
            exact List.countP_pos_iff.mp this
          obtain ⟨x, hx, hxr⟩ := hex
          have hxn : x < base + n := by
            simp only [in_range_zero, decide_eq_true_eq] at hxr
            exact hxr.2
          have hcx : c ≤ x := by
            rcases List.mem_cons.mp hx with h | h
            · rw [h]
            · exact hmin x h
          have hc0 : base ≤ c ∧ c < base + n := ⟨hlow, by omega⟩
          have hrest : ∀ i, i < ns.length → cs.countP (in_range (base + n) ns i) = 1 := by
            intro i hi
            have := hall (i + 1) (by simp; omega)
            rw [List.countP_cons, in_range_succ_fun] at this
            have hc : in_range (base + n) ns i c = false := by
              by_contra hne
              have := in_range_lower (base + n) ns hns i c (by simpa using hne)
              omega
            simpa [hc] using this
          have ih2 := ih cs (base + n) hns hlen2 hsorted2 hrest
          intro i hi
          cases i with
          | zero => simpa [in_range_zero] using hc0
          | succ i =>
              have := ih2 i (by simpa using hi)
              simpa [in_range_succ] using this

theorem qsort_full (cs : List Int) (n : Nat) (h : cs.length = n) :
    qsort cs n = some (cs.insertionSort qsort_le) := by
  unfold qsort
  rw [if_pos ⟨by omega, by omega⟩]
  simp only [Int.toNat_ofNat]
  rw [← h, List.take_length, List.drop_length, List.append_nil]

/-- Value of `legal` for a suggestion of `num_categories` cards on a catalog without an empty
category: 1 when every category's range holds exactly one of the cards, else 0. -/
theorem suggestion_legal_spec (settings : Settings) (sugg : List Int)
    (hvalid : ∀ n ∈ settings.num_cards, 0 < n)
    (hlen : sugg.length = settings.num_categories) :
    ((∀ i, i < settings.num_categories → sugg.countP (in_category settings.num_cards i) = 1) →
      suggestion_legal settings sugg = some 1)
    ∧ ((¬ ∀ i, i < settings.num_categories →
          sugg.countP (in_category settings.num_cards i) = 1) →
      suggestion_legal settings sugg = some 0) := by
  have hperm := List.perm_insertionSort qsort_le sugg
  have hsorted : (sugg.insertionSort qsort_le).Sorted (· ≤ ·) :=
    sorted_le_of_sorted_qsort_le (List.sorted_insertionSort _ _)
  have hlen2 : settings.num_cards.length = (sugg.insertionSort qsort_le).length := by
    rw [List.length_insertionSort, hlen]; rfl
  have hloop := suggestion_legal_loop_spec settings.num_cards (sugg.insertionSort qsort_le) 0 1
    hlen2
  have hcnt : ∀ i, (sugg.insertionSort qsort_le).countP (in_range 0 settings.num_cards i)
      = sugg.countP (in_category settings.num_cards i) := by
    intro i
    exact hperm.countP_eq _
  unfold suggestion_legal
  rw [qsort_full sugg settings.num_categories hlen]
  simp only []
  constructor
  · intro h
    rw [hloop.1]
    apply positions_of_counts settings.num_cards _ 0 hvalid hlen2 hsorted
    intro i hi
    rw [hcnt]; exact h i hi
  · intro h
    rw [hloop.2]
    intro hpos
    apply h
    intro i hi
    rw [← hcnt]
    exact counts_of_positions settings.num_cards _ 0 hvalid hlen2 hpos i hi

theorem sum_toNat_eq_sum : ∀ (nums : List Int), (∀ n ∈ nums, 0 < n) →
    (nums.map (fun n => ((n.toNat : Nat) : Int))).sum = nums.sum := by
  intro nums
  induction nums with
  | nil => intro _; rfl
  | cons n ns ih =>
      intro hvalid
      have hn := hvalid n (List.mem_cons_self _ _)
      simp only [List.map_cons, List.sum_cons,
        ih (fun m hm => hvalid m (List.mem_cons_of_mem _ hm))]
      omega

theorem total_cards_eq_sum (settings : Settings) (hvalid : ∀ n ∈ settings.num_cards, 0 < n) :
    total_cards settings = settings.num_cards.sum :=
  sum_toNat_eq_sum settings.num_cards hvalid

theorem validation_loop_in (num_names : Int) : ∀ (nums cs : List Int) (base legal : Int),
    (∀ c ∈ cs, 0 ≤ c ∧ c < num_names) →
    validation_loop num_names nums cs base legal
      = some (suggestion_legal_loop nums cs base legal) := by
  intro nums
  induction nums with
  | nil => intro cs base legal _; cases cs <;> rfl
  | cons n ns ih =>
      intro cs base legal hin
      cases cs with
      | nil => rfl
      | cons c cs =>
          have hc := hin c (List.mem_cons_self _ _)
          unfold validation_loop suggestion_legal_loop
          rw [if_neg (by omega)]
          exact ih cs _ _ (fun x hx => hin x (List.mem_cons_of_mem _ hx))

theorem validation_loop_out (num_names : Int) : ∀ (nums cs : List Int) (base legal : Int),
    nums.length = cs.length → (∃ c ∈ cs, c < 0 ∨ num_names ≤ c) →
    validation_loop num_names nums cs base legal = none := by
  intro nums
  induction nums with
  | nil =>
      intro cs base legal hlen hout
      cases cs with
      | nil => obtain ⟨c, hc, _⟩ := hout; simp at hc
      | cons c cs => simp at hlen
  | cons n ns ih =>
      intro cs base legal hlen hout
      cases cs with
      | nil => simp at hlen
      | cons c cs =>
          unfold validation_loop
          by_cases hc : c < 0 ∨ num_names ≤ c
          · rw [if_pos hc]
          · rw [if_neg hc]
            obtain ⟨x, hx, hxo⟩ := hout
            rcases List.mem_cons.mp hx with h | h
            · rw [h] at hxo; exact absurd hxo hc
            · exact ih cs _ _ (by simpa using hlen) ⟨x, h, hxo⟩

theorem validation_loop_some (num_names : Int) : ∀ (nums cs : List Int) (base legal v : Int),
    validation_loop num_names nums cs base legal = some v →
    v = suggestion_legal_loop nums cs base legal := by
  intro nums
  induction nums with
  | nil =>
      intro cs base legal v h
      cases cs <;> exact (Option.some.inj h).symm
  | cons n ns ih =>
      intro cs base legal v h
      cases cs with
      | nil => exact (Option.some.inj h).symm
      | cons c cs =>
          unfold validation_loop at h
          unfold suggestion_legal_loop
          split_ifs at h
          exact ih cs _ _ v h

theorem validate_suggestion_in (settings : Settings) (sugg : List Int)
    (hlen : sugg.length = settings.num_categories)
    (hin : ∀ c ∈ sugg, 0 ≤ c ∧ c < total_cards settings) :
    validate_suggestion settings sugg = suggestion_legal settings sugg := by
  unfold validate_suggestion suggestion_legal
  rw [qsort_full sugg settings.num_categories hlen]
  simp only []
  apply validation_loop_in
  intro c hc
  exact hin c ((List.perm_insertionSort qsort_le sugg).mem_iff.mp hc)

theorem validate_suggestion_out (settings : Settings) (sugg : List Int)
    (hlen : sugg.length = settings.num_categories)
    (hout : ∃ c ∈ sugg, c < 0 ∨ total_cards settings ≤ c) :
    validate_suggestion settings sugg = none := by
  unfold validate_suggestion
  rw [qsort_full sugg settings.num_categories hlen]
  simp only []
  apply validation_loop_out
  · rw [List.length_insertionSort, hlen]; rfl
  · obtain ⟨c, hc, ho⟩ := hout
    exact ⟨c, (List.perm_insertionSort qsort_le sugg).mem_iff.mpr hc, ho⟩

/-- C4 fails in the code for card IDs outside the catalog. Each iteration of the validation
loop prints `card_names[client_suggestion[i]]` before it checks the ID against the range of
the category, so an ID outside the catalog is used as an index into `card_names` first. On the
catalog of the sample game (categories of 3 and 4 cards, 7 names) the suggestion `[50, -3]` is
sorted to `[-3, 50]` and the first iteration reads `card_names[-3]`: validation has no defined
result, where the claim has the suggestion rejected. The suggestion `[1, 2]`, two cards of the
first category, is rejected, and `[5, 1]` is accepted. In general, for every catalog without
an empty category and every suggestion of exactly `num_categories` card IDs: if one of the IDs
is negative or not below `total_cards`, validation has no defined result; if all of them are
card IDs of the catalog, validation returns `legal = 1` (accepted) or `legal = 0` (rejected),
it accepts if and only if every category's ID range contains exactly one of the submitted
cards, the verdict is the same for every reordering of the submitted list, and two cards of
one category make it rejected. -/
theorem suggestion_names_read_before_validation :
    qsort [50, -3] demo_settings.num_categories = some [-3, 50]
      ∧ total_cards demo_settings = 7
      ∧ validate_suggestion demo_settings [50, -3] = none
      ∧ validate_suggestion demo_settings [1, 2] = some 0
      ∧ validate_suggestion demo_settings [5, 1] = some 1
      ∧ ∀ (settings : Settings) (sugg : List Int), (∀ n ∈ settings.num_cards, 0 < n) →
          sugg.length = settings.num_categories →
          ((∃ c ∈ sugg, c < 0 ∨ total_cards settings ≤ c) →
            validate_suggestion settings sugg = none)
          ∧ ((∀ c ∈ sugg, 0 ≤ c ∧ c < total_cards settings) →
            ∃ legal, validate_suggestion settings sugg = some legal ∧ (legal = 0 ∨ legal = 1)
              ∧ (legal = 1 ↔ ∀ i, i < settings.num_categories →
                  sugg.countP (in_category settings.num_cards i) = 1)
              ∧ (∀ sugg2 : List Int, sugg2.Perm sugg →
                  validate_suggestion settings sugg2 = some legal)
              ∧ ((∃ i, i < settings.num_categories
                    ∧ 2 ≤ sugg.countP (in_category settings.num_cards i)) → legal = 0)) := by
  refine ⟨by decide, by decide, by decide, by decide, by decide, ?_⟩
  intro settings sugg hvalid hlen
  refine ⟨validate_suggestion_out settings sugg hlen, ?_⟩
  intro hin
  have hspec := suggestion_legal_spec settings sugg hvalid hlen
  have hval : ∀ sugg2 : List Int, sugg2.Perm sugg →
      validate_suggestion settings sugg2 = suggestion_legal settings sugg2 := by
    intro sugg2 hp
    exact validate_suggestion_in settings sugg2 (by rw [hp.length_eq, hlen])
      (fun c hc => hin c (hp.mem_iff.mp hc))
  have hperm : ∀ sugg2 : List Int, sugg2.Perm sugg →
      ((∀ i, i < settings.num_categories →
          sugg2.countP (in_category settings.num_cards i) = 1)
        ↔ ∀ i, i < settings.num_categories →
          sugg.countP (in_category settings.num_cards i) = 1) := by
    intro sugg2 hp
    constructor
    · intro h i hi; rw [← hp.countP_eq]; exact h i hi
    · intro h i hi; rw [hp.countP_eq]; exact h i hi
  by_cases hall : ∀ i, i < settings.num_categories →
      sugg.countP (in_category settings.num_cards i) = 1
  · refine ⟨1, ?_, Or.inr rfl, ⟨fun _ => hall, fun _ => rfl⟩, ?_, ?_⟩
    · rw [hval sugg (List.Perm.refl _)]; exact hspec.1 hall
    · intro sugg2 hp
      rw [hval sugg2 hp]
      exact (suggestion_legal_spec settings sugg2 hvalid (by rw [hp.length_eq, hlen])).1
        ((hperm sugg2 hp).mpr hall)
    · rintro ⟨i, hi, h2⟩
      have := hall i hi
      omega
  · refine ⟨0, ?_, Or.inl rfl, ⟨fun h => absurd h (by decide), fun h => absurd h hall⟩,
      ?_, fun _ => rfl⟩
    · rw [hval sugg (List.Perm.refl _)]; exact hspec.2 hall
    · intro sugg2 hp
      rw [hval sugg2 hp]
      exact (suggestion_legal_spec settings sugg2 hvalid (by rw [hp.length_eq, hlen])).2
        (fun h => hall ((hperm sugg2 hp).mp h))

/-! ### Resolution of a suggestion -/

theorem has_one_loop_eq (q : Player) (hok : hand_ok q) : ∀ (sugg : List Int),
    has_one_loop q sugg = some (if holds_any q sugg = true then 1 else 0) := by
  intro sugg
  induction sugg with
  | nil => rfl
  | cons c cs ih =>
      unfold has_one_loop
      rw [player_has_card_eq q c hok.1 hok.2.1 hok.2.2]
      simp only []
      by_cases hc : c ∈ q.cards
      · simp [hc, holds_any]
      · rw [if_neg hc, if_neg (by decide), ih]
        simp [holds_any, hc]

theorem run_turn_of_suggestion (settings : Settings) (solution : List Int)
    (players : List Player) (turn_idx : Int) (reply : TurnReply) (query_reply : Nat → QueryReply)
    (t : Nat) (sugg : List Int) (active : Player)
    (hturn : suggestion_turn settings players turn_idx reply t sugg active)
    (sent : List Sent) (flow : Flow)
    (hround : suggestion_round settings.num_categories players t sugg query_reply players.length
      ((t + 1) % players.length) = some (sent, flow)) :
    run_turn settings solution players turn_idx reply query_reply
      = some { sent := turn_frames players.length active.id ++ sent,
               flow := if flow = Flow.stop then Flow.next else flow,
               players := players, turn_idx := t } := by
  obtain ⟨h1, h2, h3, h4, h5, h6, h7, h8, h9⟩ := hturn
  unfold run_turn
  simp only []
  rw [if_neg h1, if_neg h2, h3]
  simp only [h4]
  rw [if_neg h5, if_neg (by rw [h6]; decide), if_pos h6, if_neg h7, h8]
  simp only []
  rw [if_neg h9, hround]
  cases flow <;> rfl

theorem run_game_exit (settings : Settings) (solution : List Int) (reply : Nat → TurnReply)
    (query_reply : Nat → Nat → QueryReply) (fuel k : Nat) (players : List Player)
    (turn_idx : Int) (turn : Turn) (code : Int)
    (hturn : run_turn settings solution players turn_idx (reply k) (query_reply k) = some turn)
    (hflow : turn.flow = Flow.exited code) :
    run_game settings solution reply query_reply (fuel + 1) k players turn_idx
      = some (turn.sent, Flow.exited code) := by
  unfold run_game
  rw [hturn]
  simp only [hflow]

theorem abort_game_frames (n : Nat) (reason : String) :
    (∀ i, i < n → ∃ e ∈ abort_game n reason, e.dest = i)
    ∧ ∀ e ∈ abort_game n reason, e.type = FRAME_TYPE_ABORT
        ∧ e.data_length = 4 + strlen reason
        ∧ e.payload = Payload.abort (strlen reason) reason := by
  constructor
  · intro i hi
    exact ⟨_, List.mem_map.mpr ⟨i, List.mem_range.mpr hi, rfl⟩, rfl⟩
  · intro e he
    simp only [abort_game, List.mem_map] at he
    obtain ⟨i, _, rfl⟩ := he
    exact ⟨rfl, rfl, rfl⟩

/-! ### A sample game -/

/-- A player who holds a suggested card and answers with exactly the 2 bytes of a query
response naming a card that is not in the hand: when the card ID is an index of `card_names`,
the query is broadcast and `abort_game` runs; otherwise the step has no defined result. -/
theorem query_step_names_cheat (num_names : Int) (num_categories : Nat) (players : List Player)
    (t s : Nat) (sugg : List Int) (reply : QueryReply) (q : Player) (hq : players[s]? = some q)
    (hok : hand_ok q) (hyes : holds_any q sugg = true) (hreply : reply_complete reply)
    (hbody : reply.body_received ≤ 2) (hcard : reply.card_id ∉ q.cards) :
    ((reply.card_id < 0 ∨ num_names ≤ reply.card_id) →
        query_step_names num_names num_categories players t s sugg reply = none)
      ∧ ((0 ≤ reply.card_id ∧ reply.card_id < num_names) →
        query_step_names num_names num_categories players t s sugg reply
          = some (query_frames num_categories players.length q.id sugg
              ++ abort_game players.length "Player responded to a suggestion illegally",
              Flow.exited 1)) := by
  unfold query_step_names
  simp only [hq, has_one_loop_eq q hok sugg, hyes, if_true]
  rw [if_pos (by decide), if_neg hreply.1, if_neg (not_not.mpr hreply.2.1),
    if_neg (by omega), if_neg hreply.2.2, player_has_card_eq q _ hok.1 hok.2.1 hok.2.2]
  simp only [hcard, decide_False, Bool.false_eq_true, if_false, if_true]
  constructor
  · intro hout
    rw [if_pos hout]
  · intro hin
    rw [if_neg (by omega)]

/-- C6 fails in the code for card IDs outside the catalog. In the cheating branch `run_game`
prints `card_names[query_response_frame.card_id]` before it calls `abort_game`, so a card ID
that is no index of `card_names` is used as one first. In the sample game (7 names) the player
at position 0 suggests the cards 2 and 4 and the player at position 1, who holds 2 and 3,
answers with card ID -1: the step reads `card_names[-1]` and has no defined result, where the
claim has an Abort frame sent to every player. The answer 5, a card of the catalog that is not
in the hand, is followed by the query broadcast, an Abort frame with the reason "Player
responded to a suggestion illegally" to each of the three positions and `exit(1)`, with no
query announcement. In general, for every player who holds a suggested card and
answers with exactly the 2 bytes of a query response naming a card that is not in the hand,
the step aborts the game in this way when the card ID is an index of `card_names`, and has no
defined result when it is not. -/
theorem cheat_name_read_before_abort :
    holds_any (Player.mk 4 0 1 [] 2 [2, 3]) [2, 4] = true
      ∧ (-1 : Int) ∉ (Player.mk 4 0 1 [] 2 [2, 3]).cards
      ∧ total_cards demo_settings = 7
      ∧ query_step_names 7 2 demo_players 0 1 [2, 4] (demo_answer (-1)) = none
      ∧ query_step_names 7 2 demo_players 0 1 [2, 4] (demo_answer 5)
          = some (query_frames 2 3 1 [2, 4]
              ++ abort_game 3 "Player responded to a suggestion illegally", Flow.exited 1)
      ∧ abort_game 3 "Player responded to a suggestion illegally"
          = [Sent.mk 0 FRAME_TYPE_ABORT 46
               (Payload.abort 42 "Player responded to a suggestion illegally"),
             Sent.mk 1 FRAME_TYPE_ABORT 46
               (Payload.abort 42 "Player responded to a suggestion illegally"),
             Sent.mk 2 FRAME_TYPE_ABORT 46
               (Payload.abort 42 "Player responded to a suggestion illegally")]
      ∧ (∀ e ∈ query_frames 2 3 1 [2, 4]
            ++ abort_game 3 "Player responded to a suggestion illegally",
          e.type ≠ FRAME_TYPE_QUERY_RETURN)
      ∧ ∀ (num_names : Int) (num_categories : Nat) (players : List Player) (t s : Nat)
          (sugg : List Int) (reply : QueryReply) (q : Player), players[s]? = some q →
          hand_ok q → holds_any q sugg = true → reply_complete reply →
          reply.body_received ≤ 2 → reply.card_id ∉ q.cards →
          ((reply.card_id < 0 ∨ num_names ≤ reply.card_id) →
              query_step_names num_names num_categories players t s sugg reply = none)
            ∧ ((0 ≤ reply.card_id ∧ reply.card_id < num_names) →
              query_step_names num_names num_categories players t s sugg reply
                = some (query_frames num_categories players.length q.id sugg
                    ++ abort_game players.length "Player responded to a suggestion illegally",
                    Flow.exited 1)) := by
  refine ⟨by decide, by decide, by decide, by decide, by decide, by decide, by decide, ?_⟩
  intro num_names num_categories players t s sugg reply q hq hok hyes hreply hbody hcard
  exact query_step_names_cheat num_names num_categories players t s sugg reply q hq hok hyes
    hreply hbody hcard

/-- C7, at a failing input: the player at position 1 holds the cards 2 and 3, the suggestion
is `[2, 4]`, and the player answers with card 3, which is in the hand but not in the
suggestion. The engine accepts the answer and sends card 3 to the suggester at position 0. -/
theorem unobligated_card_revealed :
    query_step 2 demo_players 0 1 [2, 4] (demo_answer 3)
        = some (query_frames 2 3 1 [2, 4] ++ show_frames 3 0 1 1 3, Flow.stop)
      ∧ holds_any (Player.mk 4 0 1 [] 2 [2, 3]) [2, 4] = true
      ∧ (3 : Int) ∈ (Player.mk 4 0 1 [] 2 [2, 3]).cards
      ∧ (3 : Int) ∉ ([2, 4] : List Int)
      ∧ Sent.mk 0 FRAME_TYPE_QUERY_RETURN 4 (Payload.query_return 1 3) ∈ show_frames 3 0 1 1 3 := by
  decide

/-! ### Announcements -/

theorem pick_solution_ranges (rand : Nat → Nat) :
    ∀ (nums : List Int) (k : Nat) (base : Int) (sol deck : List Int),
      (∀ n ∈ nums, 0 < n) → 0 ≤ base → base + card_count nums ≤ 32767 →
      ∃ sol1 deck1, pick_solution rand nums k base sol deck = some (sol ++ sol1, deck ++ deck1)
        ∧ sol1.length = nums.length
        ∧ ∀ i, i < nums.length → in_range base nums i (sol1.getD i 0) = true := by
  intro nums
  induction nums with
  | nil =>
      intro k base sol deck _ _ _
      exact ⟨[], [], by simp [pick_solution], rfl, fun i hi => absurd hi (Nat.not_lt_zero i)⟩
  | cons num rest ih =>
      intro k base sol deck hpos hb hfit
      have hnum : 0 < num := hpos num (List.mem_cons_self _ _)
      obtain ⟨m, hm⟩ : ∃ m : Nat, num = m := ⟨num.toNat, by omega⟩
      subst hm
      have hcc : card_count ((m : Int) :: rest) = m + card_count rest := by
        simp [card_count]
      rw [hcc] at hfit
      push_cast at hfit
      have hr0 : 0 ≤ ((rand k : Nat) : Int).tmod m := Int.tmod_nonneg _ (by omega)
      have hr1 : ((rand k : Nat) : Int).tmod m < m := Int.tmod_lt_of_pos _ hnum
      have hs : toInt16 (base + ((rand k : Nat) : Int).tmod m)
          = base + ((rand k : Nat) : Int).tmod m := toInt16_of_fits (by omega) (by omega)
      obtain ⟨sol2, deck2, hpick, hlen, hr⟩ := ih (k + 1) (base + m)
        (sol ++ [toInt16 (base + ((rand k : Nat) : Int).tmod m)])
        (deck_category base (toInt16 (base + ((rand k : Nat) : Int).tmod m)) m deck)
        (fun n hn => hpos n (List.mem_cons_of_mem _ hn)) (by omega) (by omega)
      refine ⟨(base + ((rand k : Nat) : Int).tmod m) :: sol2,
        ((List.range (m : Int).toNat).filter
            (fun (j : Nat) => base + (j : Int) ≠ toInt16 (base + ((rand k : Nat) : Int).tmod m))).map
          (fun (j : Nat) => toInt16 (base + (j : Int))) ++ deck2, ?_, ?_, ?_⟩
      · unfold pick_solution
        rw [if_neg (by omega)]
        simp only []
        rw [toInt16_of_fits (show -32768 ≤ base + (m : Int) by omega) (by omega), hpick, hs]
        simp [deck_category]
      · simp [hlen]
      · intro i hi
        cases i with
        | zero =>
            simp only [in_range_zero, List.getD_cons_zero, decide_eq_true_eq]
            omega
        | succ i =>
            rw [in_range_succ, List.getD_cons_succ]
            exact hr i (by simpa using hi)

/-- C11, as the code has it: for every catalog with every category non-empty and at most
32767 cards in total (so that every card ID fits `int16_t`), and every
sequence of random draws, the first loop of `start_game` returns a solution with one entry per
category, entry `i` in the ID range of category `i`, which starts at the sum of the sizes of
the earlier categories, and a deck of exactly `total_cards - num_categories` cards, which is
what the assertion on `deck_len` checks; the solution of a returning `start_game` is this
solution and its deck has this length. -/
theorem solution_one_per_category (rand : Nat → Nat) (settings : Settings)
    (hpos : ∀ n ∈ settings.num_cards, 0 < n)
    (hfit : total_cards settings ≤ 32767) :
    ∃ solution deck, pick_solution rand settings.num_cards 0 0 [] [] = some (solution, deck)
      ∧ solution.length = settings.num_categories
      ∧ (∀ i, i < settings.num_categories →
          category_base settings.num_cards i ≤ solution.getD i 0
            ∧ solution.getD i 0
                < category_base settings.num_cards i + settings.num_cards.getD i 0)
      ∧ ((deck.length : Nat) : Int) = total_cards settings - settings.num_categories
      ∧ (∀ (players : List Player) (g : Game),
          start_game rand settings (total_cards settings) players = some g →
            g.solution = solution ∧ g.deck.length = deck.length) := by
  have htot := total_cards_eq settings
  obtain ⟨sol, deck0, hpick, hsl, hperm⟩ := pick_solution_spec rand settings.num_cards 0 0 [] []
    hpos (le_refl 0) (by omega)
  obtain ⟨sol1, deck1, hpick1, _, hr⟩ := pick_solution_ranges rand settings.num_cards 0 0 [] []
    hpos (le_refl 0) (by omega)
  simp only [List.nil_append] at hpick hpick1
  have heq : sol1 = sol := by
    rw [hpick] at hpick1
    exact (Prod.mk.inj (Option.some.inj hpick1)).1.symm
  subst heq
  have hlen0 : sol1.length + deck0.length = card_count settings.num_cards := by
    have := hperm.length_eq
    simpa [ints] using this
  have hnc : settings.num_categories = settings.num_cards.length := rfl
  refine ⟨sol1, deck0, hpick, hsl, ?_, by rw [htot, hnc]; omega, ?_⟩
  · intro i hi
    have := hr i hi
    simp only [in_range, decide_eq_true_eq, zero_add] at this
    exact this
  · intro players g hg
    obtain ⟨d0, dealt, hp, _, hdeck, _, _⟩ :=
      start_game_inv rand settings (total_cards settings) players g hg
    rw [hpick] at hp
    have hinj := Prod.mk.inj (Option.some.inj hp)
    refine ⟨hinj.1.symm, ?_⟩
    rw [hdeck, ← hinj.2]
    exact (shuffle_perm rand settings.num_categories deck0 deck0.length).length_eq

theorem solution_one_per_category_witness :
    ((∀ n ∈ (Settings.mk 1 [3, 4]).num_cards, 0 < n)
      ∧ total_cards (Settings.mk 1 [3, 4]) ≤ 32767)
    ∧ ∃ solution deck,
        pick_solution (fun k => k * 7 + 3) (Settings.mk 1 [3, 4]).num_cards 0 0 [] []
          = some (solution, deck)
        ∧ solution.length = 2
        ∧ ((deck.length : Nat) : Int) = total_cards (Settings.mk 1 [3, 4]) - 2 := by
  obtain ⟨solution, deck, h1, h2, _, h4, _⟩ := solution_one_per_category (fun k => k * 7 + 3)
    (Settings.mk 1 [3, 4]) (by decide) (by decide)
  exact ⟨⟨by decide, by decide⟩, solution, deck, h1, h2, h4⟩

/-- The first loop of `start_game` on a catalog of `n1` and 2 cards when the draws are 0 and
then 1, and `n1 + 1` no longer fits `int16_t`: the second solution entry is stored wrapped,
so no card of the second category is skipped. -/
theorem pick_solution_wrapped (n1 : Int) (h0 : 0 < n1) (h1 : n1 ≤ 32767)
    (hw : toInt16 (n1 + 1) < 0) :
    ∃ dc, pick_solution (fun k => k) [n1, 2] 0 0 [] []
        = some ([0, toInt16 (n1 + 1)], dc ++ [n1, toInt16 (n1 + 1)])
      ∧ ((dc.length : Nat) : Int) = n1 - 1 := by
  obtain ⟨m, hm⟩ : ∃ m : Nat, n1 = m := ⟨n1.toNat, by omega⟩
  subst hm
  obtain ⟨dc, hdc, hperm⟩ := deck_category_perm 0 0 m [] (le_refl 0) (by omega) (le_refl 0) h0
  have hlen := hperm.length_eq
  simp only [List.length_cons, ints, List.length_map, List.length_range] at hlen
  refine ⟨dc, ?_, by omega⟩
  have ht0 : toInt16 0 = 0 := by decide
  have hz : ((0 : Nat) : Int).tmod (m : Int) = 0 := by simp
  have hz2 : (((0 + 1 : Nat) : Nat) : Int).tmod 2 = 1 := by decide
  have hbase : toInt16 (m : Int) = m := toInt16_of_fits (by omega) (by omega)
  have hdc2 : deck_category (m : Int) (toInt16 ((m : Int) + 1)) 2 ([] ++ dc)
      = dc ++ [(m : Int), toInt16 ((m : Int) + 1)] := by
    unfold deck_category
    have h2 : (2 : Int).toNat = 2 := rfl
    have hne0 : (m : Int) + ((0 : Nat) : Int) ≠ toInt16 ((m : Int) + 1) := by omega
    have hne1 : (m : Int) + ((1 : Nat) : Int) ≠ toInt16 ((m : Int) + 1) := by omega
    rw [h2]
    simp only [List.range_succ, List.range_zero, List.nil_append, List.singleton_append,
      List.filter_cons, hne0, hne1, decide_True, if_true, List.filter_nil, List.map_cons,
      List.map_nil, ne_eq, not_false_eq_true]
    simp [hbase]
  simp only [zero_add, add_zero] at hdc
  rw [ht0] at hdc
  unfold pick_solution
  rw [if_neg (by omega)]
  simp only [hz, zero_add, add_zero, ht0]
  rw [hdc]
  unfold pick_solution
  rw [if_neg (by decide)]
  simp only [hz2]
  simp only [hbase, hdc2, pick_solution]
  simp

/-- C11 as stated fails beyond the 16-bit range: on the catalog of 32767 and 2 cards (two
categories, both non-empty) with the draws 0 and then 1, the second solution entry is stored
as -32768, which is outside the ID range `[32767, 32769)` of the second category, both cards
of that category go to the deck, whose length 32768 is not `total_cards - num_categories`,
and the assertion on `deck_len` fails. -/
theorem solution_one_per_category_counterexample :
    ∃ solution deck,
      pick_solution (fun k => k) (Settings.mk 1 [32767, 2]).num_cards 0 0 [] []
          = some (solution, deck)
      ∧ solution.getD 1 0 = -32768
      ∧ ¬ (category_base [32767, 2] 1 ≤ solution.getD 1 0)
      ∧ ((deck.length : Nat) : Int) ≠ total_cards (Settings.mk 1 [32767, 2])
          - (Settings.mk 1 [32767, 2]).num_categories
      ∧ start_game (fun k => k) (Settings.mk 1 [32767, 2])
          (total_cards (Settings.mk 1 [32767, 2])) [Player.mk 3 0 0 [] 0 []] = none := by
  have htc : total_cards (Settings.mk 1 [32767, 2]) = 32769 := by decide
  have hnc : (Settings.mk 1 [32767, 2]).num_categories = 2 := rfl
  have hcb : category_base [32767, 2] 1 = 32767 := by decide
  have h16 : toInt16 (32767 + 1) = -32768 := by decide
  obtain ⟨dc, hpick, hdc⟩ := pick_solution_wrapped 32767 (by decide) (by decide) (by decide)
  rw [h16] at hpick
  have hlen : (((dc ++ [(32767 : Int), -32768]).length : Nat) : Int) = 32768 := by
    rw [List.length_append]
    push_cast
    rw [hdc]
    rfl
  refine ⟨[0, -32768], dc ++ [32767, -32768], hpick, rfl, by rw [hcb]; decide, ?_, ?_⟩
  · rw [hlen, htc, hnc]
    decide
  · unfold start_game
    simp only []
    rw [if_neg (by rw [hnc]; decide), if_neg (by rw [hnc, htc]; decide), hpick]
    simp only []
    rw [if_pos (by rw [hlen, htc, hnc]; decide)]

/-! ### The head of a turn -/

theorem skip_eliminated_spec (players : List Player) :
    ∀ (fuel start j : Nat), start < players.length → j < fuel →
      (∃ p, players[(start + j) % players.length]? = some p ∧ p.eliminated = 0) →
      ∃ i t active, i ≤ j ∧ t = (start + i) % players.length
        ∧ skip_eliminated players fuel start = some t
        ∧ players[t]? = some active ∧ active.eliminated = 0
        ∧ ∀ m, m < i → ∃ p, players[(start + m) % players.length]? = some p
            ∧ p.eliminated ≠ 0 := by
  intro fuel
  induction fuel with
  | zero => intro start j _ hj; exact absurd hj (Nat.not_lt_zero j)
  | succ fuel ih =>
      intro start j hs hj hex
      have hget : players[start]? = some players[start] := List.getElem?_eq_getElem hs
      by_cases he : players[start].eliminated = 0
      · refine ⟨0, start, players[start], Nat.zero_le j, ?_, ?_, hget, he, ?_⟩
        · rw [Nat.add_zero, Nat.mod_eq_of_lt hs]
        · unfold skip_eliminated
          rw [hget]
          simp only []
          rw [if_neg (by simpa using he)]
        · intro m hm; exact absurd hm (Nat.not_lt_zero m)
      · cases j with
        | zero =>
            obtain ⟨p, hp, hp0⟩ := hex
            rw [Nat.add_zero, Nat.mod_eq_of_lt hs, hget] at hp
            rw [← Option.some.inj hp] at hp0
            exact absurd hp0 he
        | succ j =>
            have hconv : ∀ m, ((start + 1) % players.length + m) % players.length
                = (start + (m + 1)) % players.length := by
              intro m
              rw [Nat.mod_add_mod]
              congr 1
              omega
            obtain ⟨i, t, active, hij, ht, hskip, hact, hel, hbefore⟩ :=
              ih ((start + 1) % players.length) j (Nat.mod_lt _ (by omega)) (by omega)
                (by rw [hconv]; exact hex)
            refine ⟨i + 1, t, active, by omega, by rw [ht, hconv], ?_, hact, hel, ?_⟩
            · unfold skip_eliminated
              rw [hget]
              simp only []
              rw [if_pos he]
              exact hskip
            · intro m hm
              cases m with
              | zero =>
                  exact ⟨players[start], by rw [Nat.add_zero, Nat.mod_eq_of_lt hs]; exact hget, he⟩
              | succ m =>
                  obtain ⟨p, hp, hpe⟩ := hbefore m (by omega)
                  exact ⟨p, by rw [← hconv]; exact hp, hpe⟩

theorem turn_start_lt (players : List Player) (turn_idx : Int) (hn : players.length ≠ 0) :
    turn_start players turn_idx < players.length := by
  unfold turn_start
  have hpos : (0 : Int) < (players.length : Int) := by omega
  have h1 := Int.tmod_lt_of_pos (turn_idx + 1) hpos
  omega

theorem turn_start_eq (players : List Player) (turn_idx : Int) (h : -1 ≤ turn_idx) :
    turn_start players turn_idx = (turn_idx + 1).toNat % players.length := by
  unfold turn_start
  obtain ⟨m, hm⟩ : ∃ m : Nat, turn_idx + 1 = m := ⟨(turn_idx + 1).toNat, by omega⟩
  rw [hm]
  simp only [Int.toNat_ofNat]
  rw [Int.tmod_eq_emod (by omega) (by omega)]
  norm_cast

theorem exists_not_eliminated (players : List Player) (h : count_not_eliminated players ≠ 0) :
    ∃ i p, i < players.length ∧ players[i]? = some p ∧ p.eliminated = 0 := by
  unfold count_not_eliminated at h
  have hne : players.filter (fun p => p.eliminated = 0) ≠ [] := by
    intro hnil
    rw [hnil] at h
    exact h rfl
  obtain ⟨p, hp⟩ := List.exists_mem_of_ne_nil _ hne
  obtain ⟨hmem, hp0⟩ := List.mem_filter.mp hp
  obtain ⟨i, hi, hpi⟩ := List.getElem_of_mem hmem
  exact ⟨i, p, hi, by rw [List.getElem?_eq_getElem hi, hpi], by simpa using hp0⟩

/-- When some player is not eliminated, the skip loop of `run_game` ends within
`num_players` tests, at the first position from the start position, in rotation order, whose
player is not eliminated. -/
theorem turn_head (players : List Player) (turn_idx : Int)
    (hn : players.length ≠ 0) (hc : count_not_eliminated players ≠ 0) :
    ∃ i t active, i < players.length
      ∧ t = (turn_start players turn_idx + i) % players.length
      ∧ skip_eliminated players players.length (turn_start players turn_idx) = some t
      ∧ players[t]? = some active ∧ active.eliminated = 0
      ∧ ∀ m, m < i → ∃ p, players[(turn_start players turn_idx + m) % players.length]? = some p
          ∧ p.eliminated ≠ 0 := by
  obtain ⟨x, p, hx, hp, hp0⟩ := exists_not_eliminated players hc
  have hs := turn_start_lt players turn_idx hn
  have hmod : (turn_start players turn_idx
      + (x + players.length - turn_start players turn_idx) % players.length) % players.length
      = x := by
    rw [Nat.add_mod_mod]
    have : turn_start players turn_idx + (x + players.length - turn_start players turn_idx)
        = x + players.length := by omega
    rw [this, Nat.add_mod_right, Nat.mod_eq_of_lt hx]
  obtain ⟨i, t, active, hij, ht, hskip, hact, hel, hbefore⟩ :=
    skip_eliminated_spec players players.length (turn_start players turn_idx)
      ((x + players.length - turn_start players turn_idx) % players.length) hs
      (Nat.mod_lt _ (by omega)) ⟨p, by rw [hmod]; exact hp, hp0⟩
  have hjl : (x + players.length - turn_start players turn_idx) % players.length
      < players.length := Nat.mod_lt _ (by omega)
  exact ⟨i, t, active, by omega, ht, hskip, hact, hel, hbefore⟩

theorem run_turn_all_eliminated (settings : Settings) (solution : List Int)
    (players : List Player) (turn_idx : Int) (reply : TurnReply) (query_reply : Nat → QueryReply)
    (hn : players.length ≠ 0) (hc : count_not_eliminated players = 0) :
    run_turn settings solution players turn_idx reply query_reply
      = some { sent := abort_game players.length "All players eliminated", flow := Flow.exited 1,
               players := players, turn_idx := turn_start players turn_idx } := by
  unfold run_turn
  simp only []
  rw [if_neg hn, if_pos hc]
  rfl

theorem run_turn_of_solve (settings : Settings) (solution : List Int)
    (players : List Player) (turn_idx : Int) (reply : TurnReply) (query_reply : Nat → QueryReply)
    (t : Nat) (active : Player)
    (hn : players.length ≠ 0) (hc : count_not_eliminated players ≠ 0)
    (hskip : skip_eliminated players players.length (turn_start players turn_idx) = some t)
    (hact : players[t]? = some active)
    (hsolve : solve_attempt settings reply) :
    run_turn settings solution players turn_idx reply query_reply
      = some { sent := turn_frames players.length active.id
                 ++ solve_result_frames settings.num_categories players.length active.id
                      (if solve_wrong solution reply.cards ≠ 0 then 0 else 1) reply.cards,
               flow := if solve_wrong solution reply.cards = 0 then Flow.stop else Flow.next,
               players := if solve_wrong solution reply.cards = 0 then players
                 else players.set t { active with eliminated := 1 },
               turn_idx := t } := by
  obtain ⟨h5, h6, h7⟩ := hsolve
  unfold turn_start at hskip
  unfold run_turn
  simp only []
  rw [if_neg hn, if_neg hc, hskip]
  simp only [hact]
  rw [if_neg h5, if_pos h6, if_neg h7]
  by_cases hw : solve_wrong solution reply.cards = 0
  · rw [if_pos hw, if_pos hw, if_pos hw]
  · rw [if_neg hw, if_neg hw, if_neg hw]

/-- What an iteration of `run_game` that returns has done: either nobody was left and only
the Abort broadcast was sent, or the turn of the first player that is not eliminated was
announced first, and the roster is unchanged unless the answer was a solve attempt judged
wrong, which sets the `eliminated` flag at the position of the turn and goes on. -/
theorem run_turn_inv (settings : Settings) (solution : List Int)
    (players : List Player) (turn_idx : Int) (reply : TurnReply) (query_reply : Nat → QueryReply)
    (turn : Turn)
    (h : run_turn settings solution players turn_idx reply query_reply = some turn) :
    players.length ≠ 0
      ∧ ((count_not_eliminated players = 0
            ∧ turn = { sent := abort_game players.length "All players eliminated",
                       flow := Flow.exited 1, players := players,
                       turn_idx := turn_start players turn_idx })
         ∨ (count_not_eliminated players ≠ 0
            ∧ ∃ t active rest,
                skip_eliminated players players.length (turn_start players turn_idx) = some t
                ∧ players[t]? = some active
                ∧ turn.sent = turn_frames players.length active.id ++ rest
                ∧ turn.turn_idx = t
                ∧ ((turn.players = players
                      ∧ ¬ (solve_attempt settings reply ∧ solve_wrong solution reply.cards ≠ 0))
                   ∨ (solve_attempt settings reply ∧ solve_wrong solution reply.cards ≠ 0
                      ∧ turn.players = players.set t { active with eliminated := 1 }
                      ∧ turn.flow = Flow.next)))) := by
  by_cases hn : players.length = 0
  · unfold run_turn at h
    simp only [] at h
    rw [if_pos hn] at h
    exact Option.noConfusion h
  refine ⟨hn, ?_⟩
  by_cases hc : count_not_eliminated players = 0
  · left
    rw [run_turn_all_eliminated settings solution players turn_idx reply query_reply hn hc] at h
    exact ⟨hc, (Option.some.inj h).symm⟩
  right
  refine ⟨hc, ?_⟩
  obtain ⟨i, t, active, _, _, hskip, hact, _, _⟩ := turn_head players turn_idx hn hc
  refine ⟨t, active, ?_⟩
  by_cases hsolve : solve_attempt settings reply
  · rw [run_turn_of_solve settings solution players turn_idx reply query_reply t active hn hc
      hskip hact hsolve] at h
    have ht := (Option.some.inj h).symm
    subst ht
    refine ⟨_, hskip, hact, rfl, rfl, ?_⟩
    by_cases hw : solve_wrong solution reply.cards = 0
    · left
      simp only [if_pos hw]
      exact ⟨trivial, fun hh => hh.2 hw⟩
    · right
      simp only [if_neg hw]
      exact ⟨hsolve, hw, trivial, trivial⟩
  · have hskip2 := hskip
    unfold turn_start at hskip2
    unfold run_turn at h
    simp only [] at h
    rw [if_neg hn, if_neg hc, hskip2] at h
    simp only [hact] at h
    simp only [List.append_assoc] at h
    have hno : ¬ (solve_attempt settings reply ∧ solve_wrong solution reply.cards ≠ 0) :=
      fun hh => hsolve hh.1
    have hdone : ∀ rest flow, some (Turn.mk (turn_frames players.length active.id ++ rest) flow
        players (t : Int)) = some turn →
        ∃ rest,
          skip_eliminated players players.length (turn_start players turn_idx) = some t
          ∧ players[t]? = some active
          ∧ turn.sent = turn_frames players.length active.id ++ rest
          ∧ turn.turn_idx = t
          ∧ ((turn.players = players
                ∧ ¬ (solve_attempt settings reply ∧ solve_wrong solution reply.cards ≠ 0))
             ∨ (solve_attempt settings reply ∧ solve_wrong solution reply.cards ≠ 0
                ∧ turn.players = players.set t { active with eliminated := 1 }
                ∧ turn.flow = Flow.next)) := by
      intro rest flow ht
      have ht2 := (Option.some.inj ht).symm
      subst ht2
      exact ⟨rest, hskip, hact, rfl, rfl, Or.inl ⟨rfl, hno⟩⟩
    unfold solve_attempt at hsolve
    split_ifs at h
    all_goals first
      | exact hdone _ _ h
      | exact absurd (And.intro (by assumption) (And.intro (by assumption) (by assumption))) hsolve
      | skip
    split at h
    · exact Option.noConfusion h
    · split_ifs at h
      · exact hdone _ _ h
      · split at h
        · exact Option.noConfusion h
        · exact hdone _ _ h
        · exact hdone _ _ h

/-! ### The eliminated flag -/

/-- C13: in every iteration of the `while (1)` loop of `run_game` that returns, the roster
keeps its length and every `eliminated` flag that was set before is set afterwards. Some flag
differs afterwards exactly when a turn was announced and the answer was a complete solve
attempt judged wrong; in that iteration the attempting player `active`, at the position `t`
of the announced turn, was not eliminated before and has the flag 1 afterwards, every other
position of the roster is unchanged, the frames sent are the turn broadcast and the solve
result with correct flag 0, and the loop goes on to its next iteration. -/
theorem eliminated_set_once (settings : Settings) (solution : List Int)
    (players : List Player) (turn_idx : Int) (reply : TurnReply) (query_reply : Nat → QueryReply)
    (turn : Turn)
    (h : run_turn settings solution players turn_idx reply query_reply = some turn) :
    turn.players.length = players.length
      ∧ (∀ (i : Nat) (p q : Player), players[i]? = some p → turn.players[i]? = some q →
          p.eliminated ≠ 0 → q.eliminated ≠ 0)
      ∧ (flags turn.players ≠ flags players ↔
          (count_not_eliminated players ≠ 0 ∧ solve_attempt settings reply
            ∧ solve_wrong solution reply.cards ≠ 0))
      ∧ (flags turn.players ≠ flags players →
          ∃ t active,
            skip_eliminated players players.length (turn_start players turn_idx) = some t
            ∧ turn.turn_idx = t
            ∧ players[t]? = some active ∧ active.eliminated = 0
            ∧ turn.players[t]? = some { active with eliminated := 1 }
            ∧ (∀ i, i ≠ t → turn.players[i]? = players[i]?)
            ∧ turn.sent = turn_frames players.length active.id
                ++ solve_result_frames settings.num_categories players.length active.id 0
                     reply.cards
            ∧ turn.flow = Flow.next) := by
  obtain ⟨hn, hcase⟩ := run_turn_inv settings solution players turn_idx reply query_reply turn h
  rcases hcase with ⟨hc, hturn⟩ | ⟨hc, t, active, rest, hskip, hact, hsent, hidx, hcase2⟩
  · subst hturn
    refine ⟨rfl, ?_, ?_, fun hne => absurd rfl hne⟩
    · intro i p q hp hq hpe
      simp only [] at hq
      rw [hp] at hq
      rw [← Option.some.inj hq]
      exact hpe
    · exact ⟨fun hne => absurd rfl hne, fun hh => absurd hc hh.1⟩
  · obtain ⟨_, t1, active1, _, _, hskip1, hact1, hel1, _⟩ := turn_head players turn_idx hn hc
    rw [hskip] at hskip1
    have ht1 := Option.some.inj hskip1
    subst ht1
    rw [hact] at hact1
    have ha1 := Option.some.inj hact1
    subst ha1
    have htlt : t < players.length := (List.getElem?_eq_some_iff.mp hact).1
    rcases hcase2 with ⟨hsame, hno⟩ | ⟨hsolve, hw, hset, hflow⟩
    · rw [hsame]
      refine ⟨rfl, ?_, ?_, fun hne => absurd rfl hne⟩
      · intro i p q hp hq hpe
        rw [hp] at hq
        rw [← Option.some.inj hq]
        exact hpe
      · exact ⟨fun hne => absurd rfl hne, fun hh => absurd ⟨hh.2.1, hh.2.2⟩ hno⟩
    · have hat : turn.players[t]? = some { active with eliminated := 1 } := by
        rw [hset, List.getElem?_set_self htlt]
      have hother : ∀ i, i ≠ t → turn.players[i]? = players[i]? := by
        intro i hi
        rw [hset, List.getElem?_set_ne (Ne.symm hi)]
      have hflags : flags turn.players ≠ flags players := by
        intro heq
        have h1 : (flags turn.players)[t]? = some 1 := by
          unfold flags
          rw [List.getElem?_map, hat]
          rfl
        have h2 : (flags players)[t]? = some 0 := by
          unfold flags
          rw [List.getElem?_map, hact, ← hel1]
          rfl
        rw [heq, h2] at h1
        exact absurd (Option.some.inj h1) (by decide)
      refine ⟨by rw [hset, List.length_set], ?_, ⟨fun _ => ⟨hc, hsolve, hw⟩, fun _ => hflags⟩,
        fun _ => ⟨t, active, hskip, hidx, hact, hel1, hat, hother, ?_, hflow⟩⟩
      · intro i p q hp hq hpe
        by_cases hi : i = t
        · subst hi
          rw [hat] at hq
          rw [← Option.some.inj hq]
          show (1 : Int) ≠ 0
          decide
        · rw [hother i hi, hp] at hq
          rw [← Option.some.inj hq]
          exact hpe
      · have hrun := run_turn_of_solve settings solution players turn_idx reply query_reply t
          active hn hc hskip hact hsolve
        rw [h] at hrun
        have := Option.some.inj hrun
        rw [this]
        simp only [if_pos hw, Turn.sent]

theorem eliminated_set_once_witness :
    run_turn demo_settings [0, 5] demo_players (-1) (demo_solve [0, 6]) (fun _ => demo_answer 0)
        = some (Turn.mk (turn_frames 3 2 ++ solve_result_frames 2 3 2 0 [0, 6]) Flow.next
            (demo_players.set 0 (Player.mk 5 1 2 [] 2 [1, 6])) 0)
      ∧ (flags (demo_players.set 0 (Player.mk 5 1 2 [] 2 [1, 6])) ≠ flags demo_players ↔
          (count_not_eliminated demo_players ≠ 0 ∧ solve_attempt demo_settings (demo_solve [0, 6])
            ∧ solve_wrong [0, 5] [0, 6] ≠ 0)) :=
  ⟨by decide,
   (eliminated_set_once demo_settings [0, 5] demo_players (-1) (demo_solve [0, 6])
      (fun _ => demo_answer 0)
      (Turn.mk (turn_frames 3 2 ++ solve_result_frames 2 3 2 0 [0, 6]) Flow.next
        (demo_players.set 0 (Player.mk 5 1 2 [] 2 [1, 6])) 0) (by decide)).2.2.1⟩

/-! ### The turn announcement -/

theorem turn_frames_mem (n : Nat) (player_id : Int) (e : Sent) (he : e ∈ turn_frames n player_id) :
    e.dest < n ∧ e.type = FRAME_TYPE_TURN ∧ e.payload = Payload.turn player_id := by
  simp only [turn_frames, List.mem_map, List.mem_range] at he
  obtain ⟨i, hi, rfl⟩ := he
  exact ⟨hi, rfl, rfl⟩

/-- C14: at the top of an iteration of the `while (1)` loop of `run_game` over a non-empty
roster, entered with the turn index of the previous iteration (-1 before the first), the
search starts at position `(turn_idx + 1) % num_players`, which is 0 on the first turn. If no
player is non-eliminated, the iteration sends every roster position an Abort frame with the
reason "All players eliminated" (the words of the claim, with a capital letter), no Turn
frame, and exits. Otherwise the skip loop ends within `num_players` tests at the position `t`
of the first player, at or cyclically after the start position, who is not eliminated, and
every iteration that returns has sent first the Turn frames, which name the ID of that
player. -/
theorem turn_names_first_not_eliminated (settings : Settings) (solution : List Int)
    (players : List Player) (turn_idx : Int) (reply : TurnReply) (query_reply : Nat → QueryReply)
    (hn : players.length ≠ 0) (hidx : -1 ≤ turn_idx) :
    turn_start players turn_idx = (turn_idx + 1).toNat % players.length
      ∧ (turn_idx = -1 → turn_start players turn_idx = 0)
      ∧ (count_not_eliminated players = 0 →
          run_turn settings solution players turn_idx reply query_reply
            = some { sent := abort_game players.length "All players eliminated",
                     flow := Flow.exited 1, players := players,
                     turn_idx := turn_start players turn_idx }
          ∧ (∀ i, i < players.length →
              ∃ e ∈ abort_game players.length "All players eliminated", e.dest = i)
          ∧ (∀ e ∈ abort_game players.length "All players eliminated",
              e.type = FRAME_TYPE_ABORT ∧ e.type ≠ FRAME_TYPE_TURN
                ∧ e.payload = Payload.abort (strlen "All players eliminated")
                    "All players eliminated")
          ∧ "All players eliminated".data.map Char.toLower = "all players eliminated".data)
      ∧ (count_not_eliminated players ≠ 0 →
          ∃ i t active, i < players.length
            ∧ t = (turn_start players turn_idx + i) % players.length
            ∧ skip_eliminated players players.length (turn_start players turn_idx) = some t
            ∧ players[t]? = some active ∧ active.eliminated = 0
            ∧ (∀ m, m < i →
                ∃ p, players[(turn_start players turn_idx + m) % players.length]? = some p
                  ∧ p.eliminated ≠ 0)
            ∧ (∀ turn, run_turn settings solution players turn_idx reply query_reply = some turn →
                turn.turn_idx = t
                  ∧ ∃ rest, turn.sent = turn_frames players.length active.id ++ rest)
            ∧ (∀ r, r < players.length → ∃ e ∈ turn_frames players.length active.id, e.dest = r)
            ∧ (∀ e ∈ turn_frames players.length active.id,
                e.type = FRAME_TYPE_TURN ∧ e.payload = Payload.turn active.id)) := by
  have hstart := turn_start_eq players turn_idx hidx
  refine ⟨hstart, ?_, ?_, ?_⟩
  · intro h1
    rw [hstart, h1]
    exact Nat.zero_mod _
  · intro hc
    have hab := abort_game_frames players.length "All players eliminated"
    refine ⟨run_turn_all_eliminated settings solution players turn_idx reply query_reply hn hc,
      hab.1, ?_, by decide⟩
    intro e he
    obtain ⟨h1, _, h3⟩ := hab.2 e he
    refine ⟨h1, ?_, h3⟩
    rw [h1]
    decide
  · intro hc
    obtain ⟨i, t, active, hi, ht, hskip, hact, hel, hbefore⟩ := turn_head players turn_idx hn hc
    refine ⟨i, t, active, hi, ht, hskip, hact, hel, hbefore, ?_, ?_, ?_⟩
    · intro turn hturn
      obtain ⟨_, hcase⟩ :=
        run_turn_inv settings solution players turn_idx reply query_reply turn hturn
      rcases hcase with ⟨hc0, _⟩ | ⟨_, t1, active1, rest, hskip1, hact1, hsent, hidx1, _⟩
      · exact absurd hc0 hc
      · rw [hskip] at hskip1
        have ht1 := Option.some.inj hskip1
        subst ht1
        rw [hact] at hact1
        have ha1 := Option.some.inj hact1
        subst ha1
        exact ⟨hidx1, rest, hsent⟩
    · intro r hr
      exact ⟨_, List.mem_map.mpr ⟨r, List.mem_range.mpr hr, rfl⟩, rfl⟩
    · intro e he
      exact (turn_frames_mem _ _ e he).2

theorem turn_names_first_not_eliminated_witness :
    (demo_eliminated.length ≠ 0 ∧ (-1 : Int) ≤ 1)
      ∧ turn_start demo_eliminated 1 = 2
      ∧ skip_eliminated demo_eliminated 3 2 = some 1
      ∧ (count_not_eliminated demo_eliminated ≠ 0 →
          ∃ i t active, i < demo_eliminated.length
            ∧ t = (turn_start demo_eliminated 1 + i) % demo_eliminated.length
            ∧ skip_eliminated demo_eliminated demo_eliminated.length
                (turn_start demo_eliminated 1) = some t
            ∧ demo_eliminated[t]? = some active ∧ active.eliminated = 0
            ∧ (∀ m, m < i →
                ∃ p, demo_eliminated[(turn_start demo_eliminated 1 + m)
                    % demo_eliminated.length]? = some p ∧ p.eliminated ≠ 0)
            ∧ (∀ turn, run_turn demo_settings [0, 5] demo_eliminated 1 (demo_solve [0, 5])
                  (fun _ => demo_answer 0) = some turn →
                turn.turn_idx = t
                  ∧ ∃ rest, turn.sent = turn_frames demo_eliminated.length active.id ++ rest)
            ∧ (∀ r, r < demo_eliminated.length →
                ∃ e ∈ turn_frames demo_eliminated.length active.id, e.dest = r)
            ∧ (∀ e ∈ turn_frames demo_eliminated.length active.id,
                e.type = FRAME_TYPE_TURN ∧ e.payload = Payload.turn active.id)) :=
  ⟨⟨by decide, by decide⟩, by decide, by decide,
   (turn_names_first_not_eliminated demo_settings [0, 5] demo_eliminated 1 (demo_solve [0, 5])
      (fun _ => demo_answer 0) (by decide) (by decide)).2.2.2⟩

/-! ### A correct solve attempt -/

theorem solve_result_frames_mem (ncat n : Nat) (player correct : Int) (cards : List Int)
    (e : Sent) (he : e ∈ solve_result_frames ncat n player correct cards) :
    e.dest < n ∧ e.type = FRAME_TYPE_SOLVE_RESULT ∧ e.data_length = 2 + (ncat : Int) * 2
      ∧ e.payload = Payload.address_of (Payload.solve_result player correct cards) := by
  simp only [solve_result_frames, List.mem_map, List.mem_range] at he
  obtain ⟨i, hi, rfl⟩ := he
  exact ⟨hi, rfl, rfl, rfl⟩

theorem run_game_stop (settings : Settings) (solution : List Int) (reply : Nat → TurnReply)
    (query_reply : Nat → Nat → QueryReply) (fuel k : Nat) (players : List Player)
    (turn_idx : Int) (turn : Turn)
    (hturn : run_turn settings solution players turn_idx (reply k) (query_reply k) = some turn)
    (hflow : turn.flow = Flow.stop) :
    run_game settings solution reply query_reply (fuel + 1) k players turn_idx
      = some (turn.sent ++ abort_game players.length "Game ended", Flow.exited 1) := by
  unfold run_game
  rw [hturn]
  simp only [hflow]

theorem run_game_next (settings : Settings) (solution : List Int) (reply : Nat → TurnReply)
    (query_reply : Nat → Nat → QueryReply) (fuel k : Nat) (players : List Player)
    (turn_idx : Int) (turn : Turn)
    (hturn : run_turn settings solution players turn_idx (reply k) (query_reply k) = some turn)
    (hflow : turn.flow = Flow.next) :
    run_game settings solution reply query_reply (fuel + 1) k players turn_idx
      = (run_game settings solution reply query_reply fuel (k + 1) turn.players
          turn.turn_idx).map (fun r => (turn.sent ++ r.1, r.2)) := by
  rw [run_game, hturn]
  simp only [hflow]
  cases run_game settings solution reply query_reply fuel (k + 1) turn.players turn.turn_idx with
  | none => rfl
  | some r => rfl

/-- C12, as the code has it: when the player whose turn is announced in iteration `k` answers
with a complete solve attempt that is judged correct, `run_game` returns, with whatever fuel
is left, exactly the Turn broadcast of this turn, the solve result with correct flag 1 and
then the frames of `abort_game(players, num_players, "Game ended")`: every roster position is
sent an Abort frame with the reason "Game ended", nothing after the Turn broadcast is a Turn
frame, and the process ends in the `exit(1)` of `abort_game`. -/
theorem correct_solve_ends_game (settings : Settings) (solution : List Int)
    (reply : Nat → TurnReply) (query_reply : Nat → Nat → QueryReply) (fuel k : Nat)
    (players : List Player) (turn_idx : Int)
    (hn : players.length ≠ 0) (hc : count_not_eliminated players ≠ 0)
    (hsolve : solve_attempt settings (reply k))
    (hright : solve_wrong solution (reply k).cards = 0) :
    ∃ t active,
      skip_eliminated players players.length (turn_start players turn_idx) = some t
      ∧ players[t]? = some active
      ∧ run_game settings solution reply query_reply (fuel + 1) k players turn_idx
          = some (turn_frames players.length active.id
              ++ solve_result_frames settings.num_categories players.length active.id 1
                   (reply k).cards
              ++ abort_game players.length "Game ended", Flow.exited 1)
      ∧ (∀ i, i < players.length → ∃ e ∈ abort_game players.length "Game ended", e.dest = i)
      ∧ (∀ e ∈ abort_game players.length "Game ended",
          e.type = FRAME_TYPE_ABORT
            ∧ e.payload = Payload.abort (strlen "Game ended") "Game ended")
      ∧ (∀ e ∈ solve_result_frames settings.num_categories players.length active.id 1
              (reply k).cards ++ abort_game players.length "Game ended",
          e.type ≠ FRAME_TYPE_TURN) := by
  obtain ⟨_, t, active, _, _, hskip, hact, _, _⟩ := turn_head players turn_idx hn hc
  have hrun := run_turn_of_solve settings solution players turn_idx (reply k) (query_reply k) t
    active hn hc hskip hact hsolve
  simp only [if_pos hright, if_neg (not_not.mpr hright)] at hrun
  have hab := abort_game_frames players.length "Game ended"
  refine ⟨t, active, hskip, hact, ?_, hab.1, fun e he => ⟨(hab.2 e he).1, (hab.2 e he).2.2⟩, ?_⟩
  · exact run_game_stop settings solution reply query_reply fuel k players turn_idx _ hrun rfl
  · intro e he
    rcases List.mem_append.mp he with h | h
    · rw [(solve_result_frames_mem _ _ _ _ _ e h).2.1]
      decide
    · rw [(hab.2 e h).1]
      decide

theorem correct_solve_ends_game_witness :
    (demo_players.length ≠ 0 ∧ count_not_eliminated demo_players ≠ 0
      ∧ solve_attempt demo_settings (demo_solve [0, 5])
      ∧ solve_wrong [0, 5] (demo_solve [0, 5]).cards = 0)
    ∧ ∃ t active,
      skip_eliminated demo_players demo_players.length (turn_start demo_players (-1)) = some t
      ∧ demo_players[t]? = some active
      ∧ run_game demo_settings [0, 5] (fun _ => demo_solve [0, 5]) (fun _ _ => demo_answer 0)
            (7 + 1) 0 demo_players (-1)
          = some (turn_frames demo_players.length active.id
              ++ solve_result_frames demo_settings.num_categories demo_players.length active.id 1
                   (demo_solve [0, 5]).cards
              ++ abort_game demo_players.length "Game ended", Flow.exited 1) := by
  obtain ⟨t, active, h1, h2, h3, _⟩ := correct_solve_ends_game demo_settings [0, 5]
    (fun _ => demo_solve [0, 5]) (fun _ _ => demo_answer 0) 7 0 demo_players (-1)
    (by decide) (by decide) (by unfold solve_attempt; decide) (by decide)
  exact ⟨⟨by decide, by decide, by unfold solve_attempt; decide, by decide⟩, t, active, h1, h2, h3⟩

/-- C12 as stated fails: in the sample game with solution `[0, 5]` the player at position 0
(ID 2) answers the first turn with the solve attempt `[0, 5]`, which is judged correct. The
turn loop stops, but the frames sent end with an Abort frame to each of the three players,
reason "Game ended", and the process ends with exit code 1. -/
theorem correct_solve_counterexample :
    solve_wrong [0, 5] (demo_solve [0, 5]).cards = 0
      ∧ run_game demo_settings [0, 5] (fun _ => demo_solve [0, 5]) (fun _ _ => demo_answer 0)
            8 0 demo_players (-1)
          = some (turn_frames 3 2 ++ solve_result_frames 2 3 2 1 [0, 5]
              ++ [Sent.mk 0 FRAME_TYPE_ABORT 14 (Payload.abort 10 "Game ended"),
                  Sent.mk 1 FRAME_TYPE_ABORT 14 (Payload.abort 10 "Game ended"),
                  Sent.mk 2 FRAME_TYPE_ABORT 14 (Payload.abort 10 "Game ended")],
              Flow.exited 1) := by
  decide

/-! ### Answers the engine refuses -/

theorem run_turn_of_refused (settings : Settings) (solution : List Int)
    (players : List Player) (turn_idx : Int) (reply : TurnReply) (query_reply : Nat → QueryReply)
    (t : Nat) (active : Player)
    (hn : players.length ≠ 0) (hc : count_not_eliminated players ≠ 0)
    (hskip : skip_eliminated players players.length (turn_start players turn_idx) = some t)
    (hact : players[t]? = some active)
    (href : refused_reply settings reply) :
    ∃ reason, run_turn settings solution players turn_idx reply query_reply
      = some { sent := turn_frames players.length active.id ++ [send_error_frame t reason],
               flow := Flow.next, players := players, turn_idx := t } := by
  obtain ⟨h5, hcase⟩ := href
  unfold turn_start at hskip
  unfold run_turn
  simp only []
  rw [if_neg hn, if_neg hc, hskip]
  simp only [hact]
  rw [if_neg h5]
  have hne : FRAME_TYPE_TURN_RESPONSE ≠ FRAME_TYPE_SOLVE_ATTEMPT := by decide
  have hbad : ∀ (msg : String), reply.header.data_length ≠ (settings.num_categories : Int) * 2 →
      ¬ (reply.body_received = -1 ∧ reply.body_eagain = false) →
      ∃ reason, recv_error t reply.body_received reply.body_eagain msg
        = [send_error_frame t reason] := by
    intro msg _ hrecv
    unfold recv_error
    by_cases h1 : reply.body_received = -1
    · rw [if_pos h1]
      cases he : reply.body_eagain with
      | true => exact ⟨"Timed out", rfl⟩
      | false => exact absurd ⟨h1, he⟩ hrecv
    · rw [if_neg h1]
      exact ⟨msg, rfl⟩
  rcases hcase with ⟨h6, h7, hlegal⟩ | ⟨h6, hlen, hrecv⟩ | ⟨h6, h6b⟩
  · rw [if_neg (by rw [h6]; exact hne), if_pos h6, if_neg h7]
    unfold validate_suggestion at hlegal
    cases hq : qsort reply.cards settings.num_categories with
    | none => rw [hq] at hlegal; exact Option.noConfusion hlegal
    | some sugg =>
        rw [hq] at hlegal
        simp only [] at hlegal
        simp only []
        rw [if_pos (validation_loop_some _ _ _ _ _ _ hlegal).symm]
        exact ⟨_, rfl⟩
  · rcases h6 with h6 | h6
    · rw [if_pos h6, if_pos (Or.inr (Ne.symm hlen))]
      obtain ⟨reason, hr⟩ := hbad "Incomplete solution attempt" hlen hrecv
      rw [hr]
      exact ⟨reason, rfl⟩
    · rw [if_neg (by rw [h6]; exact hne), if_pos h6, if_pos (Or.inr (Ne.symm hlen))]
      obtain ⟨reason, hr⟩ := hbad "Incomplete suggestion" hlen hrecv
      rw [hr]
      exact ⟨reason, rfl⟩
  · rw [if_neg h6b, if_neg h6]
    exact ⟨_, rfl⟩

/-- C15, as the code has it: in every iteration of `run_game` over a non-empty roster with a
player left, when the answer of the player whose turn is announced is (a) a complete
suggestion on which validation returns `legal = 0`, every card ID it names being an index of
`card_names`, (b) a solve attempt or a suggestion whose declared length
is not `2 * num_categories`, the `recv` of the payload not having failed with an error other
than a timeout, or (c) a frame of any other type, the iteration sends, after the Turn
broadcast, exactly one frame: an Error frame to the position `t` of that player. The roster
with its `eliminated` flags is unchanged, the loop goes on, and `run_game` continues with the
iteration entered with turn index `t`, which looks for the next player who is not
eliminated. -/
theorem refused_answer_gets_error_frame (settings : Settings) (solution : List Int)
    (reply : Nat → TurnReply) (query_reply : Nat → Nat → QueryReply) (fuel k : Nat)
    (players : List Player) (turn_idx : Int)
    (hn : players.length ≠ 0) (hc : count_not_eliminated players ≠ 0)
    (href : refused_reply settings (reply k)) :
    ∃ t active reason,
      skip_eliminated players players.length (turn_start players turn_idx) = some t
      ∧ players[t]? = some active ∧ active.eliminated = 0
      ∧ run_turn settings solution players turn_idx (reply k) (query_reply k)
          = some { sent := turn_frames players.length active.id ++ [send_error_frame t reason],
                   flow := Flow.next, players := players, turn_idx := t }
      ∧ (send_error_frame t reason).type = FRAME_TYPE_ERROR
      ∧ (send_error_frame t reason).dest = t
      ∧ (∀ e ∈ turn_frames players.length active.id, e.type = FRAME_TYPE_TURN)
      ∧ run_game settings solution reply query_reply (fuel + 1) k players turn_idx
          = (run_game settings solution reply query_reply fuel (k + 1) players t).map
              (fun r => (turn_frames players.length active.id ++ [send_error_frame t reason]
                ++ r.1, r.2)) := by
  obtain ⟨_, t, active, _, _, hskip, hact, hel, _⟩ := turn_head players turn_idx hn hc
  obtain ⟨reason, hrun⟩ := run_turn_of_refused settings solution players turn_idx (reply k)
    (query_reply k) t active hn hc hskip hact href
  refine ⟨t, active, reason, hskip, hact, hel, hrun, rfl, rfl,
    fun e he => (turn_frames_mem _ _ e he).2.1, ?_⟩
  exact run_game_next settings solution reply query_reply fuel k players turn_idx _ hrun rfl

theorem refused_answer_gets_error_frame_witness :
    (demo_players.length ≠ 0 ∧ count_not_eliminated demo_players ≠ 0
      ∧ refused_reply demo_settings (demo_suggestion [1, 2]))
    ∧ ∃ t active reason,
      skip_eliminated demo_players demo_players.length (turn_start demo_players (-1)) = some t
      ∧ demo_players[t]? = some active ∧ active.eliminated = 0
      ∧ run_turn demo_settings [0, 5] demo_players (-1) (demo_suggestion [1, 2])
            (fun _ => demo_answer 0)
          = some { sent := turn_frames demo_players.length active.id
                     ++ [send_error_frame t reason],
                   flow := Flow.next, players := demo_players, turn_idx := t } := by
  obtain ⟨t, active, reason, h1, h2, h3, h4, _⟩ := refused_answer_gets_error_frame
    demo_settings [0, 5] (fun _ => demo_suggestion [1, 2]) (fun _ _ => demo_answer 0) 0 0
    demo_players (-1) (by decide) (by decide) (by unfold refused_reply; decide)
  exact ⟨⟨by decide, by decide, by unfold refused_reply; decide⟩, t, active, reason, h1, h2, h3,
    h4⟩

/-- C15 as stated fails: in the sample game the player at position 0 answers the first turn
with a solve-attempt header that declares 6 payload bytes instead of 4, and the `recv` of the
payload returns -1 with an `errno` other than `EAGAIN`. The iteration sends the Turn
broadcast and nothing else: no Error frame reaches the player. -/
theorem refused_answer_counterexample :
    demo_broken.header.type = FRAME_TYPE_SOLVE_ATTEMPT
      ∧ demo_broken.header.data_length ≠ 2 * (demo_settings.num_categories : Int)
      ∧ run_turn demo_settings [0, 5] demo_players (-1) demo_broken (fun _ => demo_answer 0)
          = some { sent := turn_frames 3 2, flow := Flow.next, players := demo_players,
                   turn_idx := 0 }
      ∧ ∀ e ∈ turn_frames 3 2, e.type ≠ FRAME_TYPE_ERROR := by
  decide

/-! ### Solve attempts are not validated -/

/-- C16, at failing inputs: in the sample game (categories of 3 and 4 cards, card IDs 0 to 6,
solution `[0, 5]`) the player at position 0 answers the first turn with a solve attempt.
With the guess `[0, 7]`, whose second ID is outside the catalog, the solve branch reads
`card_names[7]`, adjudicates the guess, sends every player a solve result with correct flag 0
and eliminates the attempting player. With the guess `[1, 2]`, whose second ID is outside the
range of the second category, it does the same. No Error frame is sent in either case. -/
theorem solve_attempt_not_validated :
    ¬ ((0 : Int) ≤ 7 ∧ (7 : Int) < total_cards demo_settings)
      ∧ (7 : Int) ∈ solve_name_lookups demo_settings.num_categories (demo_solve [0, 7]).cards
      ∧ run_turn demo_settings [0, 5] demo_players (-1) (demo_solve [0, 7])
            (fun _ => demo_answer 0)
          = some { sent := turn_frames 3 2 ++ solve_result_frames 2 3 2 0 [0, 7],
                   flow := Flow.next,
                   players := [Player.mk 5 1 2 [] 2 [1, 6], Player.mk 4 0 1 [] 2 [2, 3],
                     Player.mk 3 0 0 [] 1 [4, 0]],
                   turn_idx := 0 }
      ∧ in_category demo_settings.num_cards 1 2 = false
      ∧ (2 : Int) ∈ solve_name_lookups demo_settings.num_categories (demo_solve [1, 2]).cards
      ∧ run_turn demo_settings [0, 5] demo_players (-1) (demo_solve [1, 2])
            (fun _ => demo_answer 0)
          = some { sent := turn_frames 3 2 ++ solve_result_frames 2 3 2 0 [1, 2],
                   flow := Flow.next,
                   players := [Player.mk 5 1 2 [] 2 [1, 6], Player.mk 4 0 1 [] 2 [2, 3],
                     Player.mk 3 0 0 [] 1 [4, 0]],
                   turn_idx := 0 }
      ∧ (∀ cards, ∀ e ∈ turn_frames 3 2 ++ solve_result_frames 2 3 2 0 cards,
          e.type ≠ FRAME_TYPE_ERROR) := by
  refine ⟨by decide, by decide, by decide, by decide, by decide, by decide, ?_⟩
  intro cards e he
  rcases List.mem_append.mp he with h | h
  · rw [(turn_frames_mem _ _ e h).2.1]
    decide
  · rw [(solve_result_frames_mem _ _ _ _ _ e h).2.1]
    decide

/-! ### The solve-result frame -/

/-- C17, at a failing input: in the sample game the player at position 0 (ID 2) answers the
first turn with the solve attempt `[0, 6]`, judged wrong. Every player is sent a solve-result
frame whose header declares `2 + 2 * 2` payload bytes, but the payload handed to `send` is
taken at the address of the pointer variable `solve_broadcast_frame`, not at the frame it
points to: it is not the player ID, the correct flag and the guessed cards. -/
theorem solve_result_payload_is_pointer :
    run_turn demo_settings [0, 5] demo_players (-1) (demo_solve [0, 6]) (fun _ => demo_answer 0)
        = some { sent := turn_frames 3 2
                   ++ [Sent.mk 0 FRAME_TYPE_SOLVE_RESULT 6
                         (Payload.address_of (Payload.solve_result 2 0 [0, 6])),
                       Sent.mk 1 FRAME_TYPE_SOLVE_RESULT 6
                         (Payload.address_of (Payload.solve_result 2 0 [0, 6])),
                       Sent.mk 2 FRAME_TYPE_SOLVE_RESULT 6
                         (Payload.address_of (Payload.solve_result 2 0 [0, 6]))],
                 flow := Flow.next,
                 players := [Player.mk 5 1 2 [] 2 [1, 6], Player.mk 4 0 1 [] 2 [2, 3],
                   Player.mk 3 0 0 [] 1 [4, 0]],
                 turn_idx := 0 }
      ∧ (∀ (ncat n : Nat) (player correct : Int) (cards : List Int),
          ∀ e ∈ solve_result_frames ncat n player correct cards,
            e.data_length = 2 + 2 * (ncat : Int)
              ∧ e.payload ≠ Payload.solve_result player correct cards) := by
  refine ⟨by decide, ?_⟩
  intro ncat n player correct cards e he
  obtain ⟨_, _, h3, h4⟩ := solve_result_frames_mem ncat n player correct cards e he
  refine ⟨by rw [h3]; ring, ?_⟩
  rw [h4]
  intro h
  exact Payload.noConfusion h

/-! ### The start frame -/

theorem deal_card_key (players players1 : List Player) (deal_idx : Nat) (card : Int)
    (h : deal_card players deal_idx card = some players1) :
    players1.map Player.key = players.map Player.key := by
  unfold deal_card at h
  cases hp : players[deal_idx]? with
  | none => rw [hp] at h; exact Option.noConfusion h
  | some p =>
      rw [hp] at h
      simp only [] at h
      split_ifs at h
      have h1 := (Option.some.inj h).symm
      subst h1
      rw [List.map_set]
      have hk : deal_idx < players.length := (List.getElem?_eq_some_iff.mp hp).1
      apply List.ext_getElem?
      intro m
      by_cases hm : m = deal_idx
      · subst hm
        rw [List.getElem?_set_self (by rw [List.length_map]; exact hk), List.getElem?_map, hp]
        rfl
      · rw [List.getElem?_set_ne (Ne.symm hm)]

theorem deal_key (n : Nat) : ∀ (deck : List Int) (players players1 : List Player) (k : Nat),
    deal n deck players k = some players1 →
    players1.map Player.key = players.map Player.key := by
  intro deck
  induction deck with
  | nil =>
      intro players players1 k h
      simp only [deal, Option.some.injEq] at h
      rw [h]
  | cons c deck ih =>
      intro players players1 k h
      unfold deal at h
      cases hd : deal_card players k c with
      | none => rw [hd] at h; exact Option.noConfusion h
      | some ps =>
          rw [hd] at h
          simp only [] at h
          rw [ih ps players1 _ h, deal_card_key players ps k c hd]

theorem sorted_key {players sorted : List Player}
    (h : List.Forall₂ SortedFrom players sorted) :
    sorted.map Player.key = players.map Player.key := by
  induction h with
  | nil => rfl
  | cons hab _ ih =>
      rename_i a b l1 l2
      simp only [List.map_cons, ih]
      congr 1
      unfold Player.key
      rw [hab.2.2.2.2.2.2.2.2.1, hab.2.2.2.2.2.2.2.2.2]

/-- The roster `start_game` hands on holds the players it was given, in the shuffled order,
with their IDs and names. -/
theorem start_game_key (rand : Nat → Nat) (settings : Settings) (total : Int)
    (players : List Player) (g : Game) (h : start_game rand settings total players = some g) :
    (g.players.map Player.key).Perm (players.map Player.key) := by
  obtain ⟨deck0, dealt, _, _, _, hdeal, hsort⟩ := start_game_inv rand settings total players g h
  have h1 := sorted_key (sort_hands_spec dealt g.players hsort)
  unfold deal_hands at hdeal
  simp only [] at hdeal
  split_ifs at hdeal
  have h2 := deal_key _ _ _ _ _ hdeal
  have h3 : (alloc_hands g.deck.length
      (shuffle rand (settings.num_categories + deck0.length) players players.length).length
      (shuffle rand (settings.num_categories + deck0.length) players players.length)).map
        Player.key
      = (shuffle rand (settings.num_categories + deck0.length) players players.length).map
        Player.key := by
    unfold alloc_hands
    rw [List.map_map]
    rfl
  rw [h1, h2, h3]
  exact (shuffle_perm rand _ players players.length).map _

theorem length_flatMap_int16_bytes (l : List Int) :
    (l.flatMap int16_bytes).length = 2 * l.length := by
  induction l with
  | nil => rfl
  | cons a l ih =>
      simp only [List.flatMap_cons, List.length_append, ih, List.length_cons]
      simp only [int16_bytes, List.length_cons, List.length_nil]
      omega

theorem length_player_names (players : List Player) :
    (((players.map (fun q => (q.name_length, q.name.take q.name_length.toNat))).flatMap
        (fun x => int8_byte x.1 :: x.2)).length : Int)
      = (players.length : Nat) + total_player_name_length players := by
  induction players with
  | nil => rfl
  | cons p players ih =>
      simp only [List.map_cons, List.flatMap_cons, List.length_append, List.length_cons,
        total_player_name_length, List.sum_cons] at ih ⊢
      have htake : (p.name.take p.name_length.toNat).length = p.name.length := by
        simp [Player.name_length]
      rw [htake]
      push_cast
      rw [ih]
      simp only [Player.name_length]
      omega

/-- C19: let `start_game` return on a roster whose IDs are `0 .. n - 1` as `get_players`
assigned them, and let `i` be a position of the dealt roster. The start frame for recipient
`i` is built; its header declares `4 + 2 * hand_size_i + n + 2 * n + n` plus the sum of the
name lengths, which is the number of bytes of the layout hand size, player count, reserved
byte, own hand, player order, hand sizes, name table; the own-hand section is the sorted hand
of recipient `i`; the player-order, hand-size and name sections list, position by position,
the ID, hand size and name of the players in roster order, the same for every recipient; and
the player order is a rearrangement of the IDs `0 .. n - 1`. -/
theorem start_frame_layout (rand : Nat → Nat) (settings : Settings) (total : Int)
    (players : List Player) (g : Game)
    (hstart : start_game rand settings total players = some g)
    (hids : players.map Player.id = ints 0 players.length)
    (i : Nat) (hi : i < g.players.length) :
    g.players.length = players.length
      ∧ ∃ f p, g.players[i]? = some p ∧ start_frame g.players i = some f
        ∧ f.data_length = 4 + 2 * p.hand_size + (players.length : Nat)
            + 2 * (players.length : Nat) + (players.length : Nat)
            + (g.players.map (fun q => ((q.name.length : Nat) : Int))).sum
        ∧ ((start_frame_bytes f).length : Int) = f.data_length
        ∧ start_frame_bytes f
            = int16_bytes f.your_hand_size ++ [int8_byte f.num_players, 0]
              ++ f.your_hand.flatMap int16_bytes
              ++ f.player_order.map int8_byte
              ++ f.player_hand_sizes.flatMap int16_bytes
              ++ f.player_names.flatMap (fun x => int8_byte x.1 :: x.2)
        ∧ f.your_hand_size = p.hand_size
        ∧ f.num_players = toInt8 (players.length : Nat)
        ∧ f.your_hand = p.cards ∧ p.cards.Sorted (· ≤ ·)
        ∧ ((f.your_hand.length : Nat) : Int) = p.hand_size
        ∧ f.player_order = g.players.map Player.id
        ∧ f.player_hand_sizes = g.players.map Player.hand_size
        ∧ f.player_names = g.players.map (fun q => (((q.name.length : Nat) : Int), q.name))
        ∧ (∀ (i2 : Nat) (f2 : StartFrame), start_frame g.players i2 = some f2 →
            f2.player_order = f.player_order ∧ f2.player_hand_sizes = f.player_hand_sizes
              ∧ f2.player_names = f.player_names)
        ∧ (∀ (j : Nat) (q : Player), g.players[j]? = some q →
            f.player_order[j]? = some q.id ∧ f.player_hand_sizes[j]? = some q.hand_size
              ∧ f.player_names[j]? = some (((q.name.length : Nat) : Int), q.name))
        ∧ f.player_order.Perm (ints 0 players.length) := by
  have hkey := start_game_key rand settings total players g hstart
  have hlen : g.players.length = players.length := by
    have := hkey.length_eq
    simpa using this
  obtain ⟨deck0, dealt, _, _, _, _, hsort⟩ := start_game_inv rand settings total players g hstart
  have hp : g.players[i]? = some g.players[i] := List.getElem?_eq_getElem hi
  obtain ⟨p0, _, hr⟩ := sortedFrom_mem (sort_hands_spec dealt g.players hsort)
    (List.getElem_mem hi)
  obtain ⟨_, hsorted, _, h0, hle, _⟩ := hr
  have hnames : ∀ (l : List Player),
      l.map (fun q => (q.name_length, q.name.take q.name_length.toNat))
        = l.map (fun q => (((q.name.length : Nat) : Int), q.name)) := by
    intro l
    apply List.map_congr_left
    intro q _
    simp [Player.name_length]
  have hframe : start_frame g.players i = some
      { data_length := 4 + 2 * g.players[i].hand_size + 1 * ((g.players.length : Nat) : Int)
          + 2 * ((g.players.length : Nat) : Int) + 1 * ((g.players.length : Nat) : Int)
          + total_player_name_length g.players,
        your_hand_size := g.players[i].hand_size,
        num_players := toInt8 ((g.players.length : Nat) : Int),
        your_hand := g.players[i].hand.take g.players[i].hand_size.toNat,
        player_order := g.players.map Player.id,
        player_hand_sizes := g.players.map Player.hand_size,
        player_names := g.players.map
          (fun q => (q.name_length, q.name.take q.name_length.toNat)) } := by
    unfold start_frame
    simp only [hp]
    rw [if_pos ⟨h0, hle⟩]
  have hsame : ∀ i2 f2, start_frame g.players i2 = some f2 →
      f2.player_order = g.players.map Player.id
        ∧ f2.player_hand_sizes = g.players.map Player.hand_size
        ∧ f2.player_names = g.players.map
            (fun q => (q.name_length, q.name.take q.name_length.toNat)) := by
    intro i2 f2 h2
    unfold start_frame at h2
    simp only [] at h2
    split at h2
    · exact Option.noConfusion h2
    · split_ifs at h2
      have := (Option.some.inj h2).symm
      subst this
      exact ⟨rfl, rfl, rfl⟩
  have htake : (g.players[i].hand.take g.players[i].hand_size.toNat).length
      = g.players[i].hand_size.toNat := by
    rw [List.length_take]
    omega
  refine ⟨hlen, _, g.players[i], hp, hframe, ?_, ?_, rfl, rfl, ?_, rfl, hsorted, ?_, rfl, rfl,
    hnames _, ?_, ?_, ?_⟩
  · have hsum : total_player_name_length g.players
        = (g.players.map (fun q => ((q.name.length : Nat) : Int))).sum := rfl
    simp only [hlen, hsum]
    ring
  · unfold start_frame_bytes
    simp only [List.length_append, length_flatMap_int16_bytes, List.length_map, htake,
      List.length_cons, List.length_nil, int16_bytes]
    have hn := length_player_names g.players
    push_cast
    rw [hn]
    have : ((g.players[i].hand_size.toNat : Nat) : Int) = g.players[i].hand_size :=
      Int.toNat_of_nonneg h0
    omega
  · simp only [hlen]
  · simp only [htake]
    exact Int.toNat_of_nonneg h0
  · intro i2 f2 h2
    exact hsame i2 f2 h2
  · intro j q hq
    refine ⟨?_, ?_, ?_⟩
    · show (g.players.map Player.id)[j]? = some q.id
      rw [List.getElem?_map, hq]
      rfl
    · show (g.players.map Player.hand_size)[j]? = some q.hand_size
      rw [List.getElem?_map, hq]
      rfl
    · show (g.players.map
          (fun q => (q.name_length, q.name.take q.name_length.toNat)))[j]? = _
      rw [hnames, List.getElem?_map, hq]
      rfl
  · have hids2 : g.players.map Player.id = (g.players.map Player.key).map Prod.fst := by
      rw [List.map_map]
      rfl
    have hids3 : players.map Player.id = (players.map Player.key).map Prod.fst := by
      rw [List.map_map]
      rfl
    show (g.players.map Player.id).Perm (ints 0 players.length)
    rw [hids2, ← hids, hids3]
    exact hkey.map _

theorem start_frame_layout_witness :
    start_game (fun k => k * 7 + 3) demo_settings 7 demo_lobby = some demo_game
      ∧ start_frame demo_game.players 2
          = some (StartFrame.mk 23 1 3 [4] [2, 1, 0] [2, 2, 1]
              [(2, [67, 121]), (1, [66]), (2, [65, 108])])
      ∧ start_frame_bytes (StartFrame.mk 23 1 3 [4] [2, 1, 0] [2, 2, 1]
            [(2, [67, 121]), (1, [66]), (2, [65, 108])])
          = [1, 0, 3, 0, 4, 0, 2, 1, 0, 2, 0, 2, 0, 1, 0, 2, 67, 121, 1, 66, 2, 65, 108]
      ∧ ∃ f p, demo_game.players[2]? = some p ∧ start_frame demo_game.players 2 = some f
        ∧ ((start_frame_bytes f).length : Int) = f.data_length
        ∧ f.your_hand = p.cards
        ∧ f.player_order.Perm (ints 0 demo_lobby.length) := by
  obtain ⟨_, f, p, h1, h2, _, h4, _, _, _, h8, _, _, _, _, _, _, _, h16⟩ :=
    start_frame_layout (fun k => k * 7 + 3) demo_settings 7 demo_lobby demo_game (by decide)
      (by decide) 2 (by decide)
  exact ⟨by decide, by decide, by decide, f, p, h1, h2, h4, h8, h16⟩

/-! ### The lobby -/

theorem length_takeWhile_le_of_getElem? (p : Nat → Bool) : ∀ (l : List Nat) (k x : Nat),
    l[k]? = some x → p x = false → (l.takeWhile p).length ≤ k := by
  intro l
  induction l with
  | nil => intro k x h; simp at h
  | cons a l ih =>
      intro k x h hx
      cases k with
      | zero =>
          simp only [List.getElem?_cons_zero, Option.some.injEq] at h
          subst h
          simp [List.takeWhile, hx]
      | succ k =>
          simp only [List.getElem?_cons_succ] at h
          simp only [List.takeWhile]
          cases p a with
          | true =>
              simp only [List.length_cons]
              have := ih k x h hx
              omega
          | false => simp

theorem strnlen_lt (s : List Nat) (maxlen k : Nat) (hk : k < maxlen) (h : s[k]? = some 0) :
    strnlen s maxlen < maxlen := by
  unfold strnlen
  have h1 : (s.take maxlen)[k]? = some 0 := by
    rw [List.getElem?_take_of_lt hk]
    exact h
  have := length_takeWhile_le_of_getElem? (fun b => b ≠ 0) (s.take maxlen) k 0 h1 (by simp)
  omega

theorem handshake_of_failed (h : Handshake) (rules_len num_players : Int)
    (hrange : -128 ≤ h.name_length ∧ h.name_length ≤ 127)
    (hfail : failed_handshake h) :
    ∃ reason, handshake h rules_len num_players
      = Admission.rejected [LobbySent.error h.client_fd reason] := by
  obtain ⟨hfd, hcase⟩ := hfail
  unfold handshake
  rw [if_neg hfd]
  by_cases h1 : toSizeT h.header_received < 8
  · rw [if_pos h1]; exact ⟨_, rfl⟩
  rw [if_neg h1]
  by_cases h2 : toSizeT h.connect_received < 1
  · rw [if_pos h2]; exact ⟨_, rfl⟩
  rw [if_neg h2]
  by_cases h3 : h.name_length < 0
  · rw [if_pos h3]; exact ⟨_, rfl⟩
  rw [if_neg h3]
  by_cases h4 : toSizeT h.name_received < toSizeT h.name_length
  · rw [if_pos h4]; exact ⟨_, rfl⟩
  rw [if_neg h4]
  by_cases h5 : toSizeT (strnlen h.player_name h.name_length.toNat : Nat) < toSizeT h.name_length
  · rw [if_pos h5]; exact ⟨_, rfl⟩
  exfalso
  unfold toSizeT at h1 h2 h4 h5
  rcases hcase with hc | hc | hc | hc | ⟨k, hk, hz⟩
  · omega
  · omega
  · omega
  · omega
  · have := strnlen_lt h.player_name h.name_length.toNat k (by omega) hz
    omega

theorem toInt8_of_fits (x : Int) (h0 : -128 ≤ x) (h1 : x ≤ 127) : toInt8 x = x := by
  unfold toInt8
  omega

theorem handshake_admitted (h : Handshake) (rules_len num_players : Int) (s : List LobbySent)
    (p : Player) (hadm : handshake h rules_len num_players = Admission.admitted s p) :
    s = [LobbySent.rules h.client_fd rules_len (toInt8 num_players)]
      ∧ p.fd = h.client_fd ∧ p.id = toInt8 num_players ∧ p.eliminated = 0 := by
  unfold handshake at hadm
  split_ifs at hadm
  have h1 := Admission.admitted.inj hadm
  rw [← h1.1, ← h1.2]
  exact ⟨rfl, rfl, rfl, rfl⟩

theorem rules_sent_append (a b : List LobbySent) :
    rules_sent (a ++ b) = rules_sent a ++ rules_sent b := by
  unfold rules_sent
  rw [List.filterMap_append]

theorem get_players_cons (rules_len : Int) (h : Handshake) (rest : List Handshake)
    (sent : List LobbySent) (players : List Player) :
    get_players rules_len (h :: rest) sent players
      = if ¬ ((players.length : Int) < 128) then
          { sent := sent, players := players, flow := Flow.stop }
        else
          match handshake h rules_len players.length with
          | Admission.retry => get_players rules_len rest sent players
          | Admission.fatal => { sent := sent, players := players, flow := Flow.exited 1 }
          | Admission.rejected s => get_players rules_len rest (sent ++ s) players
          | Admission.admitted s p => get_players rules_len rest (sent ++ s) (players ++ [p]) :=
  rfl

/-- The roster and the rules frames of `get_players` from any state of its loop in which the
IDs assigned so far are `0, 1, ...` in roster order. -/
theorem get_players_inv (rules_len : Int) : ∀ (hs : List Handshake) (sent : List LobbySent)
    (players : List Player),
    players.map Player.id = ints 0 players.length →
    players.length ≤ 128 →
    rules_sent sent = players.map (fun p => (p.fd, p.id)) →
    (get_players rules_len hs sent players).players.map Player.id
        = ints 0 (get_players rules_len hs sent players).players.length
      ∧ (get_players rules_len hs sent players).players.length ≤ 128
      ∧ rules_sent (get_players rules_len hs sent players).sent
          = (get_players rules_len hs sent players).players.map (fun p => (p.fd, p.id)) := by
  intro hs
  induction hs with
  | nil =>
      intro sent players h1 h2 h3
      exact ⟨h1, h2, h3⟩
  | cons h rest ih =>
      intro sent players h1 h2 h3
      rw [get_players_cons]
      by_cases hfull : ((players.length : Nat) : Int) < 128
      · rw [if_neg (not_not.mpr hfull)]
        cases hh : handshake h rules_len players.length with
        | retry => exact ih sent players h1 h2 h3
        | fatal => exact ⟨h1, h2, h3⟩
        | rejected s =>
            simp only []
            refine ih (sent ++ s) players h1 h2 ?_
            rw [rules_sent_append, h3]
            unfold handshake at hh
            split_ifs at hh
            all_goals
              have hs := Admission.rejected.inj hh
              rw [← hs]
              simp [rules_sent]
        | admitted s p =>
            simp only []
            obtain ⟨hs, hfd, hid, _⟩ := handshake_admitted h rules_len _ s p hh
            have hid2 : p.id = ((players.length : Nat) : Int) := by
              rw [hid]
              exact toInt8_of_fits _ (by omega) (by omega)
            refine ih (sent ++ s) (players ++ [p]) ?_ ?_ ?_
            · rw [List.map_append, List.length_append, ints_append, h1]
              simp [ints, hid2, List.range_succ]
            · rw [List.length_append, List.length_singleton]
              omega
            · rw [rules_sent_append, h3, List.map_append, hs]
              simp [rules_sent, hfd, hid]
      · rw [if_pos hfull]
        exact ⟨h1, h2, h3⟩

/-- Sequential IDs in the lobby: for every sequence of iterations of the admission loop of
`get_players`, the IDs of the roster are `0, 1, ..., num_players - 1` in admission order: the player at roster position
`k` has ID `k`, and the `k`-th rules frame sent went to that player's connection with
`player_id = k`; there is one rules frame per admitted player and at most 128 players. When
an accepted connection fails the handshake (a `recv` delivers some but fewer bytes than asked
for, the name length is negative, or the name holds a zero byte within the declared length),
the iteration sends that connection an error frame and the loop goes on with the remaining
iterations from the same roster, hence with the same next ID. -/
theorem lobby_ids_sequential (rules_len : Int) (hs : List Handshake) :
    (get_players rules_len hs [] []).players.map Player.id
        = ints 0 (get_players rules_len hs [] []).players.length
      ∧ (∀ (k : Nat) (p : Player), (get_players rules_len hs [] []).players[k]? = some p →
          p.id = (k : Int)
            ∧ (rules_sent (get_players rules_len hs [] []).sent)[k]? = some (p.fd, (k : Int)))
      ∧ (rules_sent (get_players rules_len hs [] []).sent).length
          = (get_players rules_len hs [] []).players.length
      ∧ (get_players rules_len hs [] []).players.length ≤ 128
      ∧ (∀ (h : Handshake) (rest : List Handshake) (sent : List LobbySent)
          (players : List Player), players.length < 128 →
          (-128 ≤ h.name_length ∧ h.name_length ≤ 127) → failed_handshake h →
          ∃ reason, get_players rules_len (h :: rest) sent players
            = get_players rules_len rest (sent ++ [LobbySent.error h.client_fd reason])
                players) := by
  obtain ⟨h1, h2, h3⟩ := get_players_inv rules_len hs [] [] rfl (by simp) rfl
  refine ⟨h1, ?_, by rw [h3, List.length_map], h2, ?_⟩
  · intro k p hp
    have hid : p.id = (k : Int) := by
      have hk : ((get_players rules_len hs [] []).players.map Player.id)[k]? = some p.id := by
        rw [List.getElem?_map, hp]
        rfl
      rw [h1] at hk
      unfold ints at hk
      rw [List.getElem?_map] at hk
      cases hr : (List.range (get_players rules_len hs [] []).players.length)[k]? with
      | none => rw [hr] at hk; exact Option.noConfusion hk
      | some j =>
          rw [hr] at hk
          have hj : j = k := by
            obtain ⟨hlt, hj⟩ := List.getElem?_eq_some_iff.mp hr
            rw [List.getElem_range] at hj
            exact hj.symm
          subst hj
          have := Option.some.inj hk
          simp only [zero_add] at this
          exact this.symm
    refine ⟨hid, ?_⟩
    rw [h3, List.getElem?_map, hp, ← hid]
    rfl
  · intro h rest sent players hlt hrange hfail
    obtain ⟨reason, hr⟩ := handshake_of_failed h rules_len players.length hrange hfail
    refine ⟨reason, ?_⟩
    rw [get_players_cons, if_neg (not_not.mpr (by exact_mod_cast hlt)), hr]

theorem lobby_ids_sequential_witness :
    get_players 70
        [demo_connect 4 [65, 108],
         { demo_connect 5 [66] with header_received := 3 },
         { demo_connect 6 [66] with name_length := -2 },
         demo_connect 7 [66, 0, 66],
         demo_connect 8 [67, 121]] [] []
      = { sent := [LobbySent.rules 4 70 0, LobbySent.error 5 "Incomplete frame header",
                   LobbySent.error 6 "Negative name length not allowed",
                   LobbySent.error 7 "Null character not allowed in name",
                   LobbySent.rules 8 70 1],
          players := [Player.mk 4 0 0 [65, 108] 0 [], Player.mk 8 0 1 [67, 121] 0 []],
          flow := Flow.stop }
      ∧ failed_handshake (demo_connect 7 [66, 0, 66])
      ∧ ∃ reason, get_players 70 [demo_connect 7 [66, 0, 66], demo_connect 8 [67, 121]] []
            [Player.mk 4 0 0 [65, 108] 0 []]
          = get_players 70 [demo_connect 8 [67, 121]]
              ([] ++ [LobbySent.error (demo_connect 7 [66, 0, 66]).client_fd reason])
              [Player.mk 4 0 0 [65, 108] 0 []] :=
  ⟨by decide,
   ⟨by decide, Or.inr (Or.inr (Or.inr (Or.inr ⟨1, by decide, by decide⟩)))⟩,
   (lobby_ids_sequential 70 []).2.2.2.2 (demo_connect 7 [66, 0, 66]) [demo_connect 8 [67, 121]]
     [] [Player.mk 4 0 0 [65, 108] 0 []] (by decide) (by decide)
     ⟨by decide, Or.inr (Or.inr (Or.inr (Or.inr ⟨1, by decide, by decide⟩)))⟩⟩

/-- C20 fails in the code for a `recv` that times out. The accepted connection of
`demo_timed_out` delivers no frame header: `recv` returns -1 with `errno == EAGAIN`. The
result is stored in the `size_t` variable `data_len`, where it is the largest value of the
type, so `data_len < sizeof(frame_header)` is false, and no result of a `recv` reaches the
branch that sends "Timed out". The handshake goes on with the connect frame: the connection
is sent the rules frame with `player_id = 0` and no error frame, it joins the roster with ID 0,
and the next connection gets ID 1; every handshake with that result of the header `recv` ends
as it would with a full header. A header `recv` that delivers 3 bytes is refused: the
connection is sent an error frame and the next connection gets ID 0. -/
theorem timed_out_handshake_admitted :
    toSizeT demo_timed_out.header_received = 18446744073709551615
      ∧ ¬ toSizeT demo_timed_out.header_received < 8
      ∧ (∀ (received : Int) (eagain : Bool) (msg : String),
          toSizeT received < 8 → lobby_reason received eagain msg = msg)
      ∧ (∀ (h : Handshake) (rules_len num_players : Int),
          handshake { h with header_received := -1 } rules_len num_players
            = handshake { h with header_received := 8 } rules_len num_players)
      ∧ handshake demo_timed_out 70 0
          = Admission.admitted [LobbySent.rules 5 70 0] (Player.mk 5 0 0 [66] 0 [])
      ∧ get_players 70 [demo_timed_out, demo_connect 8 [67, 121]] [] []
          = { sent := [LobbySent.rules 5 70 0, LobbySent.rules 8 70 1],
              players := [Player.mk 5 0 0 [66] 0 [], Player.mk 8 0 1 [67, 121] 0 []],
              flow := Flow.stop }
      ∧ get_players 70
            [{ demo_connect 5 [66] with header_received := 3 }, demo_connect 8 [67, 121]] [] []
          = { sent := [LobbySent.error 5 "Incomplete frame header", LobbySent.rules 8 70 0],
              players := [Player.mk 8 0 0 [67, 121] 0 []],
              flow := Flow.stop } := by
  refine ⟨by decide, by decide, ?_, ?_, by decide, by decide, by decide⟩
  · intro received eagain msg h
    unfold lobby_reason
    rw [if_neg]
    rintro ⟨h1, _⟩
    rw [h1] at h
    exact absurd h (by decide)
  · intro h rules_len num_players
    unfold handshake
    simp only [show ¬ toSizeT (-1) < 8 by decide, show ¬ toSizeT 8 < 8 by decide, if_false]

/-! ### The rules frame -/

theorem int16_bytes_round (x : Int) (h0 : -32768 ≤ x) (h1 : x ≤ 32767) :
    toInt16 ((((x % 256).toNat : Nat) : Int) + 256 * (((x / 256 % 256).toNat : Nat) : Int))
      = x := by
  unfold toInt16
  omega

theorem int16_at_append (pre post : List Nat) (x : Int) (h0 : -32768 ≤ x) (h1 : x ≤ 32767) :
    int16_at (pre ++ (int16_bytes x ++ post)) pre.length = some x := by
  unfold int16_at int16_bytes
  have e0 : (pre ++ ([(x % 256).toNat, (x / 256 % 256).toNat] ++ post))[pre.length]?
      = some (x % 256).toNat := by
    rw [List.getElem?_append_right (le_refl _)]
    simp
  have e1 : (pre ++ ([(x % 256).toNat, (x / 256 % 256).toNat] ++ post))[pre.length + 1]?
      = some (x / 256 % 256).toNat := by
    rw [List.getElem?_append_right (by omega)]
    simp
  rw [e0, e1]
  simp only []
  rw [int16_bytes_round x h0 h1]

theorem read_counts_append : ∀ (l : List Int) (pre post : List Nat),
    (∀ x ∈ l, -32768 ≤ x ∧ x ≤ 32767) →
    read_counts (pre ++ (l.flatMap int16_bytes ++ post)) l.length pre.length = some l := by
  intro l
  induction l with
  | nil => intro pre post _; rfl
  | cons a l ih =>
      intro pre post h
      have ha := h a (List.mem_cons_self _ _)
      have hrest := ih (pre ++ int16_bytes a) post (fun x hx => h x (List.mem_cons_of_mem _ hx))
      have hlen : (pre ++ int16_bytes a).length = pre.length + 2 := by
        simp [int16_bytes]
      rw [hlen] at hrest
      simp only [List.flatMap_cons, List.length_cons, read_counts, List.append_assoc] at hrest ⊢
      rw [int16_at_append pre _ a ha.1 ha.2, hrest]

theorem strlen_bytes_eq (s : List Nat) (h : ∀ b ∈ s, b ≠ 0) : strlen_bytes s = s.length := by
  unfold strlen_bytes
  rw [List.takeWhile_eq_self_iff.mpr]
  intro b hb
  simpa using h b hb

theorem rules_card_names_eq : ∀ (names : List (List Nat)),
    (∀ s ∈ names, s.length ≤ 127 ∧ ∀ b ∈ s, b ≠ 0) →
    rules_card_names names = some (names.flatMap (fun s => s.length :: s)) := by
  intro names
  induction names with
  | nil => intro _; rfl
  | cons s names ih =>
      intro h
      obtain ⟨hs1, hs2⟩ := h s (List.mem_cons_self _ _)
      have hone : rules_card_name s = some (s.length :: s) := by
        unfold rules_card_name
        simp only []
        rw [strlen_bytes_eq s hs2, toInt8_of_fits _ (by omega) (by omega), if_neg (by omega)]
        simp [int8_byte]
        omega
      unfold rules_card_names
      rw [hone, ih (fun t ht => h t (List.mem_cons_of_mem _ ht))]
      rfl

theorem read_names_append : ∀ (names : List (List Nat)) (pre post : List Nat),
    (∀ s ∈ names, s.length ≤ 127) →
    read_names (pre ++ (names.flatMap (fun s => s.length :: s) ++ post)) names.length pre.length
      = some names := by
  intro names
  induction names with
  | nil => intro pre post _; rfl
  | cons s names ih =>
      intro pre post h
      have hs := h s (List.mem_cons_self _ _)
      have hrest := ih (pre ++ (s.length :: s)) post
        (fun t ht => h t (List.mem_cons_of_mem _ ht))
      have hlen : (pre ++ (s.length :: s)).length = pre.length + 1 + s.length := by
        simp only [List.length_append, List.length_cons]
        omega
      rw [hlen] at hrest
      have hbyte : int8_at (pre ++ ((s.length :: s) ++ (names.flatMap (fun s => s.length :: s)
          ++ post))) pre.length = some ((s.length : Nat) : Int) := by
        unfold int8_at
        rw [List.getElem?_append_right (le_refl _)]
        simp only [Nat.sub_self, List.cons_append, List.getElem?_cons_zero]
        rw [toInt8_of_fits _ (by omega) (by omega)]
      have hdrop : ((pre ++ ((s.length :: s) ++ (names.flatMap (fun s => s.length :: s)
          ++ post))).drop (pre.length + 1)).take s.length = s := by
        have e : pre ++ ((s.length :: s) ++ (names.flatMap (fun s => s.length :: s) ++ post))
            = (pre ++ [s.length]) ++ (s ++ (names.flatMap (fun s => s.length :: s) ++ post)) := by
          simp
        have e2 : pre.length + 1 = (pre ++ [s.length]).length := by simp
        rw [e, e2, List.drop_left, List.take_left]
      simp only [List.flatMap_cons, List.length_cons, List.append_assoc] at hrest ⊢
      unfold read_names
      simp only [List.append_assoc] at hbyte hdrop
      rw [hbyte]
      simp only [Int.toNat_ofNat]
      rw [if_neg (by
        simp only [List.length_append, List.length_cons]
        omega), hrest, hdrop]

theorem length_names_from (card_names : List (List (List Nat))) :
    ∀ (num_cards : List Int) (i : Nat),
      (names_from card_names i num_cards).length = card_count num_cards := by
  intro num_cards
  induction num_cards with
  | nil => intro i; rfl
  | cons n ns ih =>
      intro i
      simp only [names_from, List.length_append, List.length_map, List.length_range, ih,
        card_count, List.map_cons, List.sum_cons]

theorem length_flatMap_names (names : List (List Nat)) :
    ((names.flatMap (fun s => s.length :: s)).length : Int)
      = (names.length : Nat) + (names.map (fun s => ((s.length : Nat) : Int))).sum := by
  induction names with
  | nil => rfl
  | cons s names ih =>
      simp only [List.flatMap_cons, List.length_append, List.length_cons, List.map_cons,
        List.sum_cons]
      push_cast
      rw [ih]
      omega

theorem toNat_le_card_count (nums : List Int) (n : Int) (hn : n ∈ nums) :
    n.toNat ≤ card_count nums := by
  unfold card_count
  exact List.single_le_sum (fun _ _ => Nat.zero_le _) _ (List.mem_map_of_mem _ hn)

theorem names_from_flatten (card_names : List (List (List Nat))) :
    ∀ (num_cards : List Int) (tail : List (List (List Nat))),
      List.Forall₂ (fun (n : Int) (names : List (List Nat)) => n = ((names.length : Nat) : Int))
        num_cards tail →
      ∀ i, card_names.drop i = tail → names_from card_names i num_cards = tail.flatten := by
  intro num_cards tail h
  induction h with
  | nil => intro i _; rfl
  | @cons n names ns tail2 hab _ ih =>
      intro i hdrop
      have hi : i < card_names.length := by
        by_contra hge
        rw [List.drop_eq_nil_of_le (by omega)] at hdrop
        exact List.noConfusion hdrop
      have hcons := List.drop_eq_getElem_cons hi
      rw [hcons] at hdrop
      have hhead : card_names[i] = names := (List.cons.inj hdrop).1
      have htail : card_names.drop (i + 1) = tail2 := (List.cons.inj hdrop).2
      simp only [names_from, List.flatten_cons]
      rw [ih (i + 1) htail]
      congr 1
      have hget : card_names.getD i [] = names := by
        rw [List.getD_eq_getElem?_getD, List.getElem?_eq_getElem hi, hhead]
        rfl
      subst hab
      simp only [Int.toNat_ofNat]
      apply List.ext_getElem
      · simp
      · intro j h1 h2
        simp only [List.getElem_map, List.getElem_range, card_name, hget]
        have hj : j < names.length := by simpa using h1
        rw [List.getD_eq_getElem?_getD, List.getElem?_eq_getElem hj]
        rfl

/-- C18: for every catalog of at most 127 categories, with sizes that are not negative and
at most 32767 cards in total, whose card names are at most 127 bytes long and hold no zero
byte, and every player ID from 0 to 127: `main` builds the rules frame body, the body is
exactly `rules_len` bytes long, and the client's `handle_frame` decodes from it the player
ID, the category count, the total card count, the per-category card counts in order and, by
card ID, the card names of the server's table `card_names_debug`; when every category has as
many names as its size says, these are the names of the catalog in category-major order. -/
theorem rules_frame_round_trip (settings : Settings) (card_names : List (List (List Nat)))
    (player_id : Int)
    (hcat : settings.num_categories ≤ 127)
    (hsizes : ∀ n ∈ settings.num_cards, 0 ≤ n)
    (hnames : ∀ s ∈ card_names_debug settings card_names, s.length ≤ 127 ∧ ∀ b ∈ s, b ≠ 0)
    (htotal : total_cards settings ≤ 32767)
    (hpid : 0 ≤ player_id ∧ player_id ≤ 127) :
    ∃ body k, rules_frame settings card_names player_id = some body
      ∧ ((body.length : Nat) : Int) = rules_len settings card_names
      ∧ handle_rules body = some k
      ∧ k.player_id = player_id
      ∧ k.num_categories = settings.num_categories
      ∧ k.total_cards = total_cards settings
      ∧ k.num_cards_in_category = settings.num_cards
      ∧ k.card_names = card_names_debug settings card_names
      ∧ (List.Forall₂
            (fun (n : Int) (names : List (List Nat)) => n = ((names.length : Nat) : Int))
            settings.num_cards card_names →
          k.card_names = card_names.flatten) := by
  have htot := total_cards_eq settings
  have hT0 : 0 ≤ total_cards settings := by rw [htot]; exact Int.natCast_nonneg _
  have hnc : settings.num_categories = settings.num_cards.length := rfl
  have hnl : (card_names_debug settings card_names).length = card_count settings.num_cards :=
    length_names_from card_names settings.num_cards 0
  have henc := rules_card_names_eq (card_names_debug settings card_names) hnames
  have hT16 : toInt16 (total_cards settings) = total_cards settings :=
    toInt16_of_fits (by omega) htotal
  have hpid8 : toInt8 player_id = player_id := toInt8_of_fits _ (by omega) hpid.2
  have hcat8 : toInt8 (settings.num_categories : Int) = settings.num_categories :=
    toInt8_of_fits _ (by omega) (by omega)
  have hsz16 : ∀ x ∈ settings.num_cards, -32768 ≤ x ∧ x ≤ 32767 := by
    intro x hx
    have h1 := hsizes x hx
    have h2 := toNat_le_card_count settings.num_cards x hx
    omega
  have hlen_sizes : (settings.num_cards.flatMap int16_bytes).length
      = 2 * settings.num_cards.length := length_flatMap_int16_bytes _
  have hlen_ids : ((List.range (total_cards settings).toNat).flatMap
      (fun (card_idx : Nat) => int16_bytes (toInt16 (card_idx : Int)))).length
      = 2 * (total_cards settings).toNat := by
    generalize (total_cards settings).toNat = m
    induction m with
    | zero => rfl
    | succ m ih =>
        rw [List.range_succ, List.flatMap_append, List.length_append, ih]
        simp [int16_bytes]
        omega
  have hframe : rules_frame settings card_names player_id
      = some ([int8_byte player_id, int8_byte (settings.num_categories : Int)]
          ++ (int16_bytes (total_cards settings)
          ++ (settings.num_cards.flatMap int16_bytes
          ++ ((List.range (total_cards settings).toNat).flatMap
                (fun (card_idx : Nat) => int16_bytes (toInt16 (card_idx : Int)))
          ++ (card_names_debug settings card_names).flatMap (fun s => s.length :: s))))) := by
    unfold rules_frame
    rw [henc]
    simp only [hT16, hpid8, hcat8, List.append_assoc]
  have hsum : all_names_len settings card_names
      = ((card_names_debug settings card_names).map
          (fun s => ((s.length : Nat) : Int))).sum := by
    unfold all_names_len
    congr 1
    apply List.map_congr_left
    intro s hs
    rw [strlen_bytes_eq s (hnames s hs).2]
  refine ⟨_, ?_, hframe, ?_, ?_⟩
  · exact { player_id := player_id, total_cards := total_cards settings,
            num_categories := settings.num_categories,
            num_cards_in_category := settings.num_cards,
            card_names := card_names_debug settings card_names }
  · simp only [List.length_append, List.length_cons, List.length_nil, hlen_sizes, hlen_ids]
    have h1 := length_flatMap_names (card_names_debug settings card_names)
    have h2 : (int16_bytes (total_cards settings)).length = 2 := rfl
    rw [h2]
    push_cast
    rw [h1, hnl]
    unfold rules_len
    rw [hsum, hnc]
    have h3 : (((total_cards settings).toNat : Nat) : Int) = total_cards settings :=
      Int.toNat_of_nonneg hT0
    rw [h3]
    rw [← htot]
    ring
  · refine ⟨?_, rfl, rfl, rfl, rfl, rfl, ?_⟩
    · have hb0 : int8_at ([int8_byte player_id, int8_byte (settings.num_categories : Int)]
          ++ (int16_bytes (total_cards settings)
          ++ (settings.num_cards.flatMap int16_bytes
          ++ ((List.range (total_cards settings).toNat).flatMap
                (fun (card_idx : Nat) => int16_bytes (toInt16 (card_idx : Int)))
          ++ (card_names_debug settings card_names).flatMap (fun s => s.length :: s))))) 0
          = some player_id := by
        unfold int8_at
        simp only [List.cons_append, List.getElem?_cons_zero]
        unfold int8_byte toInt8
        congr 1
        omega
      have hb1 : int8_at ([int8_byte player_id, int8_byte (settings.num_categories : Int)]
          ++ (int16_bytes (total_cards settings)
          ++ (settings.num_cards.flatMap int16_bytes
          ++ ((List.range (total_cards settings).toNat).flatMap
                (fun (card_idx : Nat) => int16_bytes (toInt16 (card_idx : Int)))
          ++ (card_names_debug settings card_names).flatMap (fun s => s.length :: s))))) 1
          = some (settings.num_categories : Int) := by
        unfold int8_at
        simp only [List.cons_append, List.getElem?_cons_succ, List.getElem?_cons_zero]
        unfold int8_byte toInt8
        congr 1
        omega
      have hb2 := int16_at_append
        [int8_byte player_id, int8_byte (settings.num_categories : Int)]
        (settings.num_cards.flatMap int16_bytes
          ++ ((List.range (total_cards settings).toNat).flatMap
                (fun (card_idx : Nat) => int16_bytes (toInt16 (card_idx : Int)))
          ++ (card_names_debug settings card_names).flatMap (fun s => s.length :: s)))
        (total_cards settings) (by omega) htotal
      have hcounts := read_counts_append settings.num_cards
        ([int8_byte player_id, int8_byte (settings.num_categories : Int)]
          ++ int16_bytes (total_cards settings))
        ((List.range (total_cards settings).toNat).flatMap
                (fun (card_idx : Nat) => int16_bytes (toInt16 (card_idx : Int)))
          ++ (card_names_debug settings card_names).flatMap (fun s => s.length :: s))
        hsz16
      have hnames2 := read_names_append (card_names_debug settings card_names)
        ([int8_byte player_id, int8_byte (settings.num_categories : Int)]
          ++ (int16_bytes (total_cards settings)
          ++ (settings.num_cards.flatMap int16_bytes
          ++ (List.range (total_cards settings).toNat).flatMap
                (fun (card_idx : Nat) => int16_bytes (toInt16 (card_idx : Int))))))
        [] (fun s hs => (hnames s hs).1)
      have hprelen : ([int8_byte player_id, int8_byte (settings.num_categories : Int)]
          ++ (int16_bytes (total_cards settings)
          ++ (settings.num_cards.flatMap int16_bytes
          ++ (List.range (total_cards settings).toNat).flatMap
                (fun (card_idx : Nat) => int16_bytes (toInt16 (card_idx : Int)))))).length
          = (4 + (settings.num_categories : Int) * 2 + total_cards settings * 2).toNat := by
        simp only [List.length_append, List.length_cons, List.length_nil, hlen_sizes, hlen_ids]
        have h2 : (int16_bytes (total_cards settings)).length = 2 := rfl
        rw [h2, hnc]
        omega
      have hprelen4 : ([int8_byte player_id, int8_byte (settings.num_categories : Int)]
          ++ int16_bytes (total_cards settings)).length = 4 := rfl
      have htn : (settings.num_categories : Int).toNat = settings.num_cards.length := by
        rw [hnc]
        exact Int.toNat_ofNat _
      have hcc : (total_cards settings).toNat = card_count settings.num_cards := by
        rw [htot]
        exact Int.toNat_ofNat _
      rw [hprelen4] at hcounts
      rw [hprelen, hnl, ← hcc] at hnames2
      simp only [List.append_assoc, List.append_nil, List.length_cons, List.length_nil]
        at hb2 hcounts hnames2
      unfold handle_rules
      rw [hb0, hb1, hb2]
      simp only []
      rw [htn, hcounts, hnames2]
      rw [if_neg]
      push_neg
      constructor
      · omega
      · simp only [List.length_append, List.length_cons, List.length_nil, hlen_sizes, hlen_ids]
        have h2 : (int16_bytes (total_cards settings)).length = 2 := rfl
        rw [h2, hnc]
        push_cast
        have h3 : (((total_cards settings).toNat : Nat) : Int) = total_cards settings :=
          Int.toNat_of_nonneg hT0
        omega
    · intro hshape
      exact names_from_flatten card_names settings.num_cards card_names hshape 0 rfl

theorem rules_frame_round_trip_witness :
    rules_frame (Settings.mk 1 [2, 1]) demo_names 1
        = some [1, 2, 3, 0, 2, 0, 1, 0, 0, 0, 1, 0, 2, 0, 1, 65, 2, 66, 67, 1, 68]
      ∧ handle_rules [1, 2, 3, 0, 2, 0, 1, 0, 0, 0, 1, 0, 2, 0, 1, 65, 2, 66, 67, 1, 68]
          = some (Knowledge.mk 1 3 2 [2, 1] [[65], [66, 67], [68]])
      ∧ rules_len (Settings.mk 1 [2, 1]) demo_names = 21
      ∧ ∃ body k, rules_frame (Settings.mk 1 [2, 1]) demo_names 1 = some body
        ∧ ((body.length : Nat) : Int) = rules_len (Settings.mk 1 [2, 1]) demo_names
        ∧ handle_rules body = some k
        ∧ k.num_cards_in_category = (Settings.mk 1 [2, 1]).num_cards
        ∧ k.card_names = card_names_debug (Settings.mk 1 [2, 1]) demo_names := by
  obtain ⟨body, k, h1, h2, h3, _, _, _, h7, h8, _⟩ := rules_frame_round_trip
    (Settings.mk 1 [2, 1]) demo_names 1 (by decide) (by decide) (by decide) (by decide)
    (by decide)
  exact ⟨by decide, by decide, by decide, body, k, h1, h2, h3, h7, h8⟩

/-! ### Eliminated players in the rotation -/

theorem start_frame_counts (players : List Player) (i : Nat) (f : StartFrame)
    (h : start_frame players i = some f) :
    f.num_players = toInt8 ((players.length : Nat) : Int)
      ∧ f.player_order = players.map Player.id := by
  unfold start_frame at h
  simp only [] at h
  split at h
  · exact Option.noConfusion h
  · split_ifs at h
    have := (Option.some.inj h).symm
    subst this
    exact ⟨rfl, rfl⟩

theorem handshake_hand_size (h : Handshake) (rules_len num_players : Int) (s : List LobbySent)
    (p : Player) (hadm : handshake h rules_len num_players = Admission.admitted s p) :
    p.hand_size = h.hand_size ∧ p.hand = [] := by
  unfold handshake at hadm
  split_ifs at hadm
  have h1 := Admission.admitted.inj hadm
  rw [← h1.2]
  exact ⟨rfl, rfl⟩

/-- C24, at a failing input: `get_players` writes the fields `fd`, `eliminated`,
`name_length`, `name`, `id` and `address` of a roster slot and leaves `hand_size` as it finds
it in the memory `malloc` returned. When that value is 5, the player handed to `start_game`
has hand size 5, and dealing two cards to this player stores the first one at index 5 of a
buffer of 3 slots. When it is 1, dealing one card stores it at index 1 and leaves
`hand_size = 2`: the hand does not start at index 0 and `hand_size` is not the number of
cards dealt. -/
theorem hand_size_not_initialised :
    get_players 70 [{ demo_connect 4 [65] with hand_size := 5 }] [] []
        = { sent := [LobbySent.rules 4 70 0], players := [Player.mk 4 0 0 [65] 5 []],
            flow := Flow.stop }
      ∧ (∀ (h : Handshake) (rules_len num_players : Int) (s : List LobbySent) (p : Player),
          handshake h rules_len num_players = Admission.admitted s p →
            p.hand_size = h.hand_size)
      ∧ deal_hands [3, 1] [Player.mk 4 0 0 [65] 5 []] = none
      ∧ deal_hands [3] [Player.mk 4 0 0 [65] 1 []] = some [Player.mk 4 0 0 [65] 2 [0, 3]]
      ∧ (Player.mk 4 0 0 [65] 2 [0, 3]).cards ≠ [3] := by
  refine ⟨by decide, ?_, by decide, by decide, by decide⟩
  intro h rules_len num_players s p hadm
  exact (handshake_hand_size h rules_len num_players s p hadm).1

set_option maxRecDepth 1000000 in
/-- The roster `get_players` returns for `full_lobby`. -/
theorem full_lobby_roster : (get_players 70 full_lobby [] []).players
    = (List.range 128).map (fun (i : Nat) => Player.mk ((i : Int) + 4) 0 (i : Int) [65] 0 []) := by
  decide

/-- C25, at a failing input: the admission loop runs while `*num_players < 128`, so 128
connections that complete the handshake give a roster of 128 players with the IDs 0 to 127,
which fit `int8_t`. `start_game` returns on this roster and the sample catalog, and in every
start frame it builds the `int8_t` field `num_players` holds -128, not 128. -/
theorem player_count_wraps :
    (get_players 70 full_lobby [] []).players.length = 128
      ∧ (get_players 70 full_lobby [] []).players.map Player.id = ints 0 128
      ∧ toInt8 128 = -128
      ∧ ∃ g, start_game (fun k => k * 7 + 3) demo_settings 7
            (get_players 70 full_lobby [] []).players = some g
          ∧ g.players.length = 128
          ∧ ∀ i, i < 128 → ∃ f, start_frame g.players i = some f ∧ f.num_players = -128 := by
  have hroster := full_lobby_roster
  have hlen : (get_players 70 full_lobby [] []).players.length = 128 := by
    rw [hroster, List.length_map, List.length_range]
  have hids := (get_players_inv 70 full_lobby [] [] rfl (by simp) rfl).1
  rw [hlen] at hids
  have hempty : ∀ p ∈ (get_players 70 full_lobby [] []).players, p.hand_size = 0 := by
    intro p hp
    rw [hroster] at hp
    obtain ⟨i, _, rfl⟩ := List.mem_map.mp hp
    rfl
  obtain ⟨g, dealt, roster, hstart, _, _, hsorted, _⟩ := start_game_spec (fun k => k * 7 + 3)
    demo_settings (get_players 70 full_lobby [] []).players (by decide) (by decide) (by decide)
    (by decide) (by omega) hempty
  have htotal : total_cards demo_settings = 7 := by decide
  rw [htotal] at hstart
  have hkey := start_game_key _ _ _ _ g hstart
  have hglen : g.players.length = 128 := by
    have := hkey.length_eq
    simp only [List.length_map] at this
    omega
  refine ⟨hlen, hids, by decide, g, hstart, hglen, ?_⟩
  intro i hi
  have hi2 : i < g.players.length := by omega
  obtain ⟨p0, _, hr⟩ := sortedFrom_mem hsorted (List.getElem_mem hi2)
  obtain ⟨_, _, _, h0, hle, _⟩ := hr
  have hp : g.players[i]? = some g.players[i] := List.getElem?_eq_getElem hi2
  have hsome : ∃ f, start_frame g.players i = some f := by
    unfold start_frame
    simp only [hp]
    rw [if_pos ⟨h0, hle⟩]
    exact ⟨_, rfl⟩
  obtain ⟨f, hf⟩ := hsome
  refine ⟨f, hf, ?_⟩
  rw [(start_frame_counts g.players i f hf).1, hglen]
  decide

/-! ### Writes of the dealing loop -/

theorem deal_writes_spec (deck : List Int) (n cap : Nat) (orig : List Player) (hn : 0 < n)
    (hcap : ∀ j, j < deck.length → j / n < cap ∧ j / n + 1 ≤ 32767) :
    ∀ (rest : List Int) (i : Nat) (players : List Player), i ≤ deck.length →
      deck.drop i = rest → DealInv deck n cap orig i players →
      deal_writes n rest players (i % n)
        = (List.range' i rest.length).map (fun j => (j % n, ((j / n : Nat) : Int))) := by
  intro rest
  induction rest with
  | nil => intro i players _ _ _; rfl
  | cons c rest ih =>
      intro i players hile hdrop hinv
      have hi : i < deck.length := by
        by_contra h
        rw [List.drop_eq_nil_of_le (by omega)] at hdrop
        exact List.noConfusion hdrop
      have hcons := List.drop_eq_getElem_cons hi
      rw [hdrop] at hcons
      have hc : deck.getD i 0 = c := by
        rw [List.getD_eq_getElem _ _ hi]
        exact (List.cons.inj hcons).1.symm
      have hrest : deck.drop (i + 1) = rest := (List.cons.inj hcons).2.symm
      obtain ⟨players1, hstep, hinv1⟩ := deal_card_step deck n cap orig players i hn hinv
        (hcap i hi).1 (hcap i hi).2
      have hp0 : i % n < n := Nat.mod_lt i hn
      obtain ⟨o, q, _, hq, hqeq⟩ := hinv.2.2 (i % n) hp0
      have hL : (dealt_indices n (i % n) i).length = i / n := by
        rw [dealt_indices_length n (i % n) i hn hp0]; simp
      have hsize : q.hand_size = ((i / n : Nat) : Int) := by
        rw [hqeq, hL]
      have hih := ih (i + 1) players1 (by omega) hrest hinv1
      unfold deal_writes
      rw [hq]
      simp only []
      rw [← hc, hstep]
      simp only []
      rw [Nat.mod_add_mod, hih, hsize, List.length_cons, List.range'_succ, List.map_cons]

theorem deal_writes_append (n : Nat) : ∀ (a b : List Int) (players players1 : List Player)
    (k : Nat), k < n → deal n a players k = some players1 →
    deal_writes n (a ++ b) players k
      = deal_writes n a players k ++ deal_writes n b players1 ((k + a.length) % n) := by
  intro a
  induction a with
  | nil =>
      intro b players players1 k hk h
      simp only [deal, Option.some.injEq] at h
      subst h
      simp only [List.nil_append, deal_writes, List.length_nil, Nat.add_zero,
        Nat.mod_eq_of_lt hk]
  | cons c a ih =>
      intro b players players1 k hk h
      simp only [deal] at h
      cases hd : deal_card players k c with
      | none => rw [hd] at h; exact Option.noConfusion h
      | some ps =>
          rw [hd] at h
          simp only [] at h
          have hih := ih b ps players1 ((k + 1) % n) (Nat.mod_lt _ (by omega)) h
          have hp : ∃ p, players[k]? = some p := by
            unfold deal_card at hd
            cases hq : players[k]? with
            | none => rw [hq] at hd; exact Option.noConfusion hd
            | some p => exact ⟨p, rfl⟩
          obtain ⟨p, hp⟩ := hp
          simp only [List.cons_append, deal_writes, hp, hd, List.append_eq]
          rw [hih, List.length_cons, Nat.mod_add_mod,
            show k + 1 + a.length = k + (a.length + 1) by omega]

/-- Dealing `m + 2` cards to a single player whose hand starts empty, when `m + 1` no longer
fits `int16_t`: the last two writes are at the indices `m` and `toInt16 (m + 1)`. -/
theorem deal_writes_single (pre : List Int) (c c2 : Int) (p0 : Player) (hp0 : p0.hand_size = 0)
    (hm : pre.length ≤ 32767) :
    ∃ init, deal_writes 1 (pre ++ [c, c2]) (alloc_hands (pre ++ [c, c2]).length 1 [p0]) 0
        = init ++ [(0, ((pre.length : Nat) : Int)), (0, toInt16 (((pre.length : Nat) : Int) + 1))]
      ∧ init.length = pre.length
      ∧ (toInt16 (((pre.length : Nat) : Int) + 1) < 0 →
          deal_hands (pre ++ [c, c2]) [p0] = none) := by
  have hn : (0 : Nat) < 1 := Nat.one_pos
  have hcap : ∀ j, j < pre.length →
      j / 1 < (pre ++ [c, c2]).length / 1 + 1 ∧ j / 1 + 1 ≤ 32767 := by
    intro j hj
    simp only [Nat.div_one, List.length_append, List.length_cons, List.length_nil]
    omega
  have hinit := dealInv_init pre (pre ++ [c, c2]).length [p0]
    (by intro p hp; rw [List.mem_singleton.mp hp]; exact hp0)
  simp only [List.length_singleton] at hinit
  obtain ⟨ps1, hdeal1, hinv1⟩ := deal_spec pre 1 ((pre ++ [c, c2]).length / 1 + 1)
    (alloc_hands (pre ++ [c, c2]).length 1 [p0]) hn hcap pre 0
    (alloc_hands (pre ++ [c, c2]).length 1 [p0]) (Nat.zero_le _) rfl hinit
  have hw := deal_writes_spec pre 1 ((pre ++ [c, c2]).length / 1 + 1)
    (alloc_hands (pre ++ [c, c2]).length 1 [p0]) hn hcap pre 0
    (alloc_hands (pre ++ [c, c2]).length 1 [p0]) (Nat.zero_le _) rfl hinit
  obtain ⟨o, q1, _, hq1, _, hs, hl, _⟩ := hinv1.final hn
  have hlen1 := hinv1.1
  have hps1 : ps1 = [q1] := by
    match ps1, hlen1, hq1 with
    | [x], _, hq => simp only [List.getElem?_cons_zero, Option.some.injEq] at hq; rw [hq]
  subst hps1
  have hdl : (dealt_cards pre 1 0).length = pre.length := by
    rw [dealt_cards_length pre 1 0 hn hn]
    simp [Nat.mod_one]
  rw [hdl] at hs hl
  simp only [List.length_append, List.length_cons, List.length_nil, Nat.div_one] at hl
  simp only [Nat.zero_mod] at hdeal1 hw
  have hstep : ∃ q2, deal_card [q1] 0 c = some [q2]
      ∧ q2.hand_size = toInt16 (q1.hand_size + 1) := by
    simp only [deal_card, List.getElem?_cons_zero]
    rw [if_pos ⟨by omega, by omega⟩]
    exact ⟨{ q1 with hand := q1.hand.set q1.hand_size.toNat c,
                     hand_size := toInt16 (q1.hand_size + 1) }, by simp, rfl⟩
  obtain ⟨q2, hstep, hq2⟩ := hstep
  rw [hs] at hq2
  refine ⟨deal_writes 1 pre (alloc_hands (pre ++ [c, c2]).length 1 [p0]) 0, ?_, ?_, ?_⟩
  · rw [deal_writes_append 1 pre [c, c2] _ [q1] 0 hn hdeal1]
    congr 1
    simp only [Nat.mod_one, deal_writes, List.getElem?_cons_zero, hstep, hs, hq2]
    cases deal_card [q2] 0 c2 <;> rfl
  · rw [hw, List.length_map, List.length_range']
  · intro hneg
    unfold deal_hands
    simp only [List.length_singleton]
    rw [if_neg (by omega), deal_append 1 pre [c, c2] _ 0 hn, hdeal1]
    simp only [Option.some_bind, Nat.mod_one, deal, hstep]
    have hnone : deal_card [q2] 0 c2 = none := by
      simp only [deal_card, List.getElem?_cons_zero]
      rw [if_neg]
      rw [hq2]
      omega
    rw [hnone]

/-- C23, as the code has it: for every deck of `D` cards and every roster of `n ≥ 1` players
with empty hands whose largest hand, `⌈D / n⌉` cards, fits the `int16_t` field `hand_size`,
every hand is allocated `D / n + 1` slots, the dealing loop of `start_game` makes exactly `D`
writes, the `j`-th of them into the hand at position `j % n` at index `j / n`, every write is
at an index that is not negative and strictly below `D / n + 1`, and the dealing returns. -/
theorem deal_writes_within_allocation (deck : List Int) (players : List Player)
    (hn : 0 < players.length) (hempty : ∀ p ∈ players, p.hand_size = 0)
    (hfit : (deck.length + players.length - 1) / players.length ≤ 32767) :
    (∀ p ∈ alloc_hands deck.length players.length players,
        p.hand.length = deck.length / players.length + 1)
      ∧ deal_writes players.length deck (alloc_hands deck.length players.length players) 0
          = (List.range deck.length).map
              (fun j => (j % players.length, ((j / players.length : Nat) : Int)))
      ∧ (∀ w ∈ deal_writes players.length deck
            (alloc_hands deck.length players.length players) 0,
          w.1 < players.length ∧ 0 ≤ w.2
            ∧ w.2 < ((deck.length / players.length + 1 : Nat) : Int))
      ∧ ∃ dealt, deal_hands deck players = some dealt := by
  have hcap : ∀ j, j < deck.length →
      j / players.length < deck.length / players.length + 1
        ∧ j / players.length + 1 ≤ 32767 := by
    intro j hj
    constructor
    · have := Nat.div_le_div_right (c := players.length) (show j ≤ deck.length by omega)
      omega
    · have := succ_div_le players.length j deck.length hn hj
      omega
  have hinit := dealInv_init deck deck.length players hempty
  have hspec := deal_writes_spec deck players.length (deck.length / players.length + 1)
    (alloc_hands deck.length players.length players) hn hcap deck 0
    (alloc_hands deck.length players.length players) (Nat.zero_le _) rfl hinit
  rw [Nat.zero_mod, ← List.range_eq_range'] at hspec
  refine ⟨?_, hspec, ?_, ?_⟩
  · intro p hp
    simp only [alloc_hands, List.mem_map] at hp
    obtain ⟨q, _, rfl⟩ := hp
    simp
  · intro w hw
    rw [hspec] at hw
    obtain ⟨j, hj, rfl⟩ := List.mem_map.mp hw
    have := (hcap j (List.mem_range.mp hj)).1
    refine ⟨Nat.mod_lt j hn, Int.ofNat_nonneg _, ?_⟩
    show ((j / players.length : Nat) : Int) < ((deck.length / players.length + 1 : Nat) : Int)
    exact_mod_cast this
  · obtain ⟨dealt, hdeal, _⟩ := deal_hands_spec deck players hn hempty hfit
    exact ⟨dealt, hdeal⟩

theorem deal_writes_within_allocation_witness :
    ((0 : Nat) < demo_lobby.length ∧ (∀ p ∈ demo_lobby, p.hand_size = 0)
        ∧ (([6, 3, 4, 1, 2] : List Int).length + demo_lobby.length - 1) / demo_lobby.length
            ≤ 32767)
      ∧ deal_writes demo_lobby.length [6, 3, 4, 1, 2]
            (alloc_hands ([6, 3, 4, 1, 2] : List Int).length demo_lobby.length demo_lobby) 0
          = [(0, 0), (1, 0), (2, 0), (0, 1), (1, 1)]
      ∧ ∀ w ∈ deal_writes demo_lobby.length [6, 3, 4, 1, 2]
            (alloc_hands ([6, 3, 4, 1, 2] : List Int).length demo_lobby.length demo_lobby) 0,
          w.1 < demo_lobby.length ∧ 0 ≤ w.2
            ∧ w.2 < (((([6, 3, 4, 1, 2] : List Int).length / demo_lobby.length + 1 : Nat) : Nat) : Int) :=
  ⟨⟨by decide, by decide, by decide⟩, by decide,
   (deal_writes_within_allocation [6, 3, 4, 1, 2] demo_lobby (by decide) (by decide)
     (by decide)).2.2.1⟩

/-- C23 as stated fails beyond the 16-bit range: when a deck of 32769 cards is dealt to one
player with an empty hand, the hand is allocated 32770 slots, the write of the 32768th card is
at index 32767, after which `hand_size` is -32768, and the write of the last card is at index
-32768: below `D / n + 1`, but before the buffer and so outside the allocation. The dealing has
no defined result. -/
theorem deal_writes_counterexample :
    ((List.range 32767).map (fun (j : Nat) => (j : Int)) ++ [32767, 32768]).length = 32769
      ∧ (∀ p ∈ alloc_hands 32769 1 [Player.mk 3 0 0 [] 0 []], p.hand.length = 32769 / 1 + 1)
      ∧ (∃ init, deal_writes 1 ((List.range 32767).map (fun (j : Nat) => (j : Int))
              ++ [32767, 32768]) (alloc_hands 32769 1 [Player.mk 3 0 0 [] 0 []]) 0
            = init ++ [(0, 32767), (0, -32768)]
          ∧ init.length = 32767)
      ∧ (∃ w ∈ deal_writes 1 ((List.range 32767).map (fun (j : Nat) => (j : Int))
              ++ [32767, 32768]) (alloc_hands 32769 1 [Player.mk 3 0 0 [] 0 []]) 0,
          w.2 < ((32769 / 1 + 1 : Nat) : Int) ∧ w.2 < 0)
      ∧ deal_hands ((List.range 32767).map (fun (j : Nat) => (j : Int)) ++ [32767, 32768])
          [Player.mk 3 0 0 [] 0 []] = none := by
  have hlen : ((List.range 32767).map (fun (j : Nat) => (j : Int)) ++ [32767, 32768]).length
      = 32769 := by
    rw [List.length_append, List.length_map, List.length_range]
    rfl
  obtain ⟨init, htrace, hinit, hnone⟩ := deal_writes_single
    ((List.range 32767).map (fun (j : Nat) => (j : Int))) 32767 32768
    (Player.mk 3 0 0 [] 0 []) rfl (by rw [List.length_map, List.length_range])
  rw [hlen] at htrace
  rw [List.length_map, List.length_range] at htrace hinit hnone
  have hwrap : toInt16 (((32767 : Nat) : Int) + 1) = -32768 := by decide
  rw [hwrap] at htrace hnone
  refine ⟨hlen, ?_, ⟨init, htrace, hinit⟩, ⟨(0, -32768), ?_, by decide, by decide⟩,
    hnone (by decide)⟩
  · intro p hp
    simp only [alloc_hands, List.map_cons, List.map_nil, List.mem_singleton] at hp
    rw [hp]
    exact List.length_replicate _ _
  · rw [htrace]
    simp

/-! ### A correct guess is a rearrangement of the solution -/

theorem category_base_succ (nums : List Int) (i : Nat) (hi : i < nums.length) :
    category_base nums (i + 1) = category_base nums i + nums.getD i 0 := by
  unfold category_base
  rw [List.sum_take_succ nums i hi, List.getD_eq_getElem _ _ hi]

theorem category_base_mono (nums : List Int) (hpos : ∀ n ∈ nums, 0 < n) (i : Nat) :
    ∀ j, i < j → j ≤ nums.length →
      category_base nums i + nums.getD i 0 ≤ category_base nums j := by
  intro j
  induction j with
  | zero => intro h; omega
  | succ j ih =>
      intro hij hj
      by_cases h : i = j
      · subst h
        rw [category_base_succ nums i (by omega)]
      · have h1 := ih (by omega) (by omega)
        rw [category_base_succ nums j (by omega)]
        have hjpos : 0 < nums.getD j 0 := by
          rw [List.getD_eq_getElem _ _ (show j < nums.length by omega)]
          exact hpos _ (List.getElem_mem _)
        omega

/-- A solution with one card in each category's range has pairwise distinct cards. -/
theorem solution_nodup (nums solution : List Int) (hpos : ∀ n ∈ nums, 0 < n)
    (hlen : solution.length = nums.length)
    (hrange : ∀ i, i < nums.length → in_category nums i (solution.getD i 0) = true) :
    solution.Nodup := by
  have hlt : solution.Pairwise (· < ·) := by
    rw [List.pairwise_iff_getElem]
    intro i j hi hj hij
    have h1 := hrange i (by omega)
    have h2 := hrange j (by omega)
    simp only [in_category, in_range, decide_eq_true_eq, zero_add] at h1 h2
    rw [List.getD_eq_getElem _ _ hi] at h1
    rw [List.getD_eq_getElem _ _ hj] at h2
    have h3 := category_base_mono nums hpos i j hij (by omega)
    omega
  exact hlt.imp (fun h => ne_of_lt h)

/-- C22: for every catalog without an empty category, every solution with one card in each
category's ID range, as `start_game` draws it, and every solve attempt of exactly
`num_categories` card IDs: the cards of the solution are pairwise distinct; the attempt is
judged correct (`wrong = 0`) exactly when the guess is a rearrangement of the solution; a
guess that holds a card that is not in the solution, or that holds a card twice, is judged
wrong. The solution of every returning `start_game` on a catalog of at most 32767 cards is of
this kind. -/
theorem correct_guess_is_rearrangement (settings : Settings) (solution guess : List Int)
    (hpos : ∀ n ∈ settings.num_cards, 0 < n)
    (hlen : solution.length = settings.num_categories)
    (hrange : ∀ i, i < settings.num_categories →
      in_category settings.num_cards i (solution.getD i 0) = true)
    (hguess : guess.length = settings.num_categories) :
    solution.Nodup
      ∧ (solve_wrong solution guess = 0 → guess.Perm solution)
      ∧ (guess.Perm solution → solve_wrong solution guess = 0)
      ∧ (solve_correct solution guess = 1 ↔ solve_wrong solution guess = 0)
      ∧ ((∃ c ∈ guess, c ∉ solution) → solve_wrong solution guess ≠ 0)
      ∧ (¬ guess.Nodup → solve_wrong solution guess ≠ 0)
      ∧ (∀ (rand : Nat → Nat) (players : List Player) (g : Game),
          total_cards settings ≤ 32767 →
          start_game rand settings (total_cards settings) players = some g →
          g.solution.length = settings.num_categories
            ∧ ∀ i, i < settings.num_categories →
                in_category settings.num_cards i (g.solution.getD i 0) = true) := by
  have hnodup := solution_nodup settings.num_cards solution hpos hlen hrange
  have hiff : solve_wrong solution guess = 0 ↔ ∀ s ∈ solution, s ∈ guess := by
    unfold solve_wrong
    rw [solve_wrong_loop_eq_zero]
    exact ⟨fun h => h.2, fun h => ⟨rfl, h⟩⟩
  have hperm : solve_wrong solution guess = 0 → guess.Perm solution := by
    intro h
    have hsub : solution ⊆ guess := fun s hs => hiff.mp h s hs
    exact ((List.subperm_of_subset hnodup hsub).perm_of_length_le
      (by rw [hguess, hlen])).symm
  refine ⟨hnodup, hperm, ?_, ?_, ?_, ?_, ?_⟩
  · intro hp
    exact hiff.mpr (fun s hs => hp.mem_iff.mpr hs)
  · unfold solve_correct
    by_cases h : solve_wrong solution guess = 0
    · simp [h]
    · simp [h]
  · rintro ⟨c, hc, hnot⟩ h
    exact hnot ((hperm h).mem_iff.mp hc)
  · intro hdup h
    exact hdup ((hperm h).nodup_iff.mpr hnodup)
  · intro rand players g hfit hstart
    have htot := total_cards_eq settings
    obtain ⟨sol1, deck1, hpick1, hl1, hr⟩ := pick_solution_ranges rand settings.num_cards 0 0
      [] [] hpos (le_refl 0) (by omega)
    obtain ⟨d0, dealt, hp, _⟩ := start_game_inv rand settings (total_cards settings) players g
      hstart
    simp only [List.nil_append] at hpick1
    rw [hpick1] at hp
    have hsol : g.solution = sol1 := (Prod.mk.inj (Option.some.inj hp)).1.symm
    rw [hsol]
    exact ⟨hl1, fun i hi => hr i hi⟩

theorem correct_guess_is_rearrangement_witness :
    ((∀ n ∈ demo_settings.num_cards, 0 < n)
      ∧ ([0, 5] : List Int).length = demo_settings.num_categories
      ∧ (∀ i, i < demo_settings.num_categories →
          in_category demo_settings.num_cards i (([0, 5] : List Int).getD i 0) = true)
      ∧ ([5, 0] : List Int).length = demo_settings.num_categories)
    ∧ solve_wrong [0, 5] [5, 0] = 0
    ∧ solve_wrong [0, 5] [0, 0] ≠ 0
    ∧ (solve_wrong [0, 5] [5, 0] = 0 → ([5, 0] : List Int).Perm [0, 5]) :=
  ⟨⟨by decide, by decide, by decide, by decide⟩, by decide, by decide,
   (correct_guess_is_rearrangement demo_settings [0, 5] [5, 0] (by decide) (by decide)
      (by decide) (by decide)).2.1⟩

/-! ### The shuffle as a function of its index choices -/

theorem shuffle_succ {α : Type} (rand : Nat → Nat) (k : Nat) (arr : List α) (m : Nat) :
    shuffle rand k arr (m + 1) = swap_at (shuffle rand k arr m) (rand (k + m) % (m + 1)) m := by
  unfold shuffle
  rw [List.range_succ, List.foldl_append]
  rfl

theorem swap_at_length {α : Type} (a : List α) (j i : Nat) :
    (swap_at a j i).length = a.length := by
  unfold swap_at
  cases a[j]? with
  | none => rfl
  | some x =>
      cases a[i]? with
      | none => rfl
      | some y => simp

theorem shuffle_length {α : Type} (rand : Nat → Nat) (k : Nat) (arr : List α) (m : Nat) :
    (shuffle rand k arr m).length = arr.length := by
  induction m with
  | zero => rfl
  | succ m ih => rw [shuffle_succ, swap_at_length, ih]

/-- Entry `p` after the exchange of the positions `j` and `i`, both inside the array. -/
theorem swap_at_getElem? {α : Type} (a : List α) (j i p : Nat) (hj : j < a.length)
    (hi : i < a.length) :
    (swap_at a j i)[p]? = if p = i then a[j]? else if p = j then a[i]? else a[p]? := by
  unfold swap_at
  rw [List.getElem?_eq_getElem hj, List.getElem?_eq_getElem hi]
  simp only []
  rw [List.getElem?_set, List.getElem?_set]
  by_cases h1 : p = i
  · subst h1
    simp [hi]
  · by_cases h2 : p = j
    · subst h2
      simp [h1, hj, Ne.symm h1]
    · simp [h1, h2, Ne.symm h1, Ne.symm h2]

theorem swap_at_swap_at {α : Type} (a : List α) (j i : Nat) (hj : j < a.length)
    (hi : i < a.length) : swap_at (swap_at a j i) j i = a := by
  apply List.ext_getElem?
  intro p
  rw [swap_at_getElem? _ j i p (by rw [swap_at_length]; exact hj)
    (by rw [swap_at_length]; exact hi), swap_at_getElem? a j i j hj hi,
    swap_at_getElem? a j i i hj hi, swap_at_getElem? a j i p hj hi]
  by_cases h1 : p = i
  · subst h1
    by_cases h2 : j = p
    · subst h2; simp
    · simp [h2]
  · by_cases h2 : p = j
    · subst h2; simp [h1]
    · simp [h1, h2]

/-- The first `m` iterations of `shuffle` leave the entries from position `m` on alone. -/
theorem shuffle_untouched {α : Type} (rand : Nat → Nat) (k : Nat) (arr : List α) :
    ∀ (m p : Nat), m ≤ p → m ≤ arr.length → (shuffle rand k arr m)[p]? = arr[p]? := by
  intro m
  induction m with
  | zero => intro p _ _; rfl
  | succ m ih =>
      intro p hp hm
      have hlen := shuffle_length rand k arr m
      have hjm : rand (k + m) % (m + 1) < m + 1 := Nat.mod_lt _ (Nat.succ_pos m)
      rw [shuffle_succ, swap_at_getElem? _ _ _ p (by omega) (by omega),
        if_neg (by omega), if_neg (by omega)]
      exact ih p (by omega) (by omega)

/-- The array after `m` iterations depends only on the indices drawn in them. -/
theorem shuffle_congr {α : Type} (rand1 rand2 : Nat → Nat) (k : Nat) (arr : List α) :
    ∀ (m : Nat), (∀ i, i < m → rand1 (k + i) % (i + 1) = rand2 (k + i) % (i + 1)) →
      shuffle rand1 k arr m = shuffle rand2 k arr m := by
  intro m
  induction m with
  | zero => intro _; rfl
  | succ m ih =>
      intro h
      rw [shuffle_succ, shuffle_succ, ih (fun i hi => h i (by omega)), h m (by omega)]

/-- On an array without repetition the indices drawn can be read off the result. -/
theorem shuffle_injective {α : Type} [DecidableEq α] (rand1 rand2 : Nat → Nat) (k : Nat)
    (arr : List α) (hnd : arr.Nodup) :
    ∀ (m : Nat), m ≤ arr.length → shuffle rand1 k arr m = shuffle rand2 k arr m →
      ∀ i, i < m → rand1 (k + i) % (i + 1) = rand2 (k + i) % (i + 1) := by
  intro m
  induction m with
  | zero => intro _ _ i hi; omega
  | succ m ih =>
      intro hm heq i hi
      have hlen1 := shuffle_length rand1 k arr m
      have hlen2 := shuffle_length rand2 k arr m
      have hj1 : rand1 (k + m) % (m + 1) < m + 1 := Nat.mod_lt _ (Nat.succ_pos m)
      have hj2 : rand2 (k + m) % (m + 1) < m + 1 := Nat.mod_lt _ (Nat.succ_pos m)
      rw [shuffle_succ, shuffle_succ] at heq
      have hm1 : (shuffle rand1 k arr m)[m]? = arr[m]? :=
        shuffle_untouched rand1 k arr m m (le_refl _) (by omega)
      have hm2 : (shuffle rand2 k arr m)[m]? = arr[m]? :=
        shuffle_untouched rand2 k arr m m (le_refl _) (by omega)
      have hB1 : (swap_at (shuffle rand1 k arr m) (rand1 (k + m) % (m + 1)) m)[
          rand1 (k + m) % (m + 1)]? = arr[m]? := by
        rw [swap_at_getElem? _ _ _ _ (by omega) (by omega)]
        by_cases h : rand1 (k + m) % (m + 1) = m
        · rw [if_pos h, h, hm1]
        · rw [if_neg h, if_pos rfl, hm1]
      have hB2 : (swap_at (shuffle rand2 k arr m) (rand2 (k + m) % (m + 1)) m)[
          rand2 (k + m) % (m + 1)]? = arr[m]? := by
        rw [swap_at_getElem? _ _ _ _ (by omega) (by omega)]
        by_cases h : rand2 (k + m) % (m + 1) = m
        · rw [if_pos h, h, hm2]
        · rw [if_neg h, if_pos rfl, hm2]
      have hBnd : (swap_at (shuffle rand1 k arr m) (rand1 (k + m) % (m + 1)) m).Nodup :=
        (((swap_at_perm _ _ _).trans (shuffle_perm rand1 k arr m)).nodup_iff).mpr hnd
      have hjeq : rand1 (k + m) % (m + 1) = rand2 (k + m) % (m + 1) := by
        apply List.getElem?_inj (by rw [swap_at_length]; omega) hBnd
        rw [hB1]
        rw [heq, hB2]
      by_cases him : i = m
      · rw [him]
        exact hjeq
      · have hA : shuffle rand1 k arr m = shuffle rand2 k arr m := by
          have h1 := swap_at_swap_at (shuffle rand1 k arr m) (rand1 (k + m) % (m + 1)) m
            (by omega) (by omega)
          have h2 := swap_at_swap_at (shuffle rand2 k arr m) (rand2 (k + m) % (m + 1)) m
            (by omega) (by omega)
          rw [← h1, ← h2, heq, hjeq]
        exact ih (by omega) hA i (by omega)
theorem take_append_getD (js : List Nat) (n : Nat) (h : js.length = n + 1) :
    js.take n ++ [js.getD n 0] = js := by
  apply List.ext_getElem
  · simp [h]
  · intro i h1 h2
    by_cases hi : i < n
    · rw [List.getElem_append_left (by simp; omega), List.getElem_take]
    · have hin : i = n := by omega
      subst hin
      rw [List.getElem_append_right (by simp [h])]
      simp [List.getD_eq_getElem _ _ h2, h]

theorem mem_choice_seqs : ∀ (n : Nat) (js : List Nat),
    js ∈ choice_seqs n ↔ valid_choices n js := by
  intro n
  induction n with
  | zero =>
      intro js
      simp only [choice_seqs, List.mem_singleton, valid_choices]
      constructor
      · rintro rfl
        exact ⟨rfl, fun i hi => absurd hi (Nat.not_lt_zero i)⟩
      · intro h
        exact List.length_eq_zero.mp h.1
  | succ n ih =>
      intro js
      simp only [choice_seqs, List.mem_flatMap, List.mem_map, List.mem_range]
      constructor
      · rintro ⟨js1, hjs1, j, hj, rfl⟩
        obtain ⟨hl, hv⟩ := (ih js1).mp hjs1
        refine ⟨by simp [hl], ?_⟩
        intro i hi
        by_cases hin : i < n
        · rw [List.getD_append _ _ _ _ (by omega)]
          exact hv i hin
        · have : i = n := by omega
          subst this
          rw [List.getD_append_right _ _ _ _ (by omega), hl]
          simp
          omega
      · rintro ⟨hl, hv⟩
        refine ⟨js.take n, (ih _).mpr ⟨by simp [hl], ?_⟩, js.getD n 0, ?_,
          take_append_getD js n hl⟩
        · intro i hi
          have h1 := hv i (by omega)
          have h2 : (js.take n).getD i 0 = js.getD i 0 := by
            rw [List.getD_eq_getElem _ _ (by simp [hl]; omega),
              List.getD_eq_getElem _ _ (by omega), List.getElem_take]
          rw [h2]
          exact h1
        · have := hv n (by omega)
          omega

theorem length_flatMap_const {β γ : Type} (f : β → List γ) (c : Nat)
    (hf : ∀ x, (f x).length = c) : ∀ (l : List β), (l.flatMap f).length = l.length * c := by
  intro l
  induction l with
  | nil => simp
  | cons x l ih =>
      rw [List.flatMap_cons, List.length_append, ih, hf, List.length_cons]
      ring

theorem length_choice_seqs : ∀ (n : Nat), (choice_seqs n).length = n.factorial := by
  intro n
  induction n with
  | zero => rfl
  | succ n ih =>
      rw [choice_seqs, length_flatMap_const _ (n + 1) (by intro x; simp), ih,
        Nat.factorial_succ]
      ring

theorem nodup_choice_seqs : ∀ (n : Nat), (choice_seqs n).Nodup := by
  intro n
  induction n with
  | zero => simp [choice_seqs]
  | succ n ih =>
      rw [choice_seqs, List.nodup_flatMap]
      constructor
      · intro js _
        apply List.Nodup.map _ (List.nodup_range _)
        intro a b hab
        simpa using hab
      · refine List.Pairwise.imp ?_ ih
        intro a b hne
        show List.Disjoint _ _
        intro x hxa hxb
        obtain ⟨j1, _, rfl⟩ := List.mem_map.mp hxa
        obtain ⟨j2, _, h2⟩ := List.mem_map.mp hxb
        exact hne (List.append_inj' h2 rfl).1.symm

theorem draws_mod (n : Nat) (js : List Nat) (h : valid_choices n js) (i : Nat) (hi : i < n) :
    draws js (0 + i) % (i + 1) = js.getD i 0 := by
  unfold draws
  rw [Nat.zero_add]
  exact Nat.mod_eq_of_lt (by have := h.2 i hi; omega)

/-- C21: for every array `arr` of length `n`, every stream of `rand()` results and therefore
every sequence of index choices `js` with `js[i]` in `[0, i]`: iteration `i` of `shuffle`
exchanges the positions `js[i] ≤ i` and `i`, both inside the array, and the result is a
rearrangement of `arr`. There are `n!` such choice sequences, and when the entries of `arr`
are pairwise distinct the results of `shuffle` over all of them are, each once, the `n!`
arrangements of `arr`: every arrangement is the result of exactly one choice sequence. -/
theorem shuffle_bijection {α : Type} [DecidableEq α] (arr : List α) :
    (∀ (rand : Nat → Nat) (k : Nat),
        (∀ i, i < arr.length →
          rand (k + i) % (i + 1) ≤ i
            ∧ ((shuffle rand k arr i)[rand (k + i) % (i + 1)]?).isSome = true
            ∧ ((shuffle rand k arr i)[i]?).isSome = true)
        ∧ (shuffle rand k arr arr.length).Perm arr)
      ∧ (∀ js, valid_choices arr.length js →
          (∀ i, i < arr.length → draws js (0 + i) % (i + 1) = js.getD i 0)
            ∧ (shuffle (draws js) 0 arr arr.length).Perm arr)
      ∧ (∀ js, js ∈ choice_seqs arr.length ↔ valid_choices arr.length js)
      ∧ (choice_seqs arr.length).Nodup
      ∧ (choice_seqs arr.length).length = arr.length.factorial
      ∧ (arr.Nodup →
          ((choice_seqs arr.length).map
              (fun js => shuffle (draws js) 0 arr arr.length)).Perm arr.permutations
            ∧ (∀ js1 js2, valid_choices arr.length js1 → valid_choices arr.length js2 →
                shuffle (draws js1) 0 arr arr.length = shuffle (draws js2) 0 arr arr.length →
                js1 = js2)
            ∧ (∀ q : List α, q.Perm arr →
                ∃ js, valid_choices arr.length js
                  ∧ shuffle (draws js) 0 arr arr.length = q)) := by
  have hinj : arr.Nodup → ∀ js1 js2, valid_choices arr.length js1 →
      valid_choices arr.length js2 →
      shuffle (draws js1) 0 arr arr.length = shuffle (draws js2) 0 arr arr.length →
      js1 = js2 := by
    intro hnd js1 js2 h1 h2 heq
    have hall := shuffle_injective (draws js1) (draws js2) 0 arr hnd arr.length (le_refl _) heq
    apply List.ext_getElem (by rw [h1.1, h2.1])
    intro i hi1 hi2
    have hi : i < arr.length := by rw [← h1.1]; exact hi1
    have := hall i hi
    rw [draws_mod arr.length js1 h1 i hi, draws_mod arr.length js2 h2 i hi,
      List.getD_eq_getElem _ _ hi1, List.getD_eq_getElem _ _ hi2] at this
    exact this
  have hmap : arr.Nodup → ((choice_seqs arr.length).map
      (fun js => shuffle (draws js) 0 arr arr.length)).Perm arr.permutations := by
    intro hnd
    have hnodup : ((choice_seqs arr.length).map
        (fun js => shuffle (draws js) 0 arr arr.length)).Nodup := by
      apply List.Nodup.map_on _ (nodup_choice_seqs _)
      intro x hx y hy hxy
      exact hinj hnd x y ((mem_choice_seqs _ _).mp hx) ((mem_choice_seqs _ _).mp hy) hxy
    have hsub : (choice_seqs arr.length).map
        (fun js => shuffle (draws js) 0 arr arr.length) ⊆ arr.permutations := by
      intro q hq
      obtain ⟨js, _, rfl⟩ := List.mem_map.mp hq
      exact List.mem_permutations.mpr (shuffle_perm _ _ _ _)
    exact (List.subperm_of_subset hnodup hsub).perm_of_length_le
      (by rw [List.length_permutations, List.length_map, length_choice_seqs])
  refine ⟨?_, ?_, mem_choice_seqs arr.length, nodup_choice_seqs _, length_choice_seqs _, ?_⟩
  · intro rand k
    refine ⟨?_, shuffle_perm rand k arr arr.length⟩
    intro i hi
    have hj : rand (k + i) % (i + 1) < i + 1 := Nat.mod_lt _ (Nat.succ_pos i)
    have hlen := shuffle_length rand k arr i
    refine ⟨by omega, ?_, ?_⟩
    · rw [List.getElem?_eq_getElem (by omega)]
      rfl
    · rw [List.getElem?_eq_getElem (by omega)]
      rfl
  · intro js hjs
    exact ⟨fun i hi => draws_mod arr.length js hjs i hi, shuffle_perm _ _ _ _⟩
  · intro hnd
    refine ⟨hmap hnd, hinj hnd, ?_⟩
    intro q hq
    have hmem : q ∈ (choice_seqs arr.length).map
        (fun js => shuffle (draws js) 0 arr arr.length) :=
      (hmap hnd).mem_iff.mpr (List.mem_permutations.mpr hq)
    obtain ⟨js, hjs, hq2⟩ := List.mem_map.mp hmem
    exact ⟨js, (mem_choice_seqs _ _).mp hjs, hq2⟩

theorem shuffle_bijection_witness :
    ([7, 8, 9] : List Int).Nodup
      ∧ choice_seqs 3 = [[0, 0, 0], [0, 0, 1], [0, 0, 2], [0, 1, 0], [0, 1, 1], [0, 1, 2]]
      ∧ (choice_seqs 3).map (fun js => shuffle (draws js) 0 ([7, 8, 9] : List Int) 3)
          = [[9, 7, 8], [8, 9, 7], [8, 7, 9], [9, 8, 7], [7, 9, 8], [7, 8, 9]]
      ∧ ((choice_seqs ([7, 8, 9] : List Int).length).map
            (fun js => shuffle (draws js) 0 ([7, 8, 9] : List Int)
              ([7, 8, 9] : List Int).length)).Perm ([7, 8, 9] : List Int).permutations :=
  ⟨by decide, by decide, by decide,
   ((shuffle_bijection ([7, 8, 9] : List Int)).2.2.2.2.2 (by decide)).1⟩

end Clue
